import Mathlib

/-!
DS18B20 over UART/DMA: a shallow embedding of `ds18b20_uart.c`.

The driver's globals become the record `Driver`, a device context becomes
`DS18B20_t`, and a `DS18B20_t*` is the pair of a pointer identity (a `Nat`)
and the pointee.  Machine integers are `Nat`/`Int` with explicit wrap-around.
What the hardware answers (the echo of the reset pulse, the symbol seen in a
read slot, the millisecond tick) is an explicit input of the function that
consumes it.  `Driver.trace` is a ghost field recording the HAL transfers that
were issued, in order.

`float temperature` is modelled in `ℚ`: `temp` is a 16-bit integer and the
division by `16.0f` is exact in binary32, so no rounding is involved.
-/

namespace DS18B20

/-! ## Constants (`ds18b20_uart.c` lines 10-22, `ds18b20_uart.h` lines 13-21) -/

def DS_ZERO : Nat := 0x00
def DS_ONE : Nat := 0xFF
def DS_RST : Nat := 0xF0

def CMD_SKIP_ROM : Nat := 0xCC
def CMD_MATCH_ROM : Nat := 0x55
def CMD_CONVERT : Nat := 0x44
def CMD_READ : Nat := 0xBE
def CMD_SEARCH_ROM : Nat := 0xF0
def CMD_WRITE_SCRATCHPAD : Nat := 0x4E
def CMD_COPY_SCRATCHPAD : Nat := 0x48

def PRECISION_9BIT : Nat := 0x1F
def PRECISION_10BIT : Nat := 0x3F
def PRECISION_11BIT : Nat := 0x5F
def PRECISION_12BIT : Nat := 0x7F

def DEFAULT_ALARM_TL : Nat := 0x4B
def DEFAULT_ALARM_TH : Nat := 0x46

/-! ## Data model -/

/-- The enum `DS18B20_State_t` of the header. -/
inductive DS18B20_State_t where
  | DS_IDLE
  | DS_WAIT_ACCESS
  | DS_RESET
  | DS_MATCH_ROM
  | DS_SEND_ADDRESS
  | DS_CONVERT_T
  | DS_WAIT_CONVERSION
  | DS_RESET_2
  | DS_MATCH_ROM_2
  | DS_SEND_ADDRESS_2
  | DS_READ
  | DS_READ_LSB
  | DS_READ_MSB
  | DS_CALC
  | DS_ERROR
  deriving DecidableEq, Repr

open DS18B20_State_t

/-- The struct `DS18B20_t`: `address` is `uint8_t[8]`, `lsb`, `msb` and
`presence` are `uint8_t`, `last_conv` is `uint32_t`. -/
structure DS18B20_t where
  address : List Nat
  temperature : ℚ
  lsb : Nat
  msb : Nat
  presence : Nat
  state : DS18B20_State_t
  last_conv : Nat
  deriving DecidableEq

/-- One HAL transfer on the bus, as recorded in the ghost trace. -/
inductive HalCall where
  /-- The blocking reset pulse of `ds_reset` (0xF0 at 9600 baud). -/
  | reset_pulse
  /-- A call `HAL_UART_Transmit_DMA` with the symbols it sends. -/
  | transmit_dma (symbols : List Nat)
  /-- A call `HAL_UART_Receive_DMA` for the given number of symbols. -/
  | receive_dma (count : Nat)
  /-- The blocking one-symbol `HAL_UART_Transmit` of `ds_write_bit`. -/
  | transmit_blocking (symbol : Nat)
  deriving DecidableEq, Repr

/-- The file-scope variables of `ds18b20_uart.c` (lines 27-54), plus the
ghost `trace`.  `ds_bus_owner` holds the identity of the owning device
context, `none` for `NULL`. -/
structure Driver where
  ds_tx_buf : List Nat
  ds_rx_buf : List Nat
  ds_rx_done : Nat
  ds_tx_done : Nat
  temp : Int
  last_discrepancy : Nat
  last_device_flag : Nat
  last_rom : List Nat
  ds_bus_owner : Option Nat
  trace : List HalCall
  deriving DecidableEq

/-- The initial values of the globals (the initialisers of lines 27-54). -/
def Driver.initial : Driver where
  ds_tx_buf := List.replicate 64 0
  ds_rx_buf := List.replicate 8 0
  ds_rx_done := 1
  ds_tx_done := 1
  temp := 0
  last_discrepancy := 0
  last_device_flag := 0
  last_rom := List.replicate 8 0
  ds_bus_owner := none
  trace := []

/-- The function `DS18B20_Init` (lines 57-64): clears the search state. -/
def DS18B20_Init (g : Driver) : Driver :=
  { g with
    last_discrepancy := 0
    last_device_flag := 0
    last_rom := (List.range 8).foldl (fun rom i => rom.set i 0) g.last_rom }

/-! ## Symbol transport and primitives -/

/-- The function `ds_read` (lines 76-86): eight read slots. -/
def ds_read (g : Driver) : Driver :=
  let buf := (List.range 8).foldl (fun b i => b.set i DS_ONE) g.ds_tx_buf
  { g with
    ds_tx_buf := buf
    ds_rx_done := 0
    ds_tx_done := 0
    trace := g.trace ++ [HalCall.receive_dma 8, HalCall.transmit_dma (buf.take 8)] }

/-- The function `ds_convert` (lines 89-99): decode `ds_rx_buf` into a byte. -/
def ds_convert (g : Driver) : Nat :=
  (List.range 8).foldl
    (fun value i => if g.ds_rx_buf.getD i 0 = 0xFF then value ||| (1 <<< i) else value) 0

/-- The function `ds_write` (lines 102-114): one byte, least significant bit
first. -/
def ds_write (value : Nat) (g : Driver) : Driver :=
  let buf := (List.range 8).foldl
    (fun b i => if value &&& (1 <<< i) ≠ 0 then b.set i DS_ONE else b.set i DS_ZERO)
    g.ds_tx_buf
  { g with
    ds_tx_buf := buf
    ds_tx_done := 0
    trace := g.trace ++ [HalCall.transmit_dma (buf.take 8)] }

/-- The return value of `ds_reset` (lines 117-130) from what the blocking
receive delivers: `none` when `HAL_UART_Receive` does not return `HAL_OK`. -/
def ds_reset_result (echo : Option Nat) : Int :=
  match echo with
  | none => -1
  | some data => if data = 0xF0 then -2 else 1

/-- The function `ds_reset` (lines 117-130).  The transfers are blocking and
leave the completion flags alone. -/
def ds_reset (echo : Option Nat) (g : Driver) : Driver × Int :=
  ({ g with trace := g.trace ++ [HalCall.reset_pulse] }, ds_reset_result echo)

/-- Storing the `int8_t` result of `ds_reset` in the `uint8_t` field
`presence`. -/
def to_uint8 (v : Int) : Nat := (v % 256).toNat

/-- The function `ds_write_address` (lines 133-146). -/
def ds_write_address (data : List Nat) (len : Nat) (g : Driver) : Driver :=
  let buf := (List.range len).foldl
    (fun b byte => (List.range 8).foldl
      (fun b bit =>
        if data.getD byte 0 &&& (1 <<< bit) ≠ 0 then b.set (byte * 8 + bit) DS_ONE
        else b.set (byte * 8 + bit) DS_ZERO) b)
    g.ds_tx_buf
  { g with
    ds_tx_buf := buf
    ds_tx_done := 0
    trace := g.trace ++ [HalCall.transmit_dma (buf.take (len * 8))] }

/-- The function `DS18B20_RX_Callback` (lines 426-431); `same` tells whether
`huart == ds_huart`. -/
def DS18B20_RX_Callback (same : Bool) (g : Driver) : Driver :=
  if same then { g with ds_rx_done := 1 } else g

/-- The function `DS18B20_TX_Callback` (lines 434-438). -/
def DS18B20_TX_Callback (same : Bool) (g : Driver) : Driver :=
  if same then { g with ds_tx_done := 1 } else g

/-- The busy wait `while (!ds_tx_done);` for a transfer that completes: the
loop is left at once when the flag is set, and otherwise when the transmit
completion callback has run. -/
def wait_tx_done (g : Driver) : Driver :=
  if g.ds_tx_done ≠ 0 then g else DS18B20_TX_Callback true g

/-- The conversion `(int16_t)` of a non-negative `int` value. -/
def to_int16 (v : Nat) : Int :=
  if 32768 ≤ v % 65536 then ((v % 65536 : Nat) : Int) - 65536 else ((v % 65536 : Nat) : Int)

/-- Subtraction of two `uint32_t` values. -/
def u32_sub (a b : Nat) : Nat := (a % 2 ^ 32 + 2 ^ 32 - b % 2 ^ 32) % 2 ^ 32

/-! ## The device state machine -/

/-- The function `DS18B20_Handle` (lines 256-357).  `self` is the identity of
the pointer `thermometer`, `tick` is what `HAL_GetTick()` returns and `echo`
is what the bus answers should this call send a reset pulse. -/
def DS18B20_Handle (self : Nat) (tick : Nat) (echo : Option Nat)
    (g : Driver) (t : DS18B20_t) : Driver × DS18B20_t :=
  if g.ds_bus_owner ≠ none ∧ g.ds_bus_owner ≠ some self then (g, t)
  else
    let now := tick % 2 ^ 32
    match t.state with
    | DS_IDLE => (g, t)
    | DS_WAIT_ACCESS => ({ g with ds_bus_owner := some self }, { t with state := DS_RESET })
    | DS_RESET =>
      if g.ds_tx_done = 0 ∨ g.ds_rx_done = 0 then (g, t)
      else
        let (g1, r) := ds_reset echo g
        let t1 := { t with presence := to_uint8 r }
        if t1.presence ≠ 1 then
          ({ g1 with ds_bus_owner := none }, { t1 with state := DS_ERROR })
        else (g1, { t1 with state := DS_MATCH_ROM })
    | DS_MATCH_ROM =>
      if g.ds_tx_done = 0 ∨ g.ds_rx_done = 0 then (g, t)
      else (ds_write CMD_MATCH_ROM g, { t with state := DS_SEND_ADDRESS })
    | DS_SEND_ADDRESS =>
      if g.ds_tx_done = 0 ∨ g.ds_rx_done = 0 then (g, t)
      else (ds_write_address t.address 8 g, { t with state := DS_CONVERT_T })
    | DS_CONVERT_T =>
      if g.ds_tx_done = 0 ∨ g.ds_rx_done = 0 then (g, t)
      else
        ({ ds_write CMD_CONVERT g with ds_bus_owner := none },
         { t with last_conv := now, state := DS_WAIT_CONVERSION })
    | DS_WAIT_CONVERSION =>
      if g.ds_tx_done = 0 ∨ g.ds_rx_done = 0 then (g, t)
      else if u32_sub now t.last_conv < 750 then ({ g with ds_bus_owner := none }, t)
      else (g, { t with state := DS_RESET_2 })
    | DS_RESET_2 =>
      let (g1, r) := ds_reset echo g
      let t1 := { t with presence := to_uint8 r }
      if t1.presence ≠ 1 then
        ({ g1 with ds_bus_owner := none }, { t1 with state := DS_ERROR })
      else (g1, { t1 with state := DS_MATCH_ROM_2 })
    | DS_MATCH_ROM_2 =>
      if g.ds_tx_done = 0 ∨ g.ds_rx_done = 0 then (g, t)
      else (ds_write CMD_MATCH_ROM g, { t with state := DS_SEND_ADDRESS_2 })
    | DS_SEND_ADDRESS_2 =>
      if g.ds_tx_done = 0 ∨ g.ds_rx_done = 0 then (g, t)
      else (ds_write_address t.address 8 g, { t with state := DS_READ })
    | DS_READ =>
      if g.ds_tx_done = 0 ∨ g.ds_rx_done = 0 then (g, t)
      else (ds_write CMD_READ g, { t with state := DS_READ_LSB })
    | DS_READ_LSB =>
      if g.ds_tx_done = 0 ∨ g.ds_rx_done = 0 then (g, t)
      else (ds_read g, { t with state := DS_READ_MSB })
    | DS_READ_MSB =>
      if g.ds_tx_done = 0 ∨ g.ds_rx_done = 0 then (g, t)
      else (ds_read g, { t with lsb := ds_convert g, state := DS_CALC })
    | DS_CALC =>
      if g.ds_tx_done = 0 ∨ g.ds_rx_done = 0 then (g, t)
      else
        let msb := ds_convert g
        let temp := to_int16 ((msb <<< 8) ||| t.lsb)
        ({ g with temp := temp, ds_bus_owner := none },
         { t with msb := msb, temperature := (temp : ℚ) / 16, state := DS_IDLE })
    | DS_ERROR => (g, t)

/-- The function `DS18B20_SetPrecision` (lines 360-416).  `echo1` and `echo2`
are what the bus answers to the first and to the second reset pulse.  The
result is the returned value, the globals and the device context. -/
def DS18B20_SetPrecision (self : Nat) (precision : Nat) (echo1 echo2 : Option Nat)
    (g : Driver) (t : DS18B20_t) : Nat × Driver × DS18B20_t :=
  if g.ds_bus_owner ≠ none ∧ g.ds_bus_owner ≠ some self then (0, g, t)
  else
    let g0 := { g with ds_bus_owner := some self }
    let (g1, r1) := ds_reset echo1 g0
    let t1 := { t with presence := to_uint8 r1 }
    if t1.presence ≠ 1 then (0, g1, t1)
    else
      let g2 := wait_tx_done (ds_write CMD_MATCH_ROM g1)
      let g3 := wait_tx_done (ds_write_address t1.address 8 g2)
      let g4 := wait_tx_done (ds_write CMD_WRITE_SCRATCHPAD g3)
      let g5 := wait_tx_done (ds_write DEFAULT_ALARM_TH g4)
      let g6 := wait_tx_done (ds_write DEFAULT_ALARM_TL g5)
      let config : Option Nat :=
        match precision with
        | 9 => some PRECISION_9BIT
        | 10 => some PRECISION_10BIT
        | 11 => some PRECISION_11BIT
        | 12 => some PRECISION_12BIT
        | _ => none
      match config with
      | none => (0, g6, t1)
      | some c =>
        let g7 := wait_tx_done (ds_write c g6)
        let (g8, r2) := ds_reset echo2 g7
        let t2 := { t1 with presence := to_uint8 r2 }
        if t2.presence ≠ 1 then (0, g8, t2)
        else
          let g9 := wait_tx_done (ds_write CMD_MATCH_ROM g8)
          let g10 := wait_tx_done (ds_write_address t2.address 8 g9)
          let g11 := wait_tx_done (ds_write CMD_COPY_SCRATCHPAD g10)
          (1, { g11 with ds_bus_owner := none }, t2)

/-- The function `DS18B20_Measure` (lines 419-423).  It reads and writes the
device context only. -/
def DS18B20_Measure (t : DS18B20_t) : DS18B20_t :=
  if t.state = DS_IDLE then { t with state := DS_WAIT_ACCESS } else t

/-! ## Several device contexts on one bus -/

/-- The driver's globals together with the device contexts of the
application; the identity of a context is its position in `devs`. -/
structure System where
  g : Driver
  devs : List DS18B20_t
  deriving DecidableEq

/-- What can happen to a `System`: the application calls `DS18B20_Measure` or
`DS18B20_Handle` on context `i`, or the hardware completes a transfer (the
receive DMA has filled `ds_rx_buf` with `data`, resp. the transmit DMA is
done) and the driver's callback runs. -/
inductive Event where
  | measure (i : Nat)
  | poll (i : Nat) (tick : Nat) (echo : Option Nat)
  | rx_complete (data : List Nat)
  | tx_complete
  deriving DecidableEq

/-- One event applied to the system. -/
def System.step (s : System) : Event → System
  | Event.measure i =>
    match s.devs[i]? with
    | none => s
    | some t => { s with devs := s.devs.set i (DS18B20_Measure t) }
  | Event.poll i tick echo =>
    match s.devs[i]? with
    | none => s
    | some t =>
      let r := DS18B20_Handle i tick echo s.g t
      { g := r.1, devs := s.devs.set i r.2 }
  | Event.rx_complete data =>
    { s with g := DS18B20_RX_Callback true { s.g with ds_rx_buf := data } }
  | Event.tx_complete => { s with g := DS18B20_TX_Callback true s.g }

/-- A sequence of events applied from left to right. -/
def System.run (s : System) (evs : List Event) : System := evs.foldl System.step s

/-- The property `all devices Idle, bus unowned`. -/
def System.quiet (s : System) : Prop :=
  s.g.ds_bus_owner = none ∧ ∀ t ∈ s.devs, t.state = DS_IDLE

/-- The states between taking the bus in `DS_WAIT_ACCESS` and giving it back
in `DS_CONVERT_T`. -/
def first_phase (st : DS18B20_State_t) : Bool :=
  match st with
  | DS_RESET | DS_MATCH_ROM | DS_SEND_ADDRESS | DS_CONVERT_T => true
  | _ => false

/-- The states outside `{Idle, WaitAccess}`. -/
def active (st : DS18B20_State_t) : Bool :=
  match st with
  | DS_IDLE | DS_WAIT_ACCESS => false
  | _ => true

/-- A device context with the given address, as the application declares it. -/
def DS18B20_t.fresh (address : List Nat) : DS18B20_t where
  address := address
  temperature := 0
  lsb := 0
  msb := 0
  presence := 0
  state := DS_IDLE
  last_conv := 0

/-- The state of device context `i`, when there is one. -/
def System.state_of (s : System) (i : Nat) : Option DS18B20_State_t :=
  (s.devs[i]?).map (fun t => t.state)

/-- The HAL transfers issued by one event, each tagged with the device context
whose Poll issued it. -/
def System.issued (s : System) : Event → List (Nat × HalCall)
  | Event.poll i tick echo =>
    (((s.step (Event.poll i tick echo)).g.trace.drop s.g.trace.length).map (fun c => (i, c)))
  | _ => []

/-- The HAL transfers issued along a sequence of events, in order, each tagged
with the polled device context. -/
def System.attributed : System → List Event → List (Nat × HalCall)
  | _, [] => []
  | s, e :: evs => s.issued e ++ System.attributed (s.step e) evs

/-- Two device contexts in `DS_IDLE` on an unowned bus. -/
def two_idle : System where
  g := Driver.initial
  devs := [DS18B20_t.fresh [0x28, 1, 2, 3, 4, 5, 6, 7], DS18B20_t.fresh [0x28, 8, 9, 10, 11, 12, 13, 14]]

/-- Device 0 is measured and polled up to `DS_WAIT_CONVERSION`, every transfer
completing; the conversion starts at tick 0. -/
def first_phase_of_0 : List Event :=
  [Event.measure 0, Event.measure 1,
   Event.poll 0 0 none, Event.poll 0 0 (some 0xE0),
   Event.poll 0 0 none, Event.tx_complete,
   Event.poll 0 0 none, Event.tx_complete,
   Event.poll 0 0 none, Event.tx_complete]

/-- Device 1 is polled from `DS_WAIT_ACCESS` up to `DS_WAIT_CONVERSION`, every
transfer completing. -/
def first_phase_of_1 : List Event :=
  [Event.poll 1 1000 none, Event.poll 1 1000 (some 0xE0),
   Event.poll 1 1000 none, Event.tx_complete,
   Event.poll 1 1000 none, Event.tx_complete,
   Event.poll 1 1000 none, Event.tx_complete]

/-- Every device context in a first-phase state is the bus owner. -/
def System.owner_inv (s : System) : Prop :=
  ∀ i t, s.devs[i]? = some t → first_phase t.state = true → s.g.ds_bus_owner = some i

/-- Device 0 is polled from `DS_WAIT_CONVERSION` through its second phase up
to `DS_CALC`, 1000 ticks after the conversion started, every transfer
completing. -/
def second_phase_of_0 : List Event :=
  [Event.poll 0 1000 none, Event.poll 0 1000 (some 0xE0),
   Event.poll 0 1000 none, Event.tx_complete,
   Event.poll 0 1000 none, Event.tx_complete,
   Event.poll 0 1000 none, Event.tx_complete,
   Event.poll 0 1000 none, Event.rx_complete [0xFF, 0, 0, 0, 0xFF, 0, 0xFF, 0], Event.tx_complete,
   Event.poll 0 1000 none]

/-- Device 0 runs its first phase; then, 1000 ticks later, it leaves
`DS_WAIT_CONVERSION` and sends its second reset pulse; device 1 then runs its
whole first phase; then device 0 is polled again. -/
def interleaved_polls : List Event :=
  first_phase_of_0 ++ [Event.poll 0 1000 none, Event.poll 0 1000 (some 0xE0)] ++
    first_phase_of_1 ++ [Event.poll 0 1000 none]

/-! ## The ROM search -/

/-- What the bus answers during a ROM search.  `reset_echo` is what the
blocking receive of `ds_reset` delivers.  `read_slot written second` is the
symbol received in a read slot after the bits `written` have been written
since the search command; `second` tells the complement slot from the first
slot of the pair. -/
structure Bus where
  reset_echo : Option Nat
  read_slot : List Bool → Bool → Nat

/-- The function `ds_read_bit` (lines 149-164), `symbol` being what the
receive DMA delivers.  Only the receive completion is awaited. -/
def ds_read_bit (symbol : Nat) (g : Driver) : Driver × Nat :=
  ({ g with
     ds_rx_done := 1
     ds_tx_done := 0
     trace := g.trace ++ [HalCall.receive_dma 1, HalCall.transmit_dma [DS_ONE]] },
   if symbol = 0xFF then 1 else 0)

/-- The function `ds_write_bit` (lines 167-173). -/
def ds_write_bit (bit : Nat) (g : Driver) : Driver :=
  { g with trace := g.trace ++ [HalCall.transmit_blocking (if bit ≠ 0 then DS_ONE else DS_ZERO)] }

/-- The local variables of `DS18B20_SearchRom` (lines 177-181); `written` is a
ghost variable holding the bits written to the bus so far in this call. -/
structure SearchLocals where
  bit_number : Nat
  last_zero : Nat
  rom_byte_number : Nat
  rom_byte_mask : Nat
  rom : List Nat
  written : List Bool
  deriving DecidableEq

/-- How the `while` loop of `DS18B20_SearchRom` ends. -/
inductive LoopResult where
  /-- The loop is still running when the fuel is used up. -/
  | out_of_fuel
  /-- The `return 0` of line 203. -/
  | aborted (g : Driver)
  /-- The loop condition `rom_byte_number < 8` is false. -/
  | finished (g : Driver) (l : SearchLocals)
  deriving DecidableEq

/-- Lines 206-224 of the loop body: the bit to write and the new value of
`last_zero`, from the two bits read. -/
def search_choice (r0 r1 : Nat) (g : Driver) (l : SearchLocals) : Nat × Nat :=
  if r0 = 0 ∧ r1 = 0 then
    if l.bit_number < g.last_discrepancy then
      if g.last_rom.getD l.rom_byte_number 0 &&& l.rom_byte_mask ≠ 0 then (1, l.last_zero)
      else (0, l.last_zero)
    else if l.bit_number = g.last_discrepancy then (1, l.last_zero)
    else (0, l.bit_number)
  else (r0, l.last_zero)

/-- Lines 228-238 of the loop body: the chosen bit is stored in `rom` and the
counters move to the next bit; the counters are `uint8_t`. -/
def SearchLocals.advance (l : SearchLocals) (chosen_bit last_zero : Nat) : SearchLocals where
  bit_number := (l.bit_number + 1) % 256
  last_zero := last_zero
  rom_byte_number :=
    if l.rom_byte_mask &&& 0x80 ≠ 0 then (l.rom_byte_number + 1) % 256 else l.rom_byte_number
  rom_byte_mask := if l.rom_byte_mask &&& 0x80 ≠ 0 then 1 else (l.rom_byte_mask <<< 1) % 256
  rom :=
    if chosen_bit ≠ 0 then
      l.rom.set l.rom_byte_number (l.rom.getD l.rom_byte_number 0 ||| l.rom_byte_mask)
    else l.rom
  written := l.written ++ [decide (chosen_bit ≠ 0)]

/-- One iteration of the loop body (lines 197-238): the globals afterwards,
and the locals afterwards or `none` for the `return 0` of line 203. -/
def search_body (bus : Bus) (g : Driver) (l : SearchLocals) : Driver × Option SearchLocals :=
  let p0 := ds_read_bit (bus.read_slot l.written false) g
  let p1 := ds_read_bit (bus.read_slot l.written true) p0.1
  if p0.2 = 1 ∧ p1.2 = 1 then
    ({ p1.1 with last_discrepancy := 0, last_device_flag := 0 }, none)
  else
    let choice := search_choice p0.2 p1.2 p1.1 l
    (ds_write_bit choice.1 p1.1, some (l.advance choice.1 choice.2))

/-- The loop `while (rom_byte_number < 8)` of lines 196-240, run for at most
`fuel` iterations. -/
def search_loop (bus : Bus) : Nat → Driver → SearchLocals → LoopResult
  | 0, g, l => if l.rom_byte_number < 8 then LoopResult.out_of_fuel else LoopResult.finished g l
  | fuel + 1, g, l =>
    if l.rom_byte_number < 8 then
      match search_body bus g l with
      | (g1, none) => LoopResult.aborted g1
      | (g1, some l1) => search_loop bus fuel g1 l1
    else LoopResult.finished g l

/-- The values of the locals at the start of `DS18B20_SearchRom`. -/
def SearchLocals.start : SearchLocals where
  bit_number := 1
  last_zero := 0
  rom_byte_number := 0
  rom_byte_mask := 1
  rom := List.replicate 8 0
  written := []

/-- The function `DS18B20_SearchRom` (lines 176-253) on the bus `bus`.  The
result is the returned value, the globals and the device context; it is
`none` only if the loop has not ended after 64 iterations. -/
def DS18B20_SearchRom (bus : Bus) (g : Driver) (t : DS18B20_t) :
    Option (Nat × Driver × DS18B20_t) :=
  if g.last_device_flag ≠ 0 then some (0, g, t)
  else
    let p := ds_reset bus.reset_echo g
    if p.2 ≠ 1 then some (0, { p.1 with last_discrepancy := 0, last_device_flag := 0 }, t)
    else
      let g2 := wait_tx_done (ds_write CMD_SEARCH_ROM p.1)
      match search_loop bus 64 g2 SearchLocals.start with
      | LoopResult.out_of_fuel => none
      | LoopResult.aborted g3 => some (0, g3, t)
      | LoopResult.finished g3 l =>
        let g4 := { g3 with last_discrepancy := l.last_zero }
        some (1,
          { g4 with
            last_device_flag := if g4.last_discrepancy = 0 then 1 else g4.last_device_flag
            last_rom := (List.range 8).foldl (fun a i => a.set i (l.rom.getD i 0)) g4.last_rom },
          { t with
            address := (List.range 8).foldl (fun a i => a.set i (l.rom.getD i 0)) t.address })

/-- Successive calls of `DS18B20_SearchRom` on the same device context: the
list of the returned value and of the context's address after each call,
with the final globals and context. -/
def search_calls (bus : Bus) :
    Nat → Driver → DS18B20_t → Option (List (Nat × List Nat) × Driver × DS18B20_t)
  | 0, g, t => some ([], g, t)
  | n + 1, g, t =>
    match DS18B20_SearchRom bus g t with
    | none => none
    | some r =>
      match search_calls bus n r.2.1 r.2.2 with
      | none => none
      | some rest => some ((r.1, r.2.2.address) :: rest.1, rest.2)

/-- Bit `k` (counted from 0) of an 8-byte identity: bit `k % 8` of byte
`k / 8`. -/
def rom_bit (rom : List Nat) (k : Nat) : Bool := (rom.getD (k / 8) 0).testBit (k % 8)

/-- An identity is 8 bytes. -/
def valid_rom (rom : List Nat) : Prop := rom.length = 8 ∧ ∀ b ∈ rom, b < 256

/-- The first `n` bits of an identity. -/
def prefix_bits (rom : List Nat) (n : Nat) : List Bool := (List.range n).map (rom_bit rom)

/-- A device still takes part in the search when its identity matches every
bit written so far. -/
def responds (id : List Nat) (written : List Bool) : Bool :=
  decide (prefix_bits id written.length = written)

/-- The ideal bus holding the devices `devs`: the reset pulse is answered by a
presence pulse when there is a device, and a read slot returns the wired AND
of the current identity bit (of its complement in the second slot) over the
devices that match every bit written so far. -/
def ideal_bus (devs : List (List Nat)) : Bus where
  reset_echo := if devs.isEmpty then some 0xF0 else some 0xE0
  read_slot written second :=
    if (devs.filter (fun id => responds id written)).all
        (fun id => rom_bit id written.length != second)
    then DS_ONE else DS_ZERO

/-! ## The search on written bits

The loop of `DS18B20_SearchRom` seen through the bits written so far and
`last_zero` only; `search_loop` is shown below to compute the same. -/

/-- The two bits read before bit `written.length` is chosen. -/
def bus_reads (bus : Bus) (written : List Bool) : Bool × Bool :=
  (decide (bus.read_slot written false = 0xFF), decide (bus.read_slot written true = 0xFF))

/-- The chosen bit and the new `last_zero`, from the two bits read, the
1-based bit number, `last_discrepancy`, the bit of `last_rom` and the old
`last_zero`. -/
def choose_bit (r0 r1 : Bool) (bit_number ld : Nat) (last : Bool) (z : Nat) : Bool × Nat :=
  if r0 = false ∧ r1 = false then
    if bit_number < ld then (last, z)
    else if bit_number = ld then (true, z)
    else (false, bit_number)
  else (r0, z)

/-- The loop on written bits: `none` when two reads are both 1. -/
def bit_loop (bus : Bus) (ld : Nat) (last : List Nat) :
    Nat → List Bool → Nat → Option (List Bool × Nat)
  | 0, w, z => some (w, z)
  | n + 1, w, z =>
    if (bus_reads bus w).1 = true ∧ (bus_reads bus w).2 = true then none
    else
      bit_loop bus ld last n
        (w ++ [(choose_bit (bus_reads bus w).1 (bus_reads bus w).2 (w.length + 1) ld
          (rom_bit last w.length) z).1])
        (choose_bit (bus_reads bus w).1 (bus_reads bus w).2 (w.length + 1) ld
          (rom_bit last w.length) z).2

/-- The locals agree with the bits written so far. -/
def locals_ok (l : SearchLocals) : Prop :=
  l.written.length ≤ 64 ∧ l.bit_number = l.written.length + 1 ∧
    l.rom_byte_number = l.written.length / 8 ∧
    l.rom_byte_mask = 2 ^ (l.written.length % 8) ∧
    l.rom.length = 8 ∧ (∀ b ∈ l.rom, b < 256) ∧
    ∀ j, rom_bit l.rom j = l.written.getD j false

/-- The result of `search_loop` agrees with the result of `bit_loop`, and the
search state in the globals is as the loop leaves it. -/
def loop_agrees (g : Driver) (r : LoopResult) : Option (List Bool × Nat) → Prop
  | none =>
    ∃ g', r = LoopResult.aborted g' ∧ g'.last_discrepancy = 0 ∧ g'.last_device_flag = 0 ∧
      g'.last_rom = g.last_rom
  | some p =>
    ∃ g' l', r = LoopResult.finished g' l' ∧ g'.last_discrepancy = g.last_discrepancy ∧
      g'.last_device_flag = g.last_device_flag ∧ g'.last_rom = g.last_rom ∧
      locals_ok l' ∧ l'.written = p.1 ∧ l'.last_zero = p.2 ∧ p.1.length = 64

/-- The result of one call of `DS18B20_SearchRom` agrees with the result of
`bit_loop`: on an abort the call returns 0 with the search state cleared, and
otherwise it returns 1, `last_discrepancy` is the final `last_zero`,
`last_device_flag` is set when that is 0, and the device address and
`last_rom` both hold the bits written. -/
def call_agrees (g : Driver) (t : DS18B20_t) (r : Option (Nat × Driver × DS18B20_t)) :
    Option (List Bool × Nat) → Prop
  | none =>
    ∃ g', r = some (0, g', t) ∧ g'.last_discrepancy = 0 ∧ g'.last_device_flag = 0 ∧
      g'.last_rom = g.last_rom
  | some p =>
    ∃ g' t', r = some (1, g', t') ∧ g'.last_discrepancy = p.2 ∧
      g'.last_device_flag = (if p.2 = 0 then 1 else 0) ∧ g'.last_rom = t'.address ∧
      valid_rom t'.address ∧ (∀ j, rom_bit t'.address j = p.1.getD j false) ∧
      p.1.length = 64 ∧ t' = { t with address := t'.address }

/-- Identities `a` and `b` agree below bit `p`, where `a` has 0 and `b` has 1. -/
def lex_at (p : Nat) (a b : List Nat) : Prop :=
  (∀ j, j < p → rom_bit a j = rom_bit b j) ∧ rom_bit a p = false ∧ rom_bit b p = true

/-- Identity `a` comes before `b` when compared bit by bit from bit 0 upward. -/
def lex_lt (a b : List Nat) : Prop := ∃ p, lex_at p a b

/-- What the search state promises before a call on the bus `devs`: either a
fresh start, or `last_rom` is a device and some device agrees with it below
bit `last_discrepancy` and has 1 there, where `last_rom` has 0. -/
def search_pre (devs : List (List Nat)) (d : Nat) (last : List Nat) : Prop :=
  d = 0 ∨ (last ∈ devs ∧ ∃ other ∈ devs, lex_at (d - 1) last other)

/-- The invariant of the loop on the ideal bus, on the bits `w` written so
far and `last_zero = z`. -/
def pass_inv (devs : List (List Nat)) (d : Nat) (last : List Nat) (w : List Bool) (z : Nat) :
    Prop :=
  (∃ id ∈ devs, responds id w = true) ∧
    (∀ j, j < w.length → j + 1 < d → w.getD j false = rom_bit last j) ∧
    (1 ≤ d → d ≤ w.length → w.getD (d - 1) false = true) ∧
    (z = 0 ∨ (d < z ∧ z ≤ w.length ∧ w.getD (z - 1) false = false ∧
      ∃ other ∈ devs, (∀ j, j < z - 1 → rom_bit other j = w.getD j false) ∧
        rom_bit other (z - 1) = true)) ∧
    (d = 0 → z = 0 → ∀ id ∈ devs, responds id w = true)

/-- What holds of the search state between calls on the bus `devs`. -/
def search_inv (devs : List (List Nat)) (g : Driver) : Prop :=
  g.last_rom.length = 8 ∧
    (g.last_device_flag = 0 → search_pre devs g.last_discrepancy g.last_rom)

/-- Two states of the globals that a search cannot tell apart: the same
`last_discrepancy` and `last_device_flag`, and the same `last_rom` unless
`last_discrepancy` is 0. -/
def same_search (g1 g2 : Driver) : Prop :=
  g1.last_discrepancy = g2.last_discrepancy ∧ g1.last_device_flag = g2.last_device_flag ∧
    g1.last_rom.length = 8 ∧ g2.last_rom.length = 8 ∧
    (g1.last_discrepancy ≠ 0 → g1.last_rom = g2.last_rom)

/-- Two devices whose identities differ in the low bit of the second byte. -/
def two_devices : List (List Nat) :=
  [[0x28, 0x00, 0, 0, 0, 0, 0, 0], [0x28, 0x01, 0, 0, 0, 0, 0, 0]]

instance valid_rom_decidable (rom : List Nat) : Decidable (valid_rom rom) :=
  inferInstanceAs (Decidable (rom.length = 8 ∧ ∀ b ∈ rom, b < 256))

/-- Three devices whose identities differ in the two low bits of the second
byte only. -/
def three_devices : List (List Nat) :=
  [[0x28, 0x00, 0, 0, 0, 0, 0, 0], [0x28, 0x02, 0, 0, 0, 0, 0, 0], [0x28, 0x01, 0, 0, 0, 0, 0, 0]]

/-! ## Symbols on the wire -/

/-- The symbol that stands for a bit: `DS_ONE` for 1, `DS_ZERO` for 0. -/
def bit_symbol (b : Bool) : Nat := if b then DS_ONE else DS_ZERO

/-- The eight symbols of a byte, least significant bit first. -/
def byte_symbols (v : Nat) : List Nat := (List.range 8).map (fun i => bit_symbol (v.testBit i))

/-- The 64 symbols of an 8-byte address: symbol `j` is bit `j % 8` of byte
`j / 8`. -/
def address_symbols (data : List Nat) : List Nat :=
  (List.range 64).map (fun j => bit_symbol (rom_bit data j))

/-- The configuration byte that `DS18B20_SetPrecision` sends for a valid
precision (the `switch` of lines 384-399). -/
def precision_config (precision : Nat) : Nat :=
  match precision with
  | 9 => PRECISION_9BIT
  | 10 => PRECISION_10BIT
  | 11 => PRECISION_11BIT
  | _ => PRECISION_12BIT

/-- The globals when `DS18B20_SearchRom` enters its loop: after the reset
pulse and the search command (lines 187-194). -/
def search_entry (bus : Bus) (g : Driver) : Driver :=
  wait_tx_done (ds_write CMD_SEARCH_ROM (ds_reset bus.reset_echo g).1)

/-- The first `k` iterations of the loop body: the globals and the locals
when bit number `k + 1` is about to be read, `none` if the call has returned
before. -/
def search_steps (bus : Bus) : Nat → Driver → SearchLocals → Option (Driver × SearchLocals)
  | 0, g, l => some (g, l)
  | k + 1, g, l =>
    match search_body bus g l with
    | (_, none) => none
    | (g1, some l1) => search_steps bus k g1 l1

/-- The search state after the first call on the bus of `three_devices`:
the first device was found and the last zero was chosen at bit 10. -/
def after_first_of_three : Driver :=
  { Driver.initial with last_discrepancy := 10, last_rom := [0x28, 0x00, 0, 0, 0, 0, 0, 0] }

/-- The successor of a state along the chain `WaitAccess, Reset, ..., Calculate,
Idle` of one measurement cycle; `DS_IDLE` and `DS_ERROR` have none. -/
def chain_next : DS18B20_State_t → Option DS18B20_State_t
  | DS_IDLE => none
  | DS_WAIT_ACCESS => some DS_RESET
  | DS_RESET => some DS_MATCH_ROM
  | DS_MATCH_ROM => some DS_SEND_ADDRESS
  | DS_SEND_ADDRESS => some DS_CONVERT_T
  | DS_CONVERT_T => some DS_WAIT_CONVERSION
  | DS_WAIT_CONVERSION => some DS_RESET_2
  | DS_RESET_2 => some DS_MATCH_ROM_2
  | DS_MATCH_ROM_2 => some DS_SEND_ADDRESS_2
  | DS_SEND_ADDRESS_2 => some DS_READ
  | DS_READ => some DS_READ_LSB
  | DS_READ_LSB => some DS_READ_MSB
  | DS_READ_MSB => some DS_CALC
  | DS_CALC => some DS_IDLE
  | DS_ERROR => none

/-- Device 0 runs its first phase; 1000 ticks later one Poll takes it from
`DS_WAIT_CONVERSION` to `DS_RESET_2`; then device 1 is polled from
`DS_WAIT_ACCESS` until it has issued the byte `0x44`, and that transfer has
not completed yet. -/
def reset2_in_flight : List Event :=
  first_phase_of_0 ++ [Event.poll 0 1000 none] ++
    [Event.poll 1 1000 none, Event.poll 1 1000 (some 0xE0),
     Event.poll 1 1000 none, Event.tx_complete,
     Event.poll 1 1000 none, Event.tx_complete,
     Event.poll 1 1000 none]

/-- The globals and the context of device 0 after device 0 has run its first
phase and the application has then called `DS18B20_SetPrecision` on it with
precision 12 and the first presence check has failed. -/
def precision_while_waiting : Nat × Driver × DS18B20_t :=
  DS18B20_SetPrecision 0 12 none (some 0xE0) (two_idle.run first_phase_of_0).g
    ((two_idle.run first_phase_of_0).devs.getD 0 (DS18B20_t.fresh []))

/-- The bus operations of one measurement cycle of the device with address
`a`, in the order of the claim: reset, `0x55`, the address as one transfer of
64 symbols, `0x44`; reset, `0x55`, the address, `0xBE`, and two reads of eight
slots (a receive of eight symbols with eight read slots `0xFF` transmitted). -/
def cycle_ops (a : List Nat) : List HalCall :=
  [HalCall.reset_pulse,
   HalCall.transmit_dma (byte_symbols 0x55),
   HalCall.transmit_dma (address_symbols a),
   HalCall.transmit_dma (byte_symbols 0x44),
   HalCall.reset_pulse,
   HalCall.transmit_dma (byte_symbols 0x55),
   HalCall.transmit_dma (address_symbols a),
   HalCall.transmit_dma (byte_symbols 0xBE),
   HalCall.receive_dma 8, HalCall.transmit_dma (List.replicate 8 DS_ONE),
   HalCall.receive_dma 8, HalCall.transmit_dma (List.replicate 8 DS_ONE)]

/-- How many of the HAL calls of `cycle_ops` have been issued when the device
is in the given state of its cycle (`DS_IDLE`: the cycle is over). -/
def ops_before : DS18B20_State_t → Nat
  | DS_WAIT_ACCESS => 0
  | DS_RESET => 0
  | DS_MATCH_ROM => 1
  | DS_SEND_ADDRESS => 2
  | DS_CONVERT_T => 3
  | DS_WAIT_CONVERSION => 4
  | DS_RESET_2 => 4
  | DS_MATCH_ROM_2 => 5
  | DS_SEND_ADDRESS_2 => 6
  | DS_READ => 7
  | DS_READ_LSB => 8
  | DS_READ_MSB => 10
  | DS_CALC => 12
  | DS_IDLE => 12
  | DS_ERROR => 0

/-- The events of a measurement cycle in which every presence check succeeds:
Poll calls answered by a presence pulse whenever they send a reset pulse, and
completions of transfers. -/
def cycle_event : Event → Bool
  | Event.poll _ _ echo => decide (ds_reset_result echo = 1)
  | Event.rx_complete _ => true
  | Event.tx_complete => true
  | Event.measure _ => false

/-- What holds of the globals and of the only device context during its
measurement cycle: `tr0` are the HAL calls made before the cycle and `a` is the
address of the device. -/
def cycle_inv (tr0 : List HalCall) (a : List Nat) (g : Driver) (t : DS18B20_t) : Prop :=
  t.address = a ∧ t.state ≠ DS_ERROR ∧
    (g.ds_bus_owner = none ∨ g.ds_bus_owner = some 0) ∧ g.ds_tx_buf.length = 64 ∧
    g.trace = tr0 ++ (cycle_ops a).take (ops_before t.state)

/-- One complete measurement cycle of a single device: the conversion is
started at tick 0 and read back at tick 750; the sensor answers `0x91` and
`0x01` (25.0625 degrees). -/
def full_cycle : List Event :=
  [Event.poll 0 0 (some 0xE0), Event.poll 0 0 (some 0xE0),
   Event.poll 0 0 (some 0xE0), Event.tx_complete,
   Event.poll 0 0 (some 0xE0), Event.tx_complete,
   Event.poll 0 0 (some 0xE0), Event.tx_complete,
   Event.poll 0 100 (some 0xE0),
   Event.poll 0 750 (some 0xE0), Event.poll 0 750 (some 0xE0),
   Event.poll 0 750 (some 0xE0), Event.tx_complete,
   Event.poll 0 750 (some 0xE0), Event.tx_complete,
   Event.poll 0 750 (some 0xE0), Event.tx_complete,
   Event.poll 0 750 (some 0xE0),
   Event.rx_complete [0xFF, 0, 0, 0, 0xFF, 0, 0, 0xFF], Event.tx_complete,
   Event.poll 0 750 (some 0xE0),
   Event.rx_complete [0xFF, 0, 0, 0, 0, 0, 0, 0], Event.tx_complete,
   Event.poll 0 750 (some 0xE0)]

/-- The part of `pass_inv` that holds whatever search state the call starts
from: some device matches the bits `w` written so far, and `last_zero = z` is 0
or a bit number above `d` where 0 was written although some device that agrees
on the earlier bits has 1. -/
def pass_inv_any (devs : List (List Nat)) (d : Nat) (w : List Bool) (z : Nat) : Prop :=
  (∃ id ∈ devs, responds id w = true) ∧
    (z = 0 ∨ (d < z ∧ z ≤ w.length ∧ w.getD (z - 1) false = false ∧
      ∃ other ∈ devs, (∀ j, j < z - 1 → rom_bit other j = w.getD j false) ∧
        rom_bit other (z - 1) = true))

/-! ## Theorems -/

theorem shift_or_eq (msb lsb : Nat) (h : lsb < 256) : (msb <<< 8) ||| lsb = msb * 256 + lsb := by
  have := Nat.mul_add_lt_is_or (i := 8) (by simpa using h) msb
  rw [Nat.shiftLeft_eq, Nat.mul_comm, ← this]

theorem to_int16_bytes (msb lsb : Nat) (hm : msb < 256) (hl : lsb < 256) :
    to_int16 (msb * 256 + lsb) =
      if 0x80 ≤ msb then ((msb * 256 + lsb : Nat) : Int) - 65536
      else ((msb * 256 + lsb : Nat) : Int) := by
  unfold to_int16
  have h1 : (msb * 256 + lsb) % 65536 = msb * 256 + lsb := Nat.mod_eq_of_lt (by omega)
  rw [h1]
  by_cases h : 0x80 ≤ msb
  · rw [if_pos (by omega), if_pos h]
  · rw [if_neg (by omega), if_neg h]

theorem decode_fold_lt (buf : List Nat) (l : List Nat) (hl : ∀ i ∈ l, i < 8) :
    ∀ v, v < 256 →
      l.foldl (fun value i => if buf.getD i 0 = 0xFF then value ||| (1 <<< i) else value) v
        < 256 := by
  induction l with
  | nil => intro v hv; simpa using hv
  | cons a l ih =>
    intro v hv
    rw [List.foldl_cons]
    apply ih (fun i hi => hl i (List.mem_cons_of_mem _ hi))
    have ha : a < 8 := hl a (List.mem_cons_self _ _)
    split
    · have h2 : (1 <<< a) < 2 ^ 8 := by
        rw [Nat.shiftLeft_eq, Nat.one_mul]
        exact Nat.pow_lt_pow_right (by decide) ha
      exact Nat.or_lt_two_pow (n := 8) hv h2
    · exact hv

theorem ds_convert_lt (g : Driver) : ds_convert g < 256 :=
  decode_fold_lt g.ds_rx_buf (List.range 8) (fun i hi => List.mem_range.mp hi) 0 (by decide)

theorem u32_sub_eq (a b : Nat) : ((u32_sub a b : Nat) : Int) = ((a : Int) - (b : Int)) % 2 ^ 32 := by
  unfold u32_sub
  norm_num
  omega

theorem handle_calc (self tick : Nat) (echo : Option Nat) (g : Driver) (t : DS18B20_t)
    (hstate : t.state = DS_CALC) (hrx : g.ds_rx_done ≠ 0) (htx : g.ds_tx_done ≠ 0)
    (hown : g.ds_bus_owner = none ∨ g.ds_bus_owner = some self) :
    DS18B20_Handle self tick echo g t =
      ({ g with temp := to_int16 ((ds_convert g <<< 8) ||| t.lsb), ds_bus_owner := none },
       { t with msb := ds_convert g,
                temperature := (to_int16 ((ds_convert g <<< 8) ||| t.lsb) : ℚ) / 16,
                state := DS_IDLE }) := by
  have h0 : ¬ (g.ds_bus_owner ≠ none ∧ g.ds_bus_owner ≠ some self) := by
    rcases hown with h | h <;> simp [h]
  have h1 : ¬ (g.ds_tx_done = 0 ∨ g.ds_rx_done = 0) := by
    intro h; rcases h with h | h
    · exact htx h
    · exact hrx h
  unfold DS18B20_Handle
  rw [if_neg h0]
  simp only [hstate]
  rw [if_neg h1]

/-- C1: a Poll on a device in `DS_CALC`, with both completion flags set and the
bus unowned or owned by the device, stores `temperature = raw16 / 16`, where
`raw16` is `msb * 256 + lsb` read as a signed 16-bit integer (65536 is
subtracted when `msb >= 0x80`), `lsb` being the stored low byte and `msb` the
byte decoded from the receive buffer; `msb = 0x07, lsb = 0xD0` gives 125 and
`msb = 0xFF, lsb = 0xF8` gives -1/2. -/
theorem handle_calc_temperature (self tick : Nat) (echo : Option Nat) (g : Driver)
    (t : DS18B20_t) (lsb msb : Nat)
    (hstate : t.state = DS_CALC) (hrx : g.ds_rx_done ≠ 0) (htx : g.ds_tx_done ≠ 0)
    (hown : g.ds_bus_owner = none ∨ g.ds_bus_owner = some self)
    (hlsb : t.lsb = lsb) (hl : lsb < 256) (hmsb : ds_convert g = msb) :
    (DS18B20_Handle self tick echo g t).2.temperature =
        ((if 0x80 ≤ msb then ((msb * 256 + lsb : Nat) : Int) - 65536
          else ((msb * 256 + lsb : Nat) : Int) : Int) : ℚ) / 16 ∧
      (DS18B20_Handle self tick echo g t).2.msb = msb ∧
      (DS18B20_Handle self tick echo g t).2.lsb = lsb ∧
      (msb = 0x07 → lsb = 0xD0 → (DS18B20_Handle self tick echo g t).2.temperature = 125) ∧
      (msb = 0xFF → lsb = 0xF8 →
        (DS18B20_Handle self tick echo g t).2.temperature = -(1 / 2)) := by
  have hm : msb < 256 := hmsb ▸ ds_convert_lt g
  have key : (DS18B20_Handle self tick echo g t).2.temperature =
      ((if 0x80 ≤ msb then ((msb * 256 + lsb : Nat) : Int) - 65536
        else ((msb * 256 + lsb : Nat) : Int) : Int) : ℚ) / 16 := by
    rw [handle_calc self tick echo g t hstate hrx htx hown]
    simp only [hmsb, hlsb]
    rw [shift_or_eq msb lsb hl, to_int16_bytes msb lsb hm hl]
  refine ⟨key, ?_, ?_, ?_, ?_⟩
  · rw [handle_calc self tick echo g t hstate hrx htx hown]
    exact hmsb
  · rw [handle_calc self tick echo g t hstate hrx htx hown]
    exact hlsb
  · intro h1 h2
    rw [key, h1, h2]
    norm_num
  · intro h1 h2
    rw [key, h1, h2]
    norm_num

/-- Witness of C1: the receive buffer decodes to 0xFF and the stored low byte
is 0xF8. -/
theorem handle_calc_temperature_witness :
    (DS18B20_Handle 0 0 none
        { Driver.initial with ds_rx_buf := [0xFF, 0xFF, 0xFF, 0xFF, 0xFF, 0xFF, 0xFF, 0xFF] }
        { DS18B20_t.fresh [] with state := DS_CALC, lsb := 0xF8 }).2.temperature
      = -(1 / 2) :=
  (handle_calc_temperature 0 0 none
    { Driver.initial with ds_rx_buf := [0xFF, 0xFF, 0xFF, 0xFF, 0xFF, 0xFF, 0xFF, 0xFF] }
    { DS18B20_t.fresh [] with state := DS_CALC, lsb := 0xF8 } 0xF8 0xFF
    rfl (by decide) (by decide) (Or.inl rfl) rfl (by decide) (by decide)).2.2.2.2 rfl rfl

theorem handle_wait_conversion (self tick : Nat) (echo : Option Nat) (g : Driver)
    (t : DS18B20_t) (hstate : t.state = DS_WAIT_CONVERSION)
    (hrx : g.ds_rx_done ≠ 0) (htx : g.ds_tx_done ≠ 0)
    (hown : g.ds_bus_owner = none ∨ g.ds_bus_owner = some self) :
    DS18B20_Handle self tick echo g t =
      if u32_sub (tick % 2 ^ 32) t.last_conv < 750 then ({ g with ds_bus_owner := none }, t)
      else (g, { t with state := DS_RESET_2 }) := by
  have h0 : ¬ (g.ds_bus_owner ≠ none ∧ g.ds_bus_owner ≠ some self) := by
    rcases hown with h | h <;> simp [h]
  have h1 : ¬ (g.ds_tx_done = 0 ∨ g.ds_rx_done = 0) := by
    intro h; rcases h with h | h
    · exact htx h
    · exact hrx h
  unfold DS18B20_Handle
  rw [if_neg h0]
  simp only [hstate]
  rw [if_neg h1]

/-- C8: for a device in `DS_WAIT_CONVERSION`, with both completion flags set
and the bus unowned or owned by it, a Poll at tick `tick` moves the device to
`DS_RESET_2` if and only if `(tick - last_conv) mod 2^32 >= 750`, and otherwise
leaves it in `DS_WAIT_CONVERSION`; in terms of the elapsed time `e < 2^32`
counted on the wrapping 32-bit tick counter, it advances iff `750 <= e`, so it
stays at 749 and advances at 750. -/
theorem handle_wait_conversion_threshold (self tick : Nat) (echo : Option Nat) (g : Driver)
    (t : DS18B20_t) (hstate : t.state = DS_WAIT_CONVERSION)
    (hrx : g.ds_rx_done ≠ 0) (htx : g.ds_tx_done ≠ 0)
    (hown : g.ds_bus_owner = none ∨ g.ds_bus_owner = some self) :
    ((DS18B20_Handle self tick echo g t).2.state = DS_RESET_2 ↔
        750 ≤ ((tick : Int) - (t.last_conv : Int)) % 2 ^ 32) ∧
      ((DS18B20_Handle self tick echo g t).2.state ≠ DS_RESET_2 →
        (DS18B20_Handle self tick echo g t).2.state = DS_WAIT_CONVERSION) ∧
      (∀ e : Nat, e < 2 ^ 32 → tick % 2 ^ 32 = (t.last_conv + e) % 2 ^ 32 →
        ((DS18B20_Handle self tick echo g t).2.state = DS_RESET_2 ↔ 750 ≤ e)) := by
  have hcast : ((u32_sub (tick % 2 ^ 32) t.last_conv : Nat) : Int)
      = ((tick : Int) - (t.last_conv : Int)) % 2 ^ 32 := by
    rw [u32_sub_eq]
    norm_num
    omega
  have hiff : (DS18B20_Handle self tick echo g t).2.state = DS_RESET_2 ↔
      750 ≤ u32_sub (tick % 2 ^ 32) t.last_conv := by
    rw [handle_wait_conversion self tick echo g t hstate hrx htx hown]
    by_cases h : u32_sub (tick % 2 ^ 32) t.last_conv < 750
    · rw [if_pos h]
      simp only [hstate]
      constructor
      · intro h'; cases h'
      · intro h'; omega
    · rw [if_neg h]
      simp only [true_iff]
      omega
  refine ⟨?_, ?_, ?_⟩
  · rw [hiff, ← hcast]
    exact Int.ofNat_le.symm
  · intro hne
    rw [handle_wait_conversion self tick echo g t hstate hrx htx hown] at hne ⊢
    by_cases h : u32_sub (tick % 2 ^ 32) t.last_conv < 750
    · rw [if_pos h]; exact hstate
    · rw [if_neg h] at hne; exact absurd rfl hne
  · intro e he htick
    rw [hiff]
    have : u32_sub (tick % 2 ^ 32) t.last_conv = e := by
      unfold u32_sub
      norm_num at he htick ⊢
      omega
    rw [this]

/-- Witness of C8: the conversion started at tick `2^32 - 100` and the counter
has wrapped to 650, 750 ticks later. -/
theorem handle_wait_conversion_threshold_witness :
    (DS18B20_Handle 0 650 none Driver.initial
        { DS18B20_t.fresh [] with state := DS_WAIT_CONVERSION,
                                  last_conv := 4294967196 }).2.state = DS_RESET_2 :=
  ((handle_wait_conversion_threshold 0 650 none Driver.initial
    { DS18B20_t.fresh [] with state := DS_WAIT_CONVERSION, last_conv := 4294967196 }
    rfl (by decide) (by decide) (Or.inl rfl)).2.2 750 (by decide) (by decide)).mpr
    (Nat.le_refl 750)

/-- C9: `DS18B20_Measure` on a device in `DS_IDLE` sets its state to
`DS_WAIT_ACCESS` and changes no other field; on a device in any other state it
changes nothing; calling it twice is the same as calling it once; and as a step
of the system it leaves the globals (completion flags, bus owner, search
state) and every other device context unchanged. -/
theorem measure_effect (t : DS18B20_t) (s : System) (i : Nat) :
    (t.state = DS_IDLE → DS18B20_Measure t = { t with state := DS_WAIT_ACCESS }) ∧
      (t.state ≠ DS_IDLE → DS18B20_Measure t = t) ∧
      DS18B20_Measure (DS18B20_Measure t) = DS18B20_Measure t ∧
      (s.step (Event.measure i)).g = s.g ∧
      (∀ j, j ≠ i → (s.step (Event.measure i)).devs[j]? = s.devs[j]?) ∧
      (s.step (Event.measure i)).devs[i]? = (s.devs[i]?).map DS18B20_Measure ∧
      (s.step (Event.measure i)).step (Event.measure i) = s.step (Event.measure i) := by
  have hidem : ∀ u : DS18B20_t, DS18B20_Measure (DS18B20_Measure u) = DS18B20_Measure u := by
    intro u
    unfold DS18B20_Measure
    by_cases h : u.state = DS_IDLE
    · simp [h]
    · simp [h]
  refine ⟨?_, ?_, hidem t, ?_, ?_, ?_, ?_⟩
  · intro h; unfold DS18B20_Measure; rw [if_pos h]
  · intro h; unfold DS18B20_Measure; rw [if_neg h]
  · cases h : s.devs[i]? <;> simp [System.step, h]
  · intro j hj
    cases h : s.devs[i]? with
    | none => simp [System.step, h]
    | some u => simp [System.step, h, List.getElem?_set_ne (Ne.symm hj)]
  · cases h : s.devs[i]? with
    | none => simp [System.step, h]
    | some u =>
      have hi : i < s.devs.length := (List.getElem?_eq_some.mp h).1
      simp [System.step, h, List.getElem?_set_self hi]
  · cases h : s.devs[i]? with
    | none => simp [System.step, h]
    | some u =>
      have hi : i < s.devs.length := (List.getElem?_eq_some.mp h).1
      simp [System.step, h, List.getElem?_set_self hi, hidem]

/-- Witness of C9: a device in `DS_IDLE` moves to `DS_WAIT_ACCESS`. -/
theorem measure_effect_witness :
    DS18B20_Measure (DS18B20_t.fresh []) =
      { DS18B20_t.fresh [] with state := DS_WAIT_ACCESS } :=
  (measure_effect (DS18B20_t.fresh []) ⟨Driver.initial, []⟩ 0).1 rfl

theorem to_uint8_reset (echo : Option Nat) :
    to_uint8 (ds_reset_result echo) = 1 ↔ ds_reset_result echo = 1 := by
  cases echo with
  | none => decide
  | some d =>
    simp only [ds_reset_result]
    split <;> decide

/-- C10: with every issued transfer completing, `DS18B20_SetPrecision` returns
1 if and only if the bus is unowned or owned by the device, both presence
checks succeed and the precision is 9, 10, 11 or 12; in every other case it
returns 0. -/
theorem set_precision_result (self precision : Nat) (echo1 echo2 : Option Nat)
    (g : Driver) (t : DS18B20_t) :
    ((DS18B20_SetPrecision self precision echo1 echo2 g t).1 = 1 ↔
        ((g.ds_bus_owner = none ∨ g.ds_bus_owner = some self) ∧
          ds_reset_result echo1 = 1 ∧ ds_reset_result echo2 = 1 ∧
          (precision = 9 ∨ precision = 10 ∨ precision = 11 ∨ precision = 12))) ∧
      ((DS18B20_SetPrecision self precision echo1 echo2 g t).1 ≠ 1 →
        (DS18B20_SetPrecision self precision echo1 echo2 g t).1 = 0) := by
  have hp1 := to_uint8_reset echo1
  have hp2 := to_uint8_reset echo2
  unfold DS18B20_SetPrecision
  simp only [ds_reset]
  by_cases hown : g.ds_bus_owner ≠ none ∧ g.ds_bus_owner ≠ some self
  · rw [if_pos hown]
    refine ⟨⟨fun h => (Nat.zero_ne_one h).elim, fun h => ?_⟩, fun _ => rfl⟩
    rcases h.1 with h1 | h1
    · exact absurd h1 hown.1
    · exact absurd h1 hown.2
  · rw [if_neg hown]
    have hown2 : g.ds_bus_owner = none ∨ g.ds_bus_owner = some self := by
      by_cases h : g.ds_bus_owner = none
      · exact Or.inl h
      · by_cases h2 : g.ds_bus_owner = some self
        · exact Or.inr h2
        · exact absurd ⟨h, h2⟩ hown
    by_cases he1 : to_uint8 (ds_reset_result echo1) ≠ 1
    · rw [if_pos he1]
      refine ⟨⟨fun h => (Nat.zero_ne_one h).elim, fun h => ?_⟩, fun _ => rfl⟩
      exact absurd (hp1.mpr h.2.1) he1
    · rw [if_neg he1]
      have he1b : ds_reset_result echo1 = 1 := hp1.mp (not_not.mp he1)
      split
      · next hcfg =>
        refine ⟨⟨fun h => (Nat.zero_ne_one h).elim, fun h => ?_⟩, fun _ => rfl⟩
        rcases h.2.2.2 with h | h | h | h <;> simp [h] at hcfg
      · next c hcfg =>
        have hprec : precision = 9 ∨ precision = 10 ∨ precision = 11 ∨ precision = 12 := by
          split at hcfg
          · exact Or.inl rfl
          · exact Or.inr (Or.inl rfl)
          · exact Or.inr (Or.inr (Or.inl rfl))
          · exact Or.inr (Or.inr (Or.inr rfl))
          · cases hcfg
        by_cases he2 : to_uint8 (ds_reset_result echo2) ≠ 1
        · rw [if_pos he2]
          refine ⟨⟨fun h => (Nat.zero_ne_one h).elim, fun h => ?_⟩, fun _ => rfl⟩
          exact absurd (hp2.mpr h.2.2.1) he2
        · rw [if_neg he2]
          exact ⟨⟨fun _ => ⟨hown2, he1b, hp2.mp (not_not.mp he2), hprec⟩, fun _ => rfl⟩,
            fun h => absurd rfl h⟩


theorem handle_blocked (self tick : Nat) (echo : Option Nat) (g : Driver) (t : DS18B20_t)
    (j : Nat) (hj : g.ds_bus_owner = some j) (hne : j ≠ self) :
    DS18B20_Handle self tick echo g t = (g, t) := by
  unfold DS18B20_Handle
  rw [if_pos]
  rw [hj]
  exact ⟨by simp, by simpa using hne⟩

theorem handle_first_phase (self tick : Nat) (echo : Option Nat) (g : Driver) (t : DS18B20_t)
    (h : first_phase t.state = true → g.ds_bus_owner = some self)
    (hf : first_phase (DS18B20_Handle self tick echo g t).2.state = true) :
    (DS18B20_Handle self tick echo g t).1.ds_bus_owner = some self := by
  unfold DS18B20_Handle at hf ⊢
  by_cases hg : g.ds_bus_owner ≠ none ∧ g.ds_bus_owner ≠ some self
  · rw [if_pos hg] at hf ⊢
    exact h hf
  · rw [if_neg hg] at hf ⊢
    cases hst : t.state <;> simp only [hst] at hf h ⊢ <;>
      first
      | exact h hf
      | (split_ifs at hf ⊢ <;>
          simp_all [first_phase, ds_reset, ds_write, ds_write_address, ds_read])

theorem owner_inv_of_quiet (s : System) (h : s.quiet) : s.owner_inv := by
  intro i t hi hf
  have hmem : t ∈ s.devs := by
    obtain ⟨hlt, hget⟩ := List.getElem?_eq_some.mp hi
    exact hget ▸ List.getElem_mem hlt
  rw [h.2 t hmem] at hf
  exact absurd hf (by decide)

theorem owner_inv_step (s : System) (e : Event) (h : s.owner_inv) : (s.step e).owner_inv := by
  cases e with
  | measure i =>
    cases hi : s.devs[i]? with
    | none => simpa [System.step, hi] using h
    | some u =>
      intro j t hj hf
      simp only [System.step, hi] at hj ⊢
      by_cases hji : j = i
      · subst hji
        have hlt : j < s.devs.length := (List.getElem?_eq_some.mp hi).1
        rw [List.getElem?_set_self hlt] at hj
        have ht : t = DS18B20_Measure u := (Option.some.inj hj).symm
        subst ht
        unfold DS18B20_Measure at hf
        by_cases hu : u.state = DS_IDLE
        · rw [if_pos hu] at hf
          exact absurd hf (by simp [first_phase])
        · rw [if_neg hu] at hf
          exact h j u hi hf
      · rw [List.getElem?_set_ne (Ne.symm hji)] at hj
        exact h j t hj hf
  | poll i tick echo =>
    cases hi : s.devs[i]? with
    | none => simpa [System.step, hi] using h
    | some u =>
      intro j t hj hf
      simp only [System.step, hi] at hj ⊢
      by_cases hji : j = i
      · subst hji
        have hlt : j < s.devs.length := (List.getElem?_eq_some.mp hi).1
        rw [List.getElem?_set_self hlt] at hj
        have ht : t = (DS18B20_Handle j tick echo s.g u).2 := (Option.some.inj hj).symm
        subst ht
        exact handle_first_phase j tick echo s.g u (h j u hi) hf
      · rw [List.getElem?_set_ne (Ne.symm hji)] at hj
        have hown : s.g.ds_bus_owner = some j := h j t hj hf
        rw [handle_blocked i tick echo s.g u j hown hji]
        exact hown
  | rx_complete data =>
    intro j t hj hf
    simp only [System.step, DS18B20_RX_Callback] at hj ⊢
    exact h j t hj hf
  | tx_complete =>
    intro j t hj hf
    simp only [System.step, DS18B20_TX_Callback] at hj ⊢
    exact h j t hj hf

theorem owner_inv_run (evs : List Event) : ∀ s : System, s.owner_inv → (s.run evs).owner_inv := by
  induction evs with
  | nil => intro s h; exact h
  | cons e evs ih =>
    intro s h
    exact ih (s.step e) (owner_inv_step s e h)

/-- C6, as stated, fails: from two idle devices on an unowned bus, Measure and
Poll calls alone reach a state with device 0 in `DS_ERROR` and device 1 in
`DS_RESET`; with the transfers completing they reach device 0 in
`DS_WAIT_CONVERSION` and device 1 in `DS_RESET`, and device 0 in each of the
states `DS_RESET_2` to `DS_CALC` with device 1 in `DS_RESET`.  In each case two
devices are outside `{Idle, WaitAccess}`. -/
theorem arbiter_two_active :
    two_idle.quiet ∧
    ((two_idle.run [Event.measure 0, Event.measure 1, Event.poll 0 0 none,
          Event.poll 0 0 none, Event.poll 1 0 none]).state_of 0 = some DS_ERROR ∧
      (two_idle.run [Event.measure 0, Event.measure 1, Event.poll 0 0 none,
          Event.poll 0 0 none, Event.poll 1 0 none]).state_of 1 = some DS_RESET) ∧
    ((two_idle.run (first_phase_of_0 ++ [Event.poll 1 0 none])).state_of 0
          = some DS_WAIT_CONVERSION ∧
      (two_idle.run (first_phase_of_0 ++ [Event.poll 1 0 none])).state_of 1
          = some DS_RESET) ∧
    (∀ p ∈ [(1, DS_RESET_2), (2, DS_MATCH_ROM_2), (3, DS_SEND_ADDRESS_2), (5, DS_READ),
          (7, DS_READ_LSB), (9, DS_READ_MSB), (12, DS_CALC)],
      (two_idle.run (first_phase_of_0 ++ second_phase_of_0.take p.1 ++
          [Event.poll 1 1000 none])).state_of 0 = some p.2 ∧
      (two_idle.run (first_phase_of_0 ++ second_phase_of_0.take p.1 ++
          [Event.poll 1 1000 none])).state_of 1 = some DS_RESET ∧
      active p.2 = true) ∧
    active DS_ERROR = true ∧ active DS_WAIT_CONVERSION = true ∧ active DS_RESET = true := by
  refine ⟨⟨rfl, ?_⟩, ⟨by decide, by decide⟩, ⟨by decide, by decide⟩, by decide,
    rfl, rfl, rfl⟩
  intro t ht
  simp only [two_idle, List.mem_cons, List.mem_singleton, List.not_mem_nil, or_false] at ht
  rcases ht with h | h <;> rw [h] <;> rfl

/-- C6, amended: in every state reachable from `all devices Idle, bus unowned`
by Measure and Poll calls and transfer completions, every device whose state
is one of `DS_RESET`, `DS_MATCH_ROM`, `DS_SEND_ADDRESS`, `DS_CONVERT_T` is the
bus owner, so at most one device is in one of these states. -/
theorem first_phase_exclusive (s0 : System) (evs : List Event) (h0 : s0.quiet) :
    (∀ (i : Nat) (ti : DS18B20_t), (s0.run evs).devs[i]? = some ti → first_phase ti.state = true →
        (s0.run evs).g.ds_bus_owner = some i) ∧
      (∀ (i j : Nat) (ti tj : DS18B20_t), (s0.run evs).devs[i]? = some ti → (s0.run evs).devs[j]? = some tj →
        first_phase ti.state = true → first_phase tj.state = true → i = j) := by
  have hinv := owner_inv_run evs s0 (owner_inv_of_quiet s0 h0)
  refine ⟨hinv, ?_⟩
  intro i j ti tj hi hj hfi hfj
  have h1 := hinv i ti hi hfi
  have h2 := hinv j tj hj hfj
  rw [h1] at h2
  exact Option.some.inj h2

/-- Witness of C6, amended: after device 0 has taken the bus and passed its
presence check it is in `DS_MATCH_ROM` and owns the bus. -/
theorem first_phase_exclusive_witness :
    two_idle.quiet ∧
      (two_idle.run [Event.measure 0, Event.measure 1, Event.poll 0 0 none,
        Event.poll 0 0 (some 0xE0), Event.poll 1 0 none]).g.ds_bus_owner = some 0 :=
  ⟨arbiter_two_active.1,
   (first_phase_exclusive two_idle [Event.measure 0, Event.measure 1, Event.poll 0 0 none,
      Event.poll 0 0 (some 0xE0), Event.poll 1 0 none] arbiter_two_active.1).1 0
      { DS18B20_t.fresh [0x28, 1, 2, 3, 4, 5, 6, 7] with state := DS_MATCH_ROM, presence := 1 }
      (by decide) rfl⟩

/-- C7, evaluated on the code: with device 0 in `DS_WAIT_CONVERSION` and the
bus unowned, a Poll on device 0 changes its state to `DS_RESET_2` and leaves
the bus unowned, and the next Poll on device 0 sends a reset pulse while the
bus is still unowned; device 1 then takes the bus and runs reset, 0x55, its
address and 0x44 between device 0's second reset pulse and device 0's 0x55.
Each transfer is tagged with the polled device. -/
theorem poll_unowned_interleaves :
    (two_idle.run first_phase_of_0).g.ds_bus_owner = none ∧
    (two_idle.run first_phase_of_0).state_of 0 = some DS_WAIT_CONVERSION ∧
    ((two_idle.run first_phase_of_0).step (Event.poll 0 1000 none)).state_of 0
      = some DS_RESET_2 ∧
    ((two_idle.run first_phase_of_0).step (Event.poll 0 1000 none)).g.ds_bus_owner = none ∧
    System.issued ((two_idle.run first_phase_of_0).step (Event.poll 0 1000 none))
      (Event.poll 0 1000 (some 0xE0)) = [(0, HalCall.reset_pulse)] ∧
    System.attributed two_idle interleaved_polls =
      [(0, HalCall.reset_pulse),
       (0, HalCall.transmit_dma [255, 0, 255, 0, 255, 0, 255, 0]),
       (0, HalCall.transmit_dma
          [0, 0, 0, 255, 0, 255, 0, 0, 255, 0, 0, 0, 0, 0, 0, 0,
           0, 255, 0, 0, 0, 0, 0, 0, 255, 255, 0, 0, 0, 0, 0, 0,
           0, 0, 255, 0, 0, 0, 0, 0, 255, 0, 255, 0, 0, 0, 0, 0,
           0, 255, 255, 0, 0, 0, 0, 0, 255, 255, 255, 0, 0, 0, 0, 0]),
       (0, HalCall.transmit_dma [0, 0, 255, 0, 0, 0, 255, 0]),
       (0, HalCall.reset_pulse),
       (1, HalCall.reset_pulse),
       (1, HalCall.transmit_dma [255, 0, 255, 0, 255, 0, 255, 0]),
       (1, HalCall.transmit_dma
          [0, 0, 0, 255, 0, 255, 0, 0, 0, 0, 0, 255, 0, 0, 0, 0,
           255, 0, 0, 255, 0, 0, 0, 0, 0, 255, 0, 255, 0, 0, 0, 0,
           255, 255, 0, 255, 0, 0, 0, 0, 0, 0, 255, 255, 0, 0, 0, 0,
           255, 0, 255, 255, 0, 0, 0, 0, 0, 255, 255, 255, 0, 0, 0, 0]),
       (1, HalCall.transmit_dma [0, 0, 255, 0, 0, 0, 255, 0]),
       (0, HalCall.transmit_dma [255, 0, 255, 0, 255, 0, 255, 0])] := by
  refine ⟨by decide, by decide, by decide, by decide, by decide, by decide⟩

/-! ### Bits and bytes -/

theorem and_two_pow_ne_zero (x m : Nat) : x &&& 2 ^ m ≠ 0 ↔ x.testBit m = true := by
  constructor
  · intro h
    by_contra hx
    apply h
    apply Nat.eq_of_testBit_eq
    intro i
    rw [Nat.testBit_and, Nat.testBit_two_pow, Nat.zero_testBit]
    by_cases hmi : m = i
    · subst hmi
      simp [hx]
    · simp [hmi]
  · intro h h0
    have h1 : (x &&& 2 ^ m).testBit m = true := by
      rw [Nat.testBit_and, h, Nat.testBit_two_pow_self]
      rfl
    rw [h0, Nat.zero_testBit] at h1
    exact Bool.false_ne_true h1

theorem rom_bit_set (rom : List Nat) (k j : Nat) (hk : k / 8 < rom.length) :
    rom_bit (rom.set (k / 8) (rom.getD (k / 8) 0 ||| 2 ^ (k % 8))) j
      = (rom_bit rom j || decide (j = k)) := by
  unfold rom_bit
  by_cases hb : j / 8 = k / 8
  · rw [hb, List.getD_eq_getElem?_getD, List.getElem?_set_self hk]
    simp only [Option.getD_some]
    rw [Nat.testBit_or, Nat.testBit_two_pow]
    by_cases hm : k % 8 = j % 8
    · have : j = k := by omega
      simp [hm, this]
    · have : j ≠ k := by
        intro h; exact hm (by rw [h])
      simp [hm, this]
  · have hne : j ≠ k := by
      intro h; exact hb (by rw [h])
    rw [List.getD_eq_getElem?_getD, List.getElem?_set_ne (Ne.symm hb),
      ← List.getD_eq_getElem?_getD]
    simp [hne]

theorem getD_append_one (w : List Bool) (c : Bool) (j : Nat) :
    (w ++ [c]).getD j false = if j = w.length then c else w.getD j false := by
  rw [List.getD_eq_getElem?_getD, List.getD_eq_getElem?_getD]
  by_cases h1 : j < w.length
  · rw [List.getElem?_append_left h1, if_neg (by omega)]
  · by_cases h2 : j = w.length
    · subst h2
      simp
    · rw [if_neg h2]
      have h3 : w.length < j := by omega
      rw [List.getElem?_eq_none (by simp; omega), List.getElem?_eq_none (by omega)]

theorem mask_top (m : Nat) (hm : m < 8) : (2 ^ m &&& 0x80 ≠ 0) ↔ m = 7 := by
  interval_cases m <;> decide

theorem mask_shift (m : Nat) (hm : m < 7) : (2 ^ m <<< 1) % 256 = 2 ^ (m + 1) := by
  interval_cases m <;> decide

theorem locals_ok_start : locals_ok SearchLocals.start := by
  refine ⟨by decide, rfl, rfl, rfl, rfl, ?_, ?_⟩
  · intro b hb
    simp only [SearchLocals.start, List.mem_replicate] at hb
    omega
  · intro j
    simp only [SearchLocals.start, rom_bit, List.getD_eq_getElem?_getD]
    by_cases h : j / 8 < 8
    · rw [List.getElem?_replicate_of_lt h]
      simp
    · rw [List.getElem?_eq_none (by simp; omega)]
      simp

theorem locals_ok_advance (l : SearchLocals) (cb z : Nat) (hl : locals_ok l)
    (hk : l.written.length < 64) :
    locals_ok (l.advance cb z) := by
  obtain ⟨_, hbn, hbyte, hmask, hlen, hbytes, hbits⟩ := hl
  have hm8 : l.written.length % 8 < 8 := Nat.mod_lt _ (by decide)
  have hb8 : l.written.length / 8 < 8 := by omega
  have hwr : (l.advance cb z).written = l.written ++ [decide (cb ≠ 0)] := rfl
  have hlen' : (l.advance cb z).written.length = l.written.length + 1 := by
    rw [hwr]; simp
  refine ⟨by omega, ?_, ?_, ?_, ?_, ?_, ?_⟩
  · show (l.bit_number + 1) % 256 = _
    rw [hlen', hbn]
    omega
  · show (if l.rom_byte_mask &&& 0x80 ≠ 0 then (l.rom_byte_number + 1) % 256
        else l.rom_byte_number) = _
    rw [hlen', hmask, hbyte]
    by_cases h7 : l.written.length % 8 = 7
    · rw [if_pos ((mask_top _ hm8).mpr h7)]
      omega
    · rw [if_neg (fun h => h7 ((mask_top _ hm8).mp h))]
      omega
  · show (if l.rom_byte_mask &&& 0x80 ≠ 0 then 1 else (l.rom_byte_mask <<< 1) % 256) = _
    rw [hlen', hmask]
    by_cases h7 : l.written.length % 8 = 7
    · rw [if_pos ((mask_top _ hm8).mpr h7)]
      have : (l.written.length + 1) % 8 = 0 := by omega
      rw [this]
      rfl
    · rw [if_neg (fun h => h7 ((mask_top _ hm8).mp h))]
      rw [mask_shift _ (by omega)]
      have : (l.written.length + 1) % 8 = l.written.length % 8 + 1 := by omega
      rw [this]
  · show (if cb ≠ 0 then
        l.rom.set l.rom_byte_number (l.rom.getD l.rom_byte_number 0 ||| l.rom_byte_mask)
        else l.rom).length = 8
    split
    · rw [List.length_set]; exact hlen
    · exact hlen
  · show ∀ b ∈ (if cb ≠ 0 then
        l.rom.set l.rom_byte_number (l.rom.getD l.rom_byte_number 0 ||| l.rom_byte_mask)
        else l.rom), b < 256
    split
    · intro b hb
      rcases List.mem_or_eq_of_mem_set hb with h | h
      · exact hbytes b h
      · rw [h, hmask]
        have h1 : l.rom.getD l.rom_byte_number 0 < 2 ^ 8 := by
          rw [List.getD_eq_getElem?_getD]
          cases hg : l.rom[l.rom_byte_number]? with
          | none => simp
          | some v =>
            have : v ∈ l.rom := by
              obtain ⟨hlt, hget⟩ := List.getElem?_eq_some.mp hg
              exact hget ▸ List.getElem_mem hlt
            simpa using hbytes v this
        have h2 : 2 ^ (l.written.length % 8) < 2 ^ 8 :=
          Nat.pow_lt_pow_right (by decide) hm8
        exact Nat.or_lt_two_pow h1 h2
    · exact hbytes
  · intro j
    show rom_bit (if cb ≠ 0 then
        l.rom.set l.rom_byte_number (l.rom.getD l.rom_byte_number 0 ||| l.rom_byte_mask)
        else l.rom) j = (l.written ++ [decide (cb ≠ 0)]).getD j false
    rw [getD_append_one]
    have hkf : l.written.getD l.written.length false = false := by
      rw [List.getD_eq_getElem?_getD, List.getElem?_eq_none (Nat.le_refl _)]
      rfl
    by_cases hc : cb ≠ 0
    · rw [if_pos hc, hbyte, hmask, rom_bit_set _ _ _ (by omega), hbits]
      by_cases hj : j = l.written.length
      · simp [hj, hc]
      · simp [hj]
    · rw [if_neg hc]
      by_cases hj : j = l.written.length
      · rw [if_pos hj, hj, hbits, hkf]
        simp [hc]
      · rw [if_neg hj, hbits]

/-! ### The loop computes `bit_loop` -/

theorem search_choice_spec (b0 b1 : Bool) (g : Driver) (l : SearchLocals) (hl : locals_ok l) :
    (decide ((search_choice (if b0 then 1 else 0) (if b1 then 1 else 0) g l).1 ≠ 0),
      (search_choice (if b0 then 1 else 0) (if b1 then 1 else 0) g l).2)
      = choose_bit b0 b1 (l.written.length + 1) g.last_discrepancy
          (rom_bit g.last_rom l.written.length) l.last_zero := by
  obtain ⟨_, hbn, hbyte, hmask, _, _, _⟩ := hl
  unfold search_choice choose_bit
  rw [hbn, hbyte, hmask]
  cases b0 <;> cases b1 <;> simp only [if_true, if_false, Bool.false_eq_true, and_self,
    and_false, false_and, true_and, and_true, reduceCtorEq, one_ne_zero, if_false, if_true]
  · by_cases h1 : l.written.length + 1 < g.last_discrepancy
    · simp only [h1, if_true]
      by_cases h2 : rom_bit g.last_rom l.written.length = true
      · have h3 := (and_two_pow_ne_zero _ _).mpr h2
        rw [if_pos h3, h2]
        simp
      · have h3 : ¬ (g.last_rom.getD (l.written.length / 8) 0 &&& 2 ^ (l.written.length % 8) ≠ 0) :=
          fun h => h2 ((and_two_pow_ne_zero _ _).mp h)
        rw [if_neg h3]
        simp only [Bool.not_eq_true] at h2
        rw [h2]
        simp
    · simp only [h1, if_false]
      by_cases h2 : l.written.length + 1 = g.last_discrepancy
      · simp [h2]
      · simp [h2]
  all_goals simp

theorem search_body_spec (bus : Bus) (g : Driver) (l : SearchLocals) (hl : locals_ok l)
    (hk : l.written.length < 64) :
    ((bus_reads bus l.written).1 = true ∧ (bus_reads bus l.written).2 = true →
        ∃ g', search_body bus g l = (g', none) ∧ g'.last_discrepancy = 0 ∧
          g'.last_device_flag = 0 ∧ g'.last_rom = g.last_rom) ∧
      (¬ ((bus_reads bus l.written).1 = true ∧ (bus_reads bus l.written).2 = true) →
        ∃ g' l', search_body bus g l = (g', some l') ∧
          g'.last_discrepancy = g.last_discrepancy ∧
          g'.last_device_flag = g.last_device_flag ∧ g'.last_rom = g.last_rom ∧
          locals_ok l' ∧
          l'.written = l.written ++
            [(choose_bit (bus_reads bus l.written).1 (bus_reads bus l.written).2
              (l.written.length + 1) g.last_discrepancy
              (rom_bit g.last_rom l.written.length) l.last_zero).1] ∧
          l'.last_zero = (choose_bit (bus_reads bus l.written).1 (bus_reads bus l.written).2
              (l.written.length + 1) g.last_discrepancy
              (rom_bit g.last_rom l.written.length) l.last_zero).2) := by
  have hr0 : (ds_read_bit (bus.read_slot l.written false) g).2
      = if (bus_reads bus l.written).1 then 1 else 0 := by
    simp only [ds_read_bit, bus_reads]
    by_cases h : bus.read_slot l.written false = 0xFF <;> simp [h]
  have hr1 : (ds_read_bit (bus.read_slot l.written true)
      (ds_read_bit (bus.read_slot l.written false) g).1).2
      = if (bus_reads bus l.written).2 then 1 else 0 := by
    simp only [ds_read_bit, bus_reads]
    by_cases h : bus.read_slot l.written true = 0xFF <;> simp [h]
  have hcond : ((ds_read_bit (bus.read_slot l.written false) g).2 = 1 ∧
      (ds_read_bit (bus.read_slot l.written true)
        (ds_read_bit (bus.read_slot l.written false) g).1).2 = 1) ↔
      ((bus_reads bus l.written).1 = true ∧ (bus_reads bus l.written).2 = true) := by
    rw [hr0, hr1]
    cases (bus_reads bus l.written).1 <;> cases (bus_reads bus l.written).2 <;> simp
  constructor
  · intro hboth
    have heq : search_body bus g l =
        ({ (ds_read_bit (bus.read_slot l.written true)
            (ds_read_bit (bus.read_slot l.written false) g).1).1 with
            last_discrepancy := 0, last_device_flag := 0 }, none) := by
      unfold search_body
      simp only []
      rw [if_pos (hcond.mpr hboth)]
    exact ⟨_, heq, rfl, rfl, rfl⟩
  · intro hnot
    have hspec := search_choice_spec (bus_reads bus l.written).1 (bus_reads bus l.written).2
      (ds_read_bit (bus.read_slot l.written true)
        (ds_read_bit (bus.read_slot l.written false) g).1).1 l hl
    rw [← hr0, ← hr1] at hspec
    have heq : search_body bus g l =
        (ds_write_bit
          (search_choice (ds_read_bit (bus.read_slot l.written false) g).2
            (ds_read_bit (bus.read_slot l.written true)
              (ds_read_bit (bus.read_slot l.written false) g).1).2
            (ds_read_bit (bus.read_slot l.written true)
              (ds_read_bit (bus.read_slot l.written false) g).1).1 l).1
          (ds_read_bit (bus.read_slot l.written true)
            (ds_read_bit (bus.read_slot l.written false) g).1).1,
         some (l.advance
          (search_choice (ds_read_bit (bus.read_slot l.written false) g).2
            (ds_read_bit (bus.read_slot l.written true)
              (ds_read_bit (bus.read_slot l.written false) g).1).2
            (ds_read_bit (bus.read_slot l.written true)
              (ds_read_bit (bus.read_slot l.written false) g).1).1 l).1
          (search_choice (ds_read_bit (bus.read_slot l.written false) g).2
            (ds_read_bit (bus.read_slot l.written true)
              (ds_read_bit (bus.read_slot l.written false) g).1).2
            (ds_read_bit (bus.read_slot l.written true)
              (ds_read_bit (bus.read_slot l.written false) g).1).1 l).2)) := by
      unfold search_body
      simp only []
      rw [if_neg (fun h => hnot (hcond.mp h))]
    refine ⟨_, _, heq, rfl, rfl, rfl, locals_ok_advance l _ _ hl hk, ?_, ?_⟩
    · show l.written ++ [_] = _
      congr 2
      exact congrArg Prod.fst hspec
    · exact congrArg Prod.snd hspec

theorem loop_agrees_frame (g g1 : Driver) (r : LoopResult) (a : Option (List Bool × Nat))
    (h1 : g1.last_discrepancy = g.last_discrepancy)
    (h2 : g1.last_device_flag = g.last_device_flag) (h3 : g1.last_rom = g.last_rom)
    (h : loop_agrees g1 r a) : loop_agrees g r a := by
  cases a with
  | none =>
    obtain ⟨g', hr, hd, hf, hrom⟩ := h
    exact ⟨g', hr, hd, hf, hrom.trans h3⟩
  | some p =>
    obtain ⟨g', l', hr, hd, hf, hrom, hrest⟩ := h
    exact ⟨g', l', hr, hd.trans h1, hf.trans h2, hrom.trans h3, hrest⟩

theorem search_loop_refines (bus : Bus) :
    ∀ (fuel : Nat) (g : Driver) (l : SearchLocals), locals_ok l →
      l.written.length + fuel = 64 →
      loop_agrees g (search_loop bus fuel g l)
        (bit_loop bus g.last_discrepancy g.last_rom fuel l.written l.last_zero) := by
  intro fuel
  induction fuel with
  | zero =>
    intro g l hl hlen
    have hb : ¬ l.rom_byte_number < 8 := by
      rw [hl.2.2.1]; omega
    unfold search_loop bit_loop
    rw [if_neg hb]
    exact ⟨g, l, rfl, rfl, rfl, rfl, hl, rfl, rfl, by simpa using hlen⟩
  | succ n ih =>
    intro g l hl hlen
    have hk : l.written.length < 64 := by omega
    have hb : l.rom_byte_number < 8 := by
      rw [hl.2.2.1]; omega
    obtain ⟨habort, hnext⟩ := search_body_spec bus g l hl hk
    unfold search_loop bit_loop
    rw [if_pos hb]
    by_cases hboth : (bus_reads bus l.written).1 = true ∧ (bus_reads bus l.written).2 = true
    · obtain ⟨g', hbody, hd, hf, hrom⟩ := habort hboth
      rw [if_pos hboth, hbody]
      exact ⟨g', rfl, hd, hf, hrom⟩
    · obtain ⟨g', l', hbody, hd, hf, hrom, hl', hw, hz⟩ := hnext hboth
      rw [if_neg hboth, hbody]
      simp only []
      have hlen' : l'.written.length + n = 64 := by
        rw [hw]; simp; omega
      have := ih g' l' hl' hlen'
      rw [hd, hrom, hw, hz] at this
      exact loop_agrees_frame g g' _ _ hd hf hrom this

/-! ### One call of `DS18B20_SearchRom` -/

theorem fold_set_getElem? (f : Nat → Nat) (a : List Nat) :
    ∀ n j, ((List.range n).foldl (fun a i => a.set i (f i)) a)[j]?
      = if j < n ∧ j < a.length then some (f j) else a[j]? := by
  intro n
  induction n with
  | zero => intro j; simp
  | succ n ih =>
    intro j
    rw [List.range_succ, List.foldl_append]
    simp only [List.foldl_cons, List.foldl_nil]
    by_cases hjn : j = n
    · subst hjn
      by_cases hlen : j < a.length
      · have hl2 : j < ((List.range j).foldl (fun a i => a.set i (f i)) a).length := by
          have := ih j
          rw [if_neg (by omega)] at this
          by_contra hcon
          rw [List.getElem?_eq_none (by omega)] at this
          rw [List.getElem?_eq_getElem hlen] at this
          cases this
        rw [List.getElem?_set_self hl2, if_pos ⟨by omega, hlen⟩]
      · have hl2 : ¬ j < ((List.range j).foldl (fun a i => a.set i (f i)) a).length := by
          have := ih j
          rw [if_neg (by omega)] at this
          intro hcon
          rw [List.getElem?_eq_getElem hcon, List.getElem?_eq_none (by omega)] at this
          cases this
        rw [List.getElem?_eq_none (by rw [List.length_set]; omega), if_neg (by omega),
          List.getElem?_eq_none (by omega)]
    · rw [List.getElem?_set_ne (Ne.symm hjn), ih j]
      by_cases h1 : j < n ∧ j < a.length
      · rw [if_pos h1, if_pos ⟨by omega, h1.2⟩]
      · rw [if_neg h1, if_neg (by omega)]

theorem fold_set_eq (rom a : List Nat) (hr : rom.length = 8) (ha : a.length = 8) :
    (List.range 8).foldl (fun a i => a.set i (rom.getD i 0)) a = rom := by
  apply List.ext_getElem?
  intro j
  rw [fold_set_getElem?]
  by_cases hj : j < 8
  · rw [if_pos ⟨hj, by omega⟩, List.getD_eq_getElem?_getD,
      List.getElem?_eq_getElem (by omega)]
    rfl
  · rw [if_neg (by omega), List.getElem?_eq_none (by omega), List.getElem?_eq_none (by omega)]

theorem wait_write_frame (v : Nat) (g : Driver) :
    (wait_tx_done (ds_write v g)).last_discrepancy = g.last_discrepancy ∧
      (wait_tx_done (ds_write v g)).last_device_flag = g.last_device_flag ∧
      (wait_tx_done (ds_write v g)).last_rom = g.last_rom := by
  unfold wait_tx_done DS18B20_TX_Callback
  split <;> exact ⟨rfl, rfl, rfl⟩

theorem search_rom_flag (bus : Bus) (g : Driver) (t : DS18B20_t)
    (hflag : g.last_device_flag ≠ 0) : DS18B20_SearchRom bus g t = some (0, g, t) := by
  unfold DS18B20_SearchRom
  rw [if_pos hflag]

theorem search_rom_absent (bus : Bus) (g : Driver) (t : DS18B20_t)
    (hflag : g.last_device_flag = 0) (hreset : ds_reset_result bus.reset_echo ≠ 1) :
    ∃ g', DS18B20_SearchRom bus g t = some (0, g', t) ∧ g'.last_discrepancy = 0 ∧
      g'.last_device_flag = 0 ∧ g'.last_rom = g.last_rom := by
  have heq : DS18B20_SearchRom bus g t =
      some (0, { (ds_reset bus.reset_echo g).1 with
        last_discrepancy := 0, last_device_flag := 0 }, t) := by
    unfold DS18B20_SearchRom
    rw [if_neg (by simpa using hflag)]
    simp only []
    rw [if_pos (show (ds_reset bus.reset_echo g).2 ≠ 1 from hreset)]
  exact ⟨_, heq, rfl, rfl, rfl⟩

theorem search_rom_spec (bus : Bus) (g : Driver) (t : DS18B20_t)
    (hlr : g.last_rom.length = 8) (hta : t.address.length = 8)
    (hflag : g.last_device_flag = 0) (hreset : ds_reset_result bus.reset_echo = 1) :
    call_agrees g t (DS18B20_SearchRom bus g t)
      (bit_loop bus g.last_discrepancy g.last_rom 64 [] 0) := by
  obtain ⟨hf1, hf2, hf3⟩ := wait_write_frame CMD_SEARCH_ROM (ds_reset bus.reset_echo g).1
  have href := search_loop_refines bus 64
    (wait_tx_done (ds_write CMD_SEARCH_ROM (ds_reset bus.reset_echo g).1))
    SearchLocals.start locals_ok_start rfl
  rw [hf1, hf3] at href
  have hd : (ds_reset bus.reset_echo g).1.last_discrepancy = g.last_discrepancy := rfl
  have hr : (ds_reset bus.reset_echo g).1.last_rom = g.last_rom := rfl
  have hfl : (ds_reset bus.reset_echo g).1.last_device_flag = g.last_device_flag := rfl
  rw [hd, hr] at href
  have hw : SearchLocals.start.written = [] := rfl
  have hz : SearchLocals.start.last_zero = 0 := rfl
  rw [hw, hz] at href
  unfold DS18B20_SearchRom
  rw [if_neg (by simpa using hflag)]
  simp only []
  rw [if_neg (show ¬ (ds_reset bus.reset_echo g).2 ≠ 1 from fun h => h hreset)]
  cases hbl : bit_loop bus g.last_discrepancy g.last_rom 64 [] 0 with
  | none =>
    rw [hbl] at href
    obtain ⟨g', hres, h1, h2, h3⟩ := href
    rw [hres]
    exact ⟨g', rfl, h1, h2, h3.trans (hf3.trans hr)⟩
  | some p =>
    rw [hbl] at href
    obtain ⟨g', l', hres, h1, h2, h3, hl', hw', hz', hlen⟩ := href
    rw [hres]
    simp only []
    have hg'rom : g'.last_rom.length = 8 := by rw [h3]; exact hlr
    have hg'flag : g'.last_device_flag = 0 := by rw [h2, hf2, hfl]; exact hflag
    have hcopy1 := fold_set_eq l'.rom t.address hl'.2.2.2.2.1 hta
    have hcopy2 := fold_set_eq l'.rom g'.last_rom hl'.2.2.2.2.1 hg'rom
    refine ⟨_, _, rfl, hz', ?_, ?_, ?_, ?_, hlen, rfl⟩
    · show (if l'.last_zero = 0 then 1 else g'.last_device_flag) = _
      rw [hz', hg'flag]
    · dsimp only
      rw [hcopy1, hcopy2]
    · dsimp only
      rw [hcopy1]
      exact ⟨hl'.2.2.2.2.1, hl'.2.2.2.2.2.1⟩
    · intro j
      dsimp only
      rw [hcopy1, hl'.2.2.2.2.2.2 j, hw']

/-! ### The ideal bus -/

theorem responds_iff (id : List Nat) (w : List Bool) :
    responds id w = true ↔ ∀ j, j < w.length → rom_bit id j = w.getD j false := by
  unfold responds prefix_bits
  rw [decide_eq_true_iff]
  constructor
  · intro h j hj
    have h2 : ((List.range w.length).map (rom_bit id))[j]? = w[j]? := by rw [h]
    rw [List.getElem?_map, List.getElem?_range hj, List.getElem?_eq_getElem hj] at h2
    rw [List.getD_eq_getElem?_getD, List.getElem?_eq_getElem hj]
    simpa using h2
  · intro h
    apply List.ext_getElem
    · simp
    · intro j h1 h2
      rw [List.getElem_map, List.getElem_range]
      have := h j h2
      rw [List.getD_eq_getElem?_getD, List.getElem?_eq_getElem h2] at this
      simpa using this

theorem responds_nil (id : List Nat) : responds id [] = true := by
  rw [responds_iff]
  intro j hj
  simp at hj

theorem getD_append_lt (w : List Bool) (c : Bool) (j : Nat) (hj : j < w.length) :
    (w ++ [c]).getD j false = w.getD j false := by
  rw [getD_append_one, if_neg (by omega)]

theorem getD_append_len (w : List Bool) (c : Bool) :
    (w ++ [c]).getD w.length false = c := by
  rw [getD_append_one, if_pos rfl]

theorem responds_append (id : List Nat) (w : List Bool) (c : Bool) :
    responds id (w ++ [c]) = true ↔ responds id w = true ∧ rom_bit id w.length = c := by
  rw [responds_iff, responds_iff]
  constructor
  · intro h
    constructor
    · intro j hj
      rw [h j (by simp; omega), getD_append_lt w c j hj]
    · rw [h w.length (by simp), getD_append_len]
  · intro h j hj
    by_cases hjl : j = w.length
    · rw [hjl, getD_append_len]
      exact h.2
    · have hlt : j < w.length := by
        simp at hj; omega
      rw [getD_append_lt w c j hlt]
      exact h.1 j hlt

theorem ideal_reads_fst (devs : List (List Nat)) (w : List Bool) :
    (bus_reads (ideal_bus devs) w).1 = true ↔
      ∀ id ∈ devs, responds id w = true → rom_bit id w.length = true := by
  unfold bus_reads ideal_bus
  simp only [decide_eq_true_iff]
  constructor
  · intro h id hid hr
    by_contra hb
    have hall : ¬ ((devs.filter (fun id => responds id w)).all
        (fun id => rom_bit id w.length != false)) = true := by
      intro hall
      rw [List.all_eq_true] at hall
      have := hall id (List.mem_filter.mpr ⟨hid, hr⟩)
      simp at this
      exact hb this
    rw [if_neg hall] at h
    exact absurd h (by decide)
  · intro h
    rw [if_pos]
    · rfl
    · rw [List.all_eq_true]
      intro id hid
      obtain ⟨h1, h2⟩ := List.mem_filter.mp hid
      simp [h id h1 h2]

theorem ideal_reads_snd (devs : List (List Nat)) (w : List Bool) :
    (bus_reads (ideal_bus devs) w).2 = true ↔
      ∀ id ∈ devs, responds id w = true → rom_bit id w.length = false := by
  unfold bus_reads ideal_bus
  simp only [decide_eq_true_iff]
  constructor
  · intro h id hid hr
    by_contra hb
    have hall : ¬ ((devs.filter (fun id => responds id w)).all
        (fun id => rom_bit id w.length != true)) = true := by
      intro hall
      rw [List.all_eq_true] at hall
      have := hall id (List.mem_filter.mpr ⟨hid, hr⟩)
      simp at this
      exact hb this
    rw [if_neg hall] at h
    exact absurd h (by decide)
  · intro h
    rw [if_pos]
    · rfl
    · rw [List.all_eq_true]
      intro id hid
      obtain ⟨h1, h2⟩ := List.mem_filter.mp hid
      simp [h id h1 h2]

theorem ideal_reads_fst_false (devs : List (List Nat)) (w : List Bool)
    (h : (bus_reads (ideal_bus devs) w).1 = false) :
    ∃ id ∈ devs, responds id w = true ∧ rom_bit id w.length = false := by
  by_contra hcon
  have : (bus_reads (ideal_bus devs) w).1 = true := by
    rw [ideal_reads_fst]
    intro id hid hr
    by_contra hb
    exact hcon ⟨id, hid, hr, by simpa using hb⟩
  rw [h] at this
  exact Bool.false_ne_true this

theorem ideal_reads_snd_false (devs : List (List Nat)) (w : List Bool)
    (h : (bus_reads (ideal_bus devs) w).2 = false) :
    ∃ id ∈ devs, responds id w = true ∧ rom_bit id w.length = true := by
  by_contra hcon
  have : (bus_reads (ideal_bus devs) w).2 = true := by
    rw [ideal_reads_snd]
    intro id hid hr
    by_contra hb
    exact hcon ⟨id, hid, hr, by simpa using hb⟩
  rw [h] at this
  exact Bool.false_ne_true this

theorem rom_ext (a b : List Nat) (ha : valid_rom a) (hb : valid_rom b)
    (h : ∀ j, j < 64 → rom_bit a j = rom_bit b j) : a = b := by
  apply List.ext_getElem
  · rw [ha.1, hb.1]
  · intro i h1 h2
    have hi : i < 8 := by rw [ha.1] at h1; exact h1
    apply Nat.eq_of_testBit_eq
    intro m
    by_cases hm : m < 8
    · have := h (8 * i + m) (by omega)
      unfold rom_bit at this
      have e1 : (8 * i + m) / 8 = i := by omega
      have e2 : (8 * i + m) % 8 = m := by omega
      rw [e1, e2, List.getD_eq_getElem?_getD, List.getD_eq_getElem?_getD,
        List.getElem?_eq_getElem h1, List.getElem?_eq_getElem h2] at this
      simpa using this
    · have hpow : 2 ^ 8 ≤ 2 ^ m := Nat.pow_le_pow_right (by decide) (by omega)
      have h256 : (256 : Nat) = 2 ^ 8 := by norm_num
      have ha' : a[i] < 2 ^ m := by
        have := ha.2 a[i] (List.getElem_mem h1)
        omega
      have hb' : b[i] < 2 ^ m := by
        have := hb.2 b[i] (List.getElem_mem h2)
        omega
      rw [Nat.testBit_lt_two_pow ha', Nat.testBit_lt_two_pow hb']

theorem lex_lt_irrefl (a : List Nat) : ¬ lex_lt a a := by
  rintro ⟨p, _, h1, h2⟩
  rw [h1] at h2
  exact Bool.false_ne_true h2

theorem lex_lt_trans (a b c : List Nat) (h1 : lex_lt a b) (h2 : lex_lt b c) : lex_lt a c := by
  obtain ⟨p, hp1, hp2, hp3⟩ := h1
  obtain ⟨q, hq1, hq2, hq3⟩ := h2
  rcases Nat.lt_trichotomy p q with h | h | h
  · refine ⟨p, ?_, hp2, ?_⟩
    · intro j hj
      rw [hp1 j hj, hq1 j (by omega)]
    · rw [← hq1 p h]; exact hp3
  · subst h
    rw [hp3] at hq2
    exact absurd hq2 (by decide)
  · refine ⟨q, ?_, ?_, hq3⟩
    · intro j hj
      rw [hp1 j (by omega), hq1 j hj]
    · rw [hp1 q h]; exact hq2

/-! ### The loop invariant on the ideal bus -/

theorem choose_ff_lt (n d z : Nat) (l : Bool) (h : n < d) :
    choose_bit false false n d l z = (l, z) := by
  simp [choose_bit, h]

theorem choose_ff_eq (n d z : Nat) (l : Bool) (h : n = d) :
    choose_bit false false n d l z = (true, z) := by
  simp [choose_bit, h]

theorem choose_ff_gt (n d z : Nat) (l : Bool) (h : d < n) :
    choose_bit false false n d l z = (false, n) := by
  have h1 : ¬ n < d := by omega
  have h2 : ¬ n = d := by omega
  simp [choose_bit, h1, h2]

theorem choose_t (r1 : Bool) (n d z : Nat) (l : Bool) :
    choose_bit true r1 n d l z = (true, z) := by
  simp [choose_bit]

theorem choose_ft (n d z : Nat) (l : Bool) : choose_bit false true n d l z = (false, z) := by
  simp [choose_bit]

theorem pass_inv_same_zero (devs : List (List Nat)) (d : Nat) (last : List Nat) (w : List Bool)
    (z : Nat) (c : Bool) (hinv : pass_inv devs d last w z)
    (h1 : ∃ id ∈ devs, responds id w = true ∧ rom_bit id w.length = c)
    (h2 : w.length + 1 < d → c = rom_bit last w.length)
    (h3 : d = w.length + 1 → c = true)
    (h5 : d = 0 → z = 0 → ∀ id ∈ devs, responds id w = true → rom_bit id w.length = c) :
    pass_inv devs d last (w ++ [c]) z := by
  obtain ⟨_, I2, I3, I4, I5⟩ := hinv
  obtain ⟨id, hid, hr, hb⟩ := h1
  have hlen : (w ++ [c]).length = w.length + 1 := by simp
  refine ⟨⟨id, hid, (responds_append id w c).mpr ⟨hr, hb⟩⟩, ?_, ?_, ?_, ?_⟩
  · intro j hj hjd
    rw [hlen] at hj
    by_cases hjl : j = w.length
    · rw [hjl, getD_append_len]
      exact h2 (by omega)
    · rw [getD_append_lt w c j (by omega)]
      exact I2 j (by omega) hjd
  · intro hd1 hd2
    rw [hlen] at hd2
    by_cases hdl : d = w.length + 1
    · have : d - 1 = w.length := by omega
      rw [this, getD_append_len]
      exact h3 hdl
    · rw [getD_append_lt w c (d - 1) (by omega)]
      exact I3 hd1 (by omega)
  · rcases I4 with hz | ⟨hz1, hz2, hz3, other, ho, ho1, ho2⟩
    · exact Or.inl hz
    · refine Or.inr ⟨hz1, by rw [hlen]; omega, ?_, other, ho, ?_, ho2⟩
      · rw [getD_append_lt w c (z - 1) (by omega)]
        exact hz3
      · intro j hj
        rw [getD_append_lt w c j (by omega)]
        exact ho1 j hj
  · intro hd hz id' hid'
    exact (responds_append id' w c).mpr ⟨I5 hd hz id' hid', h5 hd hz id' hid' (I5 hd hz id' hid')⟩

theorem pass_inv_new_zero (devs : List (List Nat)) (d : Nat) (last : List Nat) (w : List Bool)
    (z : Nat) (hinv : pass_inv devs d last w z) (hd : d < w.length + 1)
    (h1 : ∃ id ∈ devs, responds id w = true ∧ rom_bit id w.length = false)
    (h4 : ∃ id ∈ devs, responds id w = true ∧ rom_bit id w.length = true) :
    pass_inv devs d last (w ++ [false]) (w.length + 1) := by
  obtain ⟨_, I2, I3, _, _⟩ := hinv
  obtain ⟨id, hid, hr, hb⟩ := h1
  obtain ⟨other, ho, hor, hob⟩ := h4
  have hlen : (w ++ [false]).length = w.length + 1 := by simp
  refine ⟨⟨id, hid, (responds_append id w false).mpr ⟨hr, hb⟩⟩, ?_, ?_, ?_, ?_⟩
  · intro j hj hjd
    rw [getD_append_lt w false j (by omega)]
    exact I2 j (by omega) hjd
  · intro hd1 hd2
    rw [getD_append_lt w false (d - 1) (by omega)]
    exact I3 hd1 (by omega)
  · refine Or.inr ⟨hd, by rw [hlen], ?_, other, ho, ?_, ?_⟩
    · have : w.length + 1 - 1 = w.length := by omega
      rw [this, getD_append_len]
    · intro j hj
      rw [getD_append_lt w false j (by omega)]
      exact (responds_iff other w).mp hor j (by omega)
    · have : w.length + 1 - 1 = w.length := by omega
      rw [this]
      exact hob
  · intro _ hz
    omega

theorem pass_inv_step (devs : List (List Nat)) (d : Nat) (last : List Nat) (w : List Bool)
    (z : Nat) (hpre : search_pre devs d last) (hinv : pass_inv devs d last w z) :
    ¬ ((bus_reads (ideal_bus devs) w).1 = true ∧ (bus_reads (ideal_bus devs) w).2 = true) ∧
      pass_inv devs d last
        (w ++ [(choose_bit (bus_reads (ideal_bus devs) w).1 (bus_reads (ideal_bus devs) w).2
          (w.length + 1) d (rom_bit last w.length) z).1])
        (choose_bit (bus_reads (ideal_bus devs) w).1 (bus_reads (ideal_bus devs) w).2
          (w.length + 1) d (rom_bit last w.length) z).2 := by
  have hinv' := hinv
  obtain ⟨⟨id0, hid0, hresp0⟩, I2, I3, I4, I5⟩ := hinv'
  have hR : w.length + 1 ≤ d → last ∈ devs ∧ responds last w = true := by
    intro hk
    rcases hpre with h | ⟨h, _⟩
    · omega
    · refine ⟨h, (responds_iff last w).mpr ?_⟩
      intro j hj
      exact (I2 j hj (by omega)).symm
  have hW : w.length + 1 ≤ d →
      ∃ other ∈ devs, responds other w = true ∧ rom_bit other (d - 1) = true := by
    intro hk
    rcases hpre with h | ⟨_, other, ho, ho1, _, ho3⟩
    · omega
    · refine ⟨other, ho, (responds_iff other w).mpr ?_, ho3⟩
      intro j hj
      rw [← ho1 j (by omega)]
      exact (I2 j hj (by omega)).symm
  cases h0 : (bus_reads (ideal_bus devs) w).1 with
  | true =>
    have F0 := (ideal_reads_fst devs w).mp h0
    constructor
    · rintro ⟨_, h1⟩
      have F1 := (ideal_reads_snd devs w).mp h1
      have a := F0 id0 hid0 hresp0
      rw [F1 id0 hid0 hresp0] at a
      exact Bool.false_ne_true a
    · rw [choose_t]
      apply pass_inv_same_zero devs d last w z true hinv
      · exact ⟨id0, hid0, hresp0, F0 id0 hid0 hresp0⟩
      · intro hk
        obtain ⟨hl1, hl2⟩ := hR (by omega)
        exact (F0 last hl1 hl2).symm
      · intro _; rfl
      · intro _ _ id hid hr
        exact F0 id hid hr
  | false =>
    have ⟨idA, hA, hAr, hAb⟩ := ideal_reads_fst_false devs w h0
    constructor
    · rintro ⟨h, _⟩
      exact Bool.false_ne_true h
    · cases h1 : (bus_reads (ideal_bus devs) w).2 with
      | true =>
        have F1 := (ideal_reads_snd devs w).mp h1
        rw [choose_ft]
        apply pass_inv_same_zero devs d last w z false hinv
        · exact ⟨idA, hA, hAr, hAb⟩
        · intro hk
          obtain ⟨hl1, hl2⟩ := hR (by omega)
          exact (F1 last hl1 hl2).symm
        · intro hd
          obtain ⟨other, ho, hor, hob⟩ := hW (by omega)
          have : d - 1 = w.length := by omega
          rw [this, F1 other ho hor] at hob
          exact hob
        · intro _ _ id hid hr
          exact F1 id hid hr
      | false =>
        have ⟨idB, hB, hBr, hBb⟩ := ideal_reads_snd_false devs w h1
        rcases Nat.lt_trichotomy (w.length + 1) d with hk | hk | hk
        · rw [choose_ff_lt _ _ _ _ hk]
          obtain ⟨hl1, hl2⟩ := hR (by omega)
          apply pass_inv_same_zero devs d last w z _ hinv
          · exact ⟨last, hl1, hl2, rfl⟩
          · intro _; rfl
          · intro hd; omega
          · intro hd; omega
        · rw [choose_ff_eq _ _ _ _ hk]
          apply pass_inv_same_zero devs d last w z true hinv
          · exact ⟨idB, hB, hBr, hBb⟩
          · intro hd; omega
          · intro _; rfl
          · intro hd; omega
        · rw [choose_ff_gt _ _ _ _ hk]
          exact pass_inv_new_zero devs d last w z hinv hk ⟨idA, hA, hAr, hAb⟩
            ⟨idB, hB, hBr, hBb⟩

theorem bit_loop_ideal (devs : List (List Nat)) (d : Nat) (last : List Nat)
    (hpre : search_pre devs d last) :
    ∀ (n : Nat) (w : List Bool) (z : Nat), pass_inv devs d last w z →
      ∃ w' z', bit_loop (ideal_bus devs) d last n w z = some (w', z') ∧
        pass_inv devs d last w' z' ∧ w'.length = w.length + n := by
  intro n
  induction n with
  | zero =>
    intro w z hinv
    exact ⟨w, z, rfl, hinv, rfl⟩
  | succ n ih =>
    intro w z hinv
    obtain ⟨hnot, hnext⟩ := pass_inv_step devs d last w z hpre hinv
    obtain ⟨w', z', hloop, hinv', hlen⟩ := ih _ _ hnext
    refine ⟨w', z', ?_, hinv', ?_⟩
    · rw [bit_loop, if_neg hnot]
      exact hloop
    · rw [hlen]
      simp
      omega

theorem pass_inv_start (devs : List (List Nat)) (d : Nat) (last : List Nat)
    (hne : devs ≠ []) : pass_inv devs d last [] 0 := by
  obtain ⟨id, hid⟩ := List.exists_mem_of_ne_nil devs hne
  refine ⟨⟨id, hid, responds_nil id⟩, ?_, ?_, Or.inl rfl, ?_⟩
  · intro j hj
    simp at hj
  · intro h1 h2
    simp at h2
    omega
  · intro _ _ id' _
    exact responds_nil id'

/-! ### One call on the ideal bus -/

theorem rom_bit_true_lt (a : List Nat) (p : Nat) (ha : valid_rom a) (h : rom_bit a p = true) :
    p < 64 := by
  by_contra hp
  unfold rom_bit at h
  rw [List.getD_eq_getElem?_getD, List.getElem?_eq_none (by rw [ha.1]; omega)] at h
  simp at h

theorem ideal_reset_ok (devs : List (List Nat)) (hne : devs ≠ []) :
    ds_reset_result (ideal_bus devs).reset_echo = 1 := by
  cases devs with
  | nil => exact absurd rfl hne
  | cons a l => rfl

theorem search_call_ideal (devs : List (List Nat)) (hne : devs ≠ [])
    (hvalid : ∀ id ∈ devs, valid_rom id) (g : Driver) (t : DS18B20_t)
    (hinv : search_inv devs g) (hta : t.address.length = 8)
    (hflag : g.last_device_flag = 0) :
    ∃ g' t', DS18B20_SearchRom (ideal_bus devs) g t = some (1, g', t') ∧
      t'.address ∈ devs ∧ g'.last_rom = t'.address ∧ t'.address.length = 8 ∧
      search_inv devs g' ∧
      (g'.last_device_flag ≠ 0 ↔ g'.last_discrepancy = 0) ∧
      (1 ≤ g.last_discrepancy → lex_lt g.last_rom t'.address) ∧
      (g.last_discrepancy = 0 → g'.last_discrepancy = 0 → ∀ id ∈ devs, id = t'.address) ∧
      (g'.last_discrepancy ≠ 0 → ∃ other ∈ devs, lex_lt t'.address other) := by
  have hpre : search_pre devs g.last_discrepancy g.last_rom := hinv.2 hflag
  have hspec := search_rom_spec (ideal_bus devs) g t hinv.1 hta hflag (ideal_reset_ok devs hne)
  obtain ⟨w, z, hloop, hpass, hlen⟩ := bit_loop_ideal devs g.last_discrepancy g.last_rom hpre
    64 [] 0 (pass_inv_start devs _ _ hne)
  rw [hloop] at hspec
  obtain ⟨g', t', hres, hd', hf', hrom', hval', hbits', hlen', _⟩ := hspec
  simp only [] at hd' hf' hbits' hlen'
  obtain ⟨⟨id, hid, hresp⟩, I2, I3, I4, I5⟩ := hpass
  have hsame : ∀ x ∈ devs, responds x w = true → x = t'.address := by
    intro x hx hr
    apply rom_ext x t'.address (hvalid x hx) hval'
    intro j hj
    rw [hbits' j]
    exact (responds_iff x w).mp hr j (by omega)
  have hmem : t'.address ∈ devs := by
    rw [← hsame id hid hresp]; exact hid
  have hprenew : g'.last_discrepancy ≠ 0 →
      ∃ other ∈ devs, lex_at (g'.last_discrepancy - 1) t'.address other := by
    intro hz
    rw [hd'] at hz ⊢
    rcases I4 with h | ⟨_, _, hz3, other, ho, ho1, ho2⟩
    · exact absurd h hz
    · refine ⟨other, ho, ?_, ?_, ho2⟩
      · intro j hj
        rw [hbits' j, ho1 j hj]
      · rw [hbits' (z - 1)]
        exact hz3
  refine ⟨g', t', hres, hmem, hrom', hval'.1, ⟨?_, ?_⟩, ?_, ?_, ?_, ?_⟩
  · rw [hrom']; exact hval'.1
  · intro hfl
    by_cases hz : g'.last_discrepancy = 0
    · exact Or.inl hz
    · right
      rw [hrom']
      exact ⟨hmem, hprenew hz⟩
  · rw [hf', hd']
    by_cases hz : z = 0
    · simp [hz]
    · simp [hz]
  · intro hd1
    rcases hpre with h | ⟨hl, other, ho, ho1, ho2, ho3⟩
    · omega
    · have hlt : g.last_discrepancy - 1 < 64 := rom_bit_true_lt other _ (hvalid other ho) ho3
      refine ⟨g.last_discrepancy - 1, ?_, ho2, ?_⟩
      · intro j hj
        rw [hbits' j]
        exact (I2 j (by omega) (by omega)).symm
      · rw [hbits' _]
        exact I3 hd1 (by omega)
  · intro hd0 hz0 x hx
    rw [hd'] at hz0
    exact hsame x hx (I5 hd0 hz0 x hx)
  · intro hz
    obtain ⟨other, ho, hlex⟩ := hprenew hz
    exact ⟨other, ho, _, hlex⟩

/-! ### Successive calls -/

theorem search_calls_cons (bus : Bus) (n : Nat) (g g' gf : Driver) (t t' tf : DS18B20_t)
    (r : Nat) (rs : List (Nat × List Nat))
    (h : DS18B20_SearchRom bus g t = some (r, g', t'))
    (h2 : search_calls bus n g' t' = some (rs, gf, tf)) :
    search_calls bus (n + 1) g t = some ((r, t'.address) :: rs, gf, tf) := by
  rw [search_calls, h]
  simp only []
  rw [h2]

theorem calls_exhausted (bus : Bus) (g : Driver) (t : DS18B20_t)
    (hflag : g.last_device_flag ≠ 0) :
    ∀ n, search_calls bus n g t = some (List.replicate n (0, t.address), g, t) := by
  intro n
  induction n with
  | zero => rfl
  | succ n ih =>
    rw [search_calls_cons bus n g g g t t t 0 _ (search_rom_flag bus g t hflag) ih]
    rfl

theorem calls_ideal (devs : List (List Nat)) (hne : devs ≠ [])
    (hvalid : ∀ id ∈ devs, valid_rom id) :
    ∀ (n : Nat) (g : Driver) (t : DS18B20_t), search_inv devs g → t.address.length = 8 →
      ∃ rs g' t' ids fails, search_calls (ideal_bus devs) n g t = some (rs, g', t') ∧
        rs = ids.map (fun x => (1, x)) ++ fails ∧ rs.length = n ∧
        (∀ r ∈ fails, r.1 = 0) ∧ (∀ x ∈ ids, x ∈ devs) ∧ ids.Pairwise lex_lt ∧
        (g.last_device_flag ≠ 0 → ids = []) ∧
        (g.last_device_flag = 0 → 1 ≤ g.last_discrepancy →
          ∀ x ∈ ids, lex_lt g.last_rom x) := by
  intro n
  induction n with
  | zero =>
    intro g t _ _
    exact ⟨[], g, t, [], [], rfl, rfl, rfl, by simp, by simp, List.Pairwise.nil,
      fun _ => rfl, by simp⟩
  | succ n ih =>
    intro g t hinv hta
    by_cases hflag : g.last_device_flag = 0
    · obtain ⟨g1, t1, hcall, hmem, hrom, hlen, hinv1, hfl1, hlex, _, _⟩ :=
        search_call_ideal devs hne hvalid g t hinv hta hflag
      obtain ⟨rs, g', t', ids, fails, hcalls, hrs, hrl, hfails, hids, hpw, hnil, hgt⟩ :=
        ih g1 t1 hinv1 hlen
      have hafter : ∀ y ∈ ids, lex_lt t1.address y := by
        intro y hy
        by_cases hf1 : g1.last_device_flag = 0
        · have hd1 : 1 ≤ g1.last_discrepancy := by
            have : g1.last_discrepancy ≠ 0 := fun h => (hfl1.mpr h) hf1
            omega
          rw [← hrom]
          exact hgt hf1 hd1 y hy
        · rw [hnil hf1] at hy
          simp at hy
      refine ⟨(1, t1.address) :: rs, g', t', t1.address :: ids, fails,
        search_calls_cons _ n g g1 g' t t1 t' 1 rs hcall hcalls, ?_, ?_, hfails, ?_, ?_, ?_, ?_⟩
      · rw [hrs]; rfl
      · simp [hrl]
      · intro x hx
        rcases List.mem_cons.mp hx with h | h
        · rw [h]; exact hmem
        · exact hids x h
      · exact List.Pairwise.cons hafter hpw
      · intro h; exact absurd hflag h
      · intro _ hd x hx
        rcases List.mem_cons.mp hx with h | h
        · rw [h]; exact hlex hd
        · exact lex_lt_trans _ _ _ (hlex hd) (hafter x h)
    · refine ⟨List.replicate (n + 1) (0, t.address), g, t, [],
        List.replicate (n + 1) (0, t.address),
        calls_exhausted _ g t hflag (n + 1), by simp, by simp, ?_, by simp,
        List.Pairwise.nil, fun _ => rfl, by simp⟩
      intro r hr
      rw [(List.mem_replicate.mp hr).2]

theorem calls_empty :
    ∀ (n : Nat) (g : Driver) (t : DS18B20_t),
      ∃ rs g' t', search_calls (ideal_bus []) n g t = some (rs, g', t') ∧ rs.length = n ∧
        ∀ r ∈ rs, r.1 = 0 := by
  intro n
  induction n with
  | zero =>
    intro g t
    exact ⟨[], g, t, rfl, rfl, by simp⟩
  | succ n ih =>
    intro g t
    by_cases hflag : g.last_device_flag = 0
    · obtain ⟨g1, hcall, _⟩ := search_rom_absent (ideal_bus []) g t hflag (by decide)
      obtain ⟨rs, g', t', hcalls, hlen, hall⟩ := ih g1 t
      refine ⟨_, g', t', search_calls_cons _ n g g1 g' t t t' 0 rs hcall hcalls, by simp [hlen], ?_⟩
      intro r hr
      rcases List.mem_cons.mp hr with h | h
      · rw [h]
      · exact hall r h
    · obtain ⟨rs, g', t', hcalls, hlen, hall⟩ := ih g t
      refine ⟨_, g', t',
        search_calls_cons _ n g g g' t t t' 0 rs (search_rom_flag _ g t hflag) hcalls,
        by simp [hlen], ?_⟩
      intro r hr
      rcases List.mem_cons.mp hr with h | h
      · rw [h]
      · exact hall r h

/-- C3: on the ideal bus holding the devices `devs` (distinct 8-byte
identities), from a search state with `last_discrepancy = 0` and
`last_device_flag = 0`, any number `n` of successive calls of
`DS18B20_SearchRom` all return; every call that returns 1 leaves the identity
of a device of the bus in the device address; at most `devs.length` of the
calls return 1; and the call number `devs.length + 1` and every later call
return 0. -/
theorem search_terminates (devs : List (List Nat)) (hvalid : ∀ id ∈ devs, valid_rom id)
    (hnodup : devs.Nodup) (g : Driver) (t : DS18B20_t)
    (hd : g.last_discrepancy = 0) (hf : g.last_device_flag = 0)
    (hrom : g.last_rom.length = 8) (hta : t.address.length = 8) (n : Nat) :
    ∃ rs g' t', search_calls (ideal_bus devs) n g t = some (rs, g', t') ∧ rs.length = n ∧
      (∀ r ∈ rs, r.1 = 0 ∨ (r.1 = 1 ∧ r.2 ∈ devs)) ∧
      (rs.filter (fun r => decide (r.1 = 1))).length ≤ devs.length ∧
      (∀ i r, devs.length ≤ i → rs[i]? = some r → r.1 = 0) := by
  by_cases hne : devs = []
  · subst hne
    obtain ⟨rs, g', t', hcalls, hlen, hall⟩ := calls_empty n g t
    refine ⟨rs, g', t', hcalls, hlen, fun r hr => Or.inl (hall r hr), ?_, ?_⟩
    · have : rs.filter (fun r => decide (r.1 = 1)) = [] := by
        rw [List.filter_eq_nil_iff]
        intro r hr
        rw [hall r hr]
        decide
      rw [this]
      simp
    · intro i r _ hi
      have hmem : r ∈ rs := by
        obtain ⟨hlt, hget⟩ := List.getElem?_eq_some.mp hi
        exact hget ▸ List.getElem_mem hlt
      exact hall r hmem
  · have hinv : search_inv devs g := ⟨hrom, fun _ => Or.inl hd⟩
    obtain ⟨rs, g', t', ids, fails, hcalls, hrs, hlen, hfails, hids, hpw, _, _⟩ :=
      calls_ideal devs hne hvalid n g t hinv hta
    have hnd : ids.Nodup := by
      apply List.Pairwise.imp _ hpw
      intro a b hab heq
      rw [heq] at hab
      exact lex_lt_irrefl b hab
    have hcount : ids.length ≤ devs.length :=
      (List.subperm_of_subset hnd (fun x hx => hids x hx)).length_le
    refine ⟨rs, g', t', hcalls, hlen, ?_, ?_, ?_⟩
    · intro r hr
      rw [hrs] at hr
      rcases List.mem_append.mp hr with h | h
      · obtain ⟨x, hx, hxr⟩ := List.mem_map.mp h
        rw [← hxr]
        exact Or.inr ⟨rfl, hids x hx⟩
      · exact Or.inl (hfails r h)
    · have h1 : (ids.map (fun x => ((1 : Nat), x))).filter (fun r => decide (r.1 = 1))
          = ids.map (fun x => ((1 : Nat), x)) := by
        rw [List.filter_eq_self]
        intro r hr
        obtain ⟨x, _, hxr⟩ := List.mem_map.mp hr
        rw [← hxr]
        rfl
      have h2 : fails.filter (fun r => decide (r.1 = 1)) = [] := by
        rw [List.filter_eq_nil_iff]
        intro r hr
        rw [hfails r hr]
        decide
      rw [hrs, List.filter_append, h1, h2]
      simpa using hcount
    · intro i r hi hget
      rw [hrs, List.getElem?_append_right (by simp; omega)] at hget
      have hmem : r ∈ fails := by
        obtain ⟨hlt, hg⟩ := List.getElem?_eq_some.mp hget
        exact hg ▸ List.getElem_mem hlt
      exact hfails r hmem

/-- Witness of C3: two devices, three calls from the initial globals. -/
theorem search_terminates_witness :
    ∃ rs g' t', search_calls (ideal_bus two_devices) 3 Driver.initial
        (DS18B20_t.fresh [0, 0, 0, 0, 0, 0, 0, 0]) = some (rs, g', t') ∧ rs.length = 3 ∧
      (∀ r ∈ rs, r.1 = 0 ∨ (r.1 = 1 ∧ r.2 ∈ two_devices)) ∧
      (rs.filter (fun r => decide (r.1 = 1))).length ≤ two_devices.length ∧
      (∀ i r, two_devices.length ≤ i → rs[i]? = some r → r.1 = 0) :=
  search_terminates two_devices (by decide) (by decide) Driver.initial
    (DS18B20_t.fresh [0, 0, 0, 0, 0, 0, 0, 0]) rfl rfl rfl rfl 3

/-- C4: for two distinct 8-byte identities `a` and `b` on the ideal bus, from a
search state with `last_discrepancy = 0` and `last_device_flag = 0`, the first
two calls of `DS18B20_SearchRom` return 1 with two distinct identities that
are `a` and `b` in one order or the other, and the third call returns 0. -/
theorem search_two_devices (a b : List Nat) (ha : valid_rom a) (hb : valid_rom b)
    (hab : a ≠ b) (g : Driver) (t : DS18B20_t)
    (hd : g.last_discrepancy = 0) (hf : g.last_device_flag = 0)
    (hrom : g.last_rom.length = 8) (hta : t.address.length = 8) :
    ∃ x y g' t', search_calls (ideal_bus [a, b]) 3 g t
        = some ([(1, x), (1, y), (0, y)], g', t') ∧
      x ≠ y ∧ ((x = a ∧ y = b) ∨ (x = b ∧ y = a)) := by
  have hne : [a, b] ≠ [] := by simp
  have hvalid : ∀ id ∈ [a, b], valid_rom id := by
    intro id hid
    simp only [List.mem_cons, List.mem_singleton, List.not_mem_nil, or_false] at hid
    rcases hid with h | h <;> rw [h] <;> assumption
  have hinv : search_inv [a, b] g := ⟨hrom, fun _ => Or.inl hd⟩
  obtain ⟨g1, t1, hcall1, hmem1, hrom1, hlen1, hinv1, hfl1, _, hall1, _⟩ :=
    search_call_ideal [a, b] hne hvalid g t hinv hta hf
  have hd1 : g1.last_discrepancy ≠ 0 := by
    intro h0
    have h1 := hall1 hd h0 a (by simp)
    have h2 := hall1 hd h0 b (by simp)
    exact hab (h1.trans h2.symm)
  have hf1 : g1.last_device_flag = 0 := by
    by_contra h
    exact hd1 (hfl1.mp h)
  obtain ⟨g2, t2, hcall2, hmem2, hrom2, hlen2, hinv2, hfl2, hlex2, _, hother2⟩ :=
    search_call_ideal [a, b] hne hvalid g1 t1 hinv1 hlen1 hf1
  have hlt : lex_lt t1.address t2.address := by
    rw [← hrom1]
    exact hlex2 (by omega)
  have hxy : t1.address ≠ t2.address := by
    intro h
    rw [h] at hlt
    exact lex_lt_irrefl _ hlt
  have hd2 : g2.last_discrepancy = 0 := by
    by_contra h
    obtain ⟨other, ho, hlo⟩ := hother2 h
    have hoy : other ≠ t2.address := by
      intro h'
      rw [h'] at hlo
      exact lex_lt_irrefl _ hlo
    have hox : other = t1.address := by
      simp only [List.mem_cons, List.mem_singleton, List.not_mem_nil, or_false] at ho hmem1 hmem2
      rcases ho with h1 | h1 <;> rcases hmem1 with h2 | h2 <;> rcases hmem2 with h3 | h3
      all_goals first
        | exact h1.trans h2.symm
        | exact absurd (h1.trans h3.symm) hoy
        | exact absurd (h2.trans h3.symm) hxy
    rw [hox] at hlo
    exact lex_lt_irrefl _ (lex_lt_trans _ _ _ hlt hlo)
  have hf2 : g2.last_device_flag ≠ 0 := hfl2.mpr hd2
  have hcall3 := search_rom_flag (ideal_bus [a, b]) g2 t2 hf2
  have h3 := search_calls_cons (ideal_bus [a, b]) 0 g2 g2 g2 t2 t2 t2 0 [] hcall3 rfl
  have h2 := search_calls_cons (ideal_bus [a, b]) 1 g1 g2 g2 t1 t2 t2 1 _ hcall2 h3
  have h1 := search_calls_cons (ideal_bus [a, b]) 2 g g1 g2 t t1 t2 1 _ hcall1 h2
  refine ⟨t1.address, t2.address, g2, t2, h1, hxy, ?_⟩
  simp only [List.mem_cons, List.mem_singleton, List.not_mem_nil, or_false] at hmem1 hmem2
  rcases hmem1 with h | h <;> rcases hmem2 with h' | h'
  · exact absurd (h.trans h'.symm) hxy
  · exact Or.inl ⟨h, h'⟩
  · exact Or.inr ⟨h, h'⟩
  · exact absurd (h.trans h'.symm) hxy

/-- Witness of C4: the two devices of `two_devices`, from the initial
globals. -/
theorem search_two_devices_witness :
    ∃ x y g' t', search_calls (ideal_bus two_devices) 3 Driver.initial
        (DS18B20_t.fresh [0, 0, 0, 0, 0, 0, 0, 0]) = some ([(1, x), (1, y), (0, y)], g', t') ∧
      x ≠ y ∧
      ((x = [0x28, 0x00, 0, 0, 0, 0, 0, 0] ∧ y = [0x28, 0x01, 0, 0, 0, 0, 0, 0]) ∨
        (x = [0x28, 0x01, 0, 0, 0, 0, 0, 0] ∧ y = [0x28, 0x00, 0, 0, 0, 0, 0, 0])) :=
  search_two_devices [0x28, 0x00, 0, 0, 0, 0, 0, 0] [0x28, 0x01, 0, 0, 0, 0, 0, 0]
    (by decide) (by decide) (by decide) Driver.initial
    (DS18B20_t.fresh [0, 0, 0, 0, 0, 0, 0, 0]) rfl rfl rfl rfl

/-! ### Restarting the search -/

theorem choose_fresh (r0 r1 : Bool) (n z : Nat) (x y : Bool) :
    choose_bit r0 r1 (n + 1) 0 x z = choose_bit r0 r1 (n + 1) 0 y z := by
  simp [choose_bit]

theorem bit_loop_fresh (bus : Bus) (l1 l2 : List Nat) :
    ∀ (n : Nat) (w : List Bool) (z : Nat),
      bit_loop bus 0 l1 n w z = bit_loop bus 0 l2 n w z := by
  intro n
  induction n with
  | zero => intro w z; rfl
  | succ n ih =>
    intro w z
    rw [bit_loop, bit_loop]
    rw [choose_fresh _ _ w.length z (rom_bit l1 w.length) (rom_bit l2 w.length)]
    split
    · rfl
    · exact ih _ _

theorem bit_loop_same (bus : Bus) (g1 g2 : Driver) (h : same_search g1 g2) :
    bit_loop bus g1.last_discrepancy g1.last_rom 64 [] 0
      = bit_loop bus g2.last_discrepancy g2.last_rom 64 [] 0 := by
  obtain ⟨hd, _, _, _, hrom⟩ := h
  by_cases h0 : g1.last_discrepancy = 0
  · rw [← hd, h0]
    exact bit_loop_fresh bus _ _ 64 [] 0
  · rw [← hd, hrom h0]

theorem search_rom_same (bus : Bus) (g1 g2 : Driver) (t : DS18B20_t)
    (h : same_search g1 g2) (hta : t.address.length = 8) :
    ∃ r g1' g2' t', DS18B20_SearchRom bus g1 t = some (r, g1', t') ∧
      DS18B20_SearchRom bus g2 t = some (r, g2', t') ∧ same_search g1' g2' ∧
      t'.address.length = 8 := by
  have h' := h
  obtain ⟨hd, hfl, hl1, hl2, _⟩ := h'
  by_cases hflag : g1.last_device_flag = 0
  · have hflag2 : g2.last_device_flag = 0 := hfl ▸ hflag
    by_cases hreset : ds_reset_result bus.reset_echo = 1
    · have hs1 := search_rom_spec bus g1 t hl1 hta hflag hreset
      have hs2 := search_rom_spec bus g2 t hl2 hta hflag2 hreset
      rw [← bit_loop_same bus g1 g2 h] at hs2
      cases hbl : bit_loop bus g1.last_discrepancy g1.last_rom 64 [] 0 with
      | none =>
        rw [hbl] at hs1 hs2
        obtain ⟨g1', hr1, hd1, hf1, hrom1⟩ := hs1
        obtain ⟨g2', hr2, hd2, hf2, hrom2⟩ := hs2
        refine ⟨0, g1', g2', t, hr1, hr2, ⟨?_, ?_, ?_, ?_, ?_⟩, hta⟩
        · rw [hd1, hd2]
        · rw [hf1, hf2]
        · rw [hrom1]; exact hl1
        · rw [hrom2]; exact hl2
        · intro hne; exact absurd hd1 hne
      | some p =>
        rw [hbl] at hs1 hs2
        obtain ⟨g1', t1', hr1, hd1, hf1, hrom1, hv1, hb1, _, ht1⟩ := hs1
        obtain ⟨g2', t2', hr2, hd2, hf2, hrom2, hv2, hb2, _, ht2⟩ := hs2
        have haddr : t1'.address = t2'.address := by
          apply rom_ext _ _ hv1 hv2
          intro j _
          rw [hb1 j, hb2 j]
        have htt : t1' = t2' := by
          rw [ht1, ht2, haddr]
        rw [← htt] at hr2 hrom2
        refine ⟨1, g1', g2', t1', hr1, hr2, ⟨?_, ?_, ?_, ?_, ?_⟩, hv1.1⟩
        · rw [hd1, hd2]
        · rw [hf1, hf2]
        · rw [hrom1]; exact hv1.1
        · rw [hrom2]; exact hv1.1
        · intro _; rw [hrom1, hrom2]
    · obtain ⟨g1', hr1, hd1, hf1, hrom1⟩ := search_rom_absent bus g1 t hflag hreset
      obtain ⟨g2', hr2, hd2, hf2, hrom2⟩ := search_rom_absent bus g2 t hflag2 hreset
      refine ⟨0, g1', g2', t, hr1, hr2, ⟨?_, ?_, ?_, ?_, ?_⟩, hta⟩
      · rw [hd1, hd2]
      · rw [hf1, hf2]
      · rw [hrom1]; exact hl1
      · rw [hrom2]; exact hl2
      · intro hne; exact absurd hd1 hne
  · have hflag2 : g2.last_device_flag ≠ 0 := hfl ▸ hflag
    exact ⟨0, g1, g2, t, search_rom_flag bus g1 t hflag, search_rom_flag bus g2 t hflag2, h, hta⟩

theorem calls_same (bus : Bus) :
    ∀ (n : Nat) (g1 g2 : Driver) (t : DS18B20_t), same_search g1 g2 →
      t.address.length = 8 →
      ∃ rs g1' g2' t', search_calls bus n g1 t = some (rs, g1', t') ∧
        search_calls bus n g2 t = some (rs, g2', t') ∧ rs.length = n := by
  intro n
  induction n with
  | zero =>
    intro g1 g2 t _ _
    exact ⟨[], g1, g2, t, rfl, rfl, rfl⟩
  | succ n ih =>
    intro g1 g2 t h hta
    obtain ⟨r, g1', g2', t', hr1, hr2, hsame, hlen⟩ := search_rom_same bus g1 g2 t h hta
    obtain ⟨rs, g1f, g2f, tf, hc1, hc2, hrl⟩ := ih g1' g2' t' hsame hlen
    exact ⟨(r, t'.address) :: rs, g1f, g2f, tf,
      search_calls_cons bus n g1 g1' g1f t t' tf r rs hr1 hc1,
      search_calls_cons bus n g2 g2' g2f t t' tf r rs hr2 hc2, by simp [hrl]⟩

theorem init_rom_length (g : Driver) : (DS18B20_Init g).last_rom.length = g.last_rom.length := by
  unfold DS18B20_Init
  simp only []
  generalize List.range 8 = l
  generalize g.last_rom = a
  induction l generalizing a with
  | nil => rfl
  | cons i l ih =>
    rw [List.foldl_cons, ih]
    simp

/-- C5: on any static bus, once the search state is cleared
(`last_discrepancy = 0` and `last_device_flag = 0`), whatever `last_rom`
holds, any number of successive calls of `DS18B20_SearchRom` all return, and
with the same sequence of results (returned value and device address) as the
calls made from the state that `DS18B20_Init` leaves. -/
theorem search_restartable (bus : Bus) (g g0 : Driver) (t : DS18B20_t) (n : Nat)
    (hd : g.last_discrepancy = 0) (hf : g.last_device_flag = 0)
    (hrom : g.last_rom.length = 8) (hrom0 : g0.last_rom.length = 8)
    (hta : t.address.length = 8) :
    ∃ rs g1 g2 t', search_calls bus n g t = some (rs, g1, t') ∧
      search_calls bus n (DS18B20_Init g0) t = some (rs, g2, t') ∧ rs.length = n := by
  apply calls_same bus n g (DS18B20_Init g0) t _ hta
  refine ⟨hd, hf, hrom, ?_, ?_⟩
  · rw [init_rom_length]; exact hrom0
  · intro h; exact absurd hd h

/-- Witness of C5: the bus of `two_devices`; the search state was cleared with
the identity of the second device left in `last_rom`. -/
theorem search_restartable_witness :
    ∃ rs g1 g2 t', search_calls (ideal_bus two_devices) 3
        { Driver.initial with last_rom := [0x28, 0x01, 0, 0, 0, 0, 0, 0] }
        (DS18B20_t.fresh [0, 0, 0, 0, 0, 0, 0, 0]) = some (rs, g1, t') ∧
      search_calls (ideal_bus two_devices) 3 (DS18B20_Init Driver.initial)
        (DS18B20_t.fresh [0, 0, 0, 0, 0, 0, 0, 0]) = some (rs, g2, t') ∧ rs.length = 3 :=
  search_restartable (ideal_bus two_devices)
    { Driver.initial with last_rom := [0x28, 0x01, 0, 0, 0, 0, 0, 0] } Driver.initial
    (DS18B20_t.fresh [0, 0, 0, 0, 0, 0, 0, 0]) 3 rfl rfl rfl rfl rfl

set_option maxRecDepth 100000 in
/-- C2, evaluated on the code: on the ideal bus holding the three distinct
devices of `three_devices`, from the initial globals, the first two calls of
`DS18B20_SearchRom` return the first and the second device, and the third and
the fourth call return 0: the third device is never returned. -/
theorem search_skips_device :
    (search_calls (ideal_bus three_devices) 4 Driver.initial
        (DS18B20_t.fresh [0, 0, 0, 0, 0, 0, 0, 0])).map (fun r => r.1)
      = some [(1, [0x28, 0x00, 0, 0, 0, 0, 0, 0]), (1, [0x28, 0x02, 0, 0, 0, 0, 0, 0]),
          (0, [0x28, 0x02, 0, 0, 0, 0, 0, 0]), (0, [0x28, 0x02, 0, 0, 0, 0, 0, 0])] ∧
      three_devices.Nodup ∧ (∀ id ∈ three_devices, valid_rom id) ∧
      [0x28, 0x01, 0, 0, 0, 0, 0, 0] ∈ three_devices := by
  refine ⟨by decide, by decide, by decide, by decide⟩

/-! ### Encoding and decoding of symbols -/

theorem and_shift_ne_zero (v i : Nat) : v &&& (1 <<< i) ≠ 0 ↔ v.testBit i = true := by
  rw [Nat.shiftLeft_eq, Nat.one_mul]
  exact and_two_pow_ne_zero v i

theorem fold_set_length (idx f : Nat → Nat) :
    ∀ (l : List Nat) (a : List Nat),
      (l.foldl (fun a i => a.set (idx i) (f i)) a).length = a.length := by
  intro l
  induction l with
  | nil => intro a; rfl
  | cons i l ih =>
    intro a
    rw [List.foldl_cons, ih]
    simp

theorem fold_set_off (f : Nat → Nat) (off : Nat) (a : List Nat) :
    ∀ n j, ((List.range n).foldl (fun a i => a.set (off + i) (f i)) a)[j]?
      = if off ≤ j ∧ j < off + n ∧ j < a.length then some (f (j - off)) else a[j]? := by
  intro n
  induction n with
  | zero =>
    intro j
    rw [if_neg (by omega)]
    rfl
  | succ n ih =>
    intro j
    rw [List.range_succ, List.foldl_append]
    simp only [List.foldl_cons, List.foldl_nil]
    have hlen := fold_set_length (fun i => off + i) f (List.range n) a
    by_cases hjn : j = off + n
    · subst hjn
      by_cases hl : off + n < a.length
      · rw [List.getElem?_set_self (by rw [hlen]; exact hl), if_pos ⟨by omega, by omega, hl⟩]
        congr 2
        omega
      · rw [List.getElem?_eq_none (by rw [List.length_set, hlen]; omega), if_neg (by omega),
          List.getElem?_eq_none (by omega)]
    · rw [List.getElem?_set_ne (Ne.symm hjn), ih j]
      by_cases h1 : off ≤ j ∧ j < off + n ∧ j < a.length
      · rw [if_pos h1, if_pos ⟨h1.1, by omega, h1.2.2⟩]
      · rw [if_neg h1, if_neg (by omega)]

theorem write_step_eq (v : Nat) :
    (fun (b : List Nat) (i : Nat) =>
        if v &&& (1 <<< i) ≠ 0 then b.set i DS_ONE else b.set i DS_ZERO)
      = (fun b i => b.set (0 + i) (bit_symbol (v.testBit i))) := by
  funext b i
  rw [Nat.zero_add]
  by_cases h : v.testBit i = true
  · rw [if_pos ((and_shift_ne_zero v i).mpr h), h]
    rfl
  · rw [if_neg (fun h' => h ((and_shift_ne_zero v i).mp h'))]
    simp only [Bool.not_eq_true] at h
    rw [h]
    rfl

theorem ds_write_buf_def (v : Nat) (g : Driver) :
    (ds_write v g).ds_tx_buf = (List.range 8).foldl
      (fun b i => if v &&& (1 <<< i) ≠ 0 then b.set i DS_ONE else b.set i DS_ZERO)
      g.ds_tx_buf := rfl

theorem ds_write_buf (v : Nat) (g : Driver) (j : Nat) :
    (ds_write v g).ds_tx_buf[j]?
      = if j < 8 ∧ j < g.ds_tx_buf.length then some (bit_symbol (v.testBit j))
        else g.ds_tx_buf[j]? := by
  rw [ds_write_buf_def, write_step_eq, fold_set_off]
  by_cases h : j < 8 ∧ j < g.ds_tx_buf.length
  · rw [if_pos ⟨by omega, by omega, h.2⟩, if_pos h]
    rfl
  · rw [if_neg (by omega), if_neg h]

theorem ds_write_length (v : Nat) (g : Driver) :
    (ds_write v g).ds_tx_buf.length = g.ds_tx_buf.length := by
  rw [ds_write_buf_def, write_step_eq]
  exact fold_set_length _ _ _ _

theorem ds_write_take (v : Nat) (g : Driver) (hlen : 8 ≤ g.ds_tx_buf.length) :
    (ds_write v g).ds_tx_buf.take 8 = byte_symbols v := by
  apply List.ext_getElem?
  intro j
  rw [List.getElem?_take]
  unfold byte_symbols
  by_cases hj : j < 8
  · rw [if_pos hj, ds_write_buf, if_pos ⟨hj, by omega⟩, List.getElem?_map,
      List.getElem?_range hj]
    rfl
  · rw [if_neg hj, List.getElem?_eq_none (by simp; omega)]

theorem ds_write_trace (v : Nat) (g : Driver) (hlen : 8 ≤ g.ds_tx_buf.length) :
    (ds_write v g).trace = g.trace ++ [HalCall.transmit_dma (byte_symbols v)] := by
  show g.trace ++ [HalCall.transmit_dma ((ds_write v g).ds_tx_buf.take 8)] = _
  rw [ds_write_take v g hlen]

theorem decode_fold_testBit (buf : List Nat) :
    ∀ n i, ((List.range n).foldl
        (fun value i => if buf.getD i 0 = 0xFF then value ||| (1 <<< i) else value) 0).testBit i
      = (decide (i < n) && decide (buf.getD i 0 = 0xFF)) := by
  intro n
  induction n with
  | zero =>
    intro i
    simp
  | succ n ih =>
    intro i
    rw [List.range_succ, List.foldl_append]
    simp only [List.foldl_cons, List.foldl_nil]
    have hgd : buf.getD n 0 = buf[n]?.getD 0 := List.getD_eq_getElem?_getD _ _ _
    by_cases hb : buf.getD n 0 = 0xFF
    · have hb' := hb
      rw [hgd] at hb'
      rw [if_pos hb, Nat.testBit_or, ih i, Nat.shiftLeft_eq, Nat.one_mul, Nat.testBit_two_pow]
      by_cases hin : n = i
      · subst hin
        simp [hb']
      · have h1 : decide (i < n + 1) = decide (i < n) := by
          apply decide_eq_decide.mpr
          omega
        simp [hin, h1]
    · have hb' := hb
      rw [hgd] at hb'
      rw [if_neg hb, ih i]
      by_cases hin : n = i
      · subst hin
        simp [hb']
      · have h1 : decide (i < n + 1) = decide (i < n) := by
          apply decide_eq_decide.mpr
          omega
        rw [h1]

theorem ds_convert_testBit (g : Driver) (i : Nat) :
    (ds_convert g).testBit i = (decide (i < 8) && decide (g.ds_rx_buf.getD i 0 = 0xFF)) :=
  decode_fold_testBit g.ds_rx_buf 8 i

theorem bit_symbol_eq_one (b : Bool) : decide (bit_symbol b = 0xFF) = b := by
  cases b <;> decide

theorem ds_convert_symbols (v : Nat) (hv : v < 256) (g : Driver)
    (h : g.ds_rx_buf.take 8 = byte_symbols v) : ds_convert g = v := by
  apply Nat.eq_of_testBit_eq
  intro i
  rw [ds_convert_testBit]
  by_cases hi : i < 8
  · have h1 : g.ds_rx_buf.getD i 0 = bit_symbol (v.testBit i) := by
      have h2 : (g.ds_rx_buf.take 8)[i]? = (byte_symbols v)[i]? := by rw [h]
      rw [List.getElem?_take, if_pos hi] at h2
      unfold byte_symbols at h2
      rw [List.getElem?_map, List.getElem?_range hi] at h2
      rw [List.getD_eq_getElem?_getD, h2]
      rfl
    rw [h1, bit_symbol_eq_one]
    simp [hi]
  · have hpow : 2 ^ 8 ≤ 2 ^ i := Nat.pow_le_pow_right (by decide) (by omega)
    have hv' : v < 2 ^ i := by omega
    rw [Nat.testBit_lt_two_pow hv']
    simp [hi]

/-- C17: for every byte `v`, `ds_write v` puts in the first eight transmit
symbols bit `i` of `v` at position `i`, as 0xFF for a 1 and 0x00 for a 0,
clears `ds_tx_done` and transmits these eight symbols; `ds_convert` decodes a
symbol as 1 exactly when it is 0xFF; and `ds_convert` on a receive buffer that
holds the eight symbols written returns `v`. -/
theorem write_convert_roundtrip (v : Nat) (hv : v < 256) (g : Driver)
    (hbuf : 8 ≤ g.ds_tx_buf.length) :
    (∀ i, i < 8 →
        (ds_write v g).ds_tx_buf[i]? = some (if v.testBit i = true then 0xFF else 0x00)) ∧
      (ds_write v g).ds_tx_done = 0 ∧
      (ds_write v g).trace = g.trace ++ [HalCall.transmit_dma ((ds_write v g).ds_tx_buf.take 8)] ∧
      (∀ (g' : Driver) (i : Nat), i < 8 →
        ((ds_convert g').testBit i = true ↔ g'.ds_rx_buf.getD i 0 = 0xFF)) ∧
      (∀ g' : Driver, g'.ds_rx_buf.take 8 = (ds_write v g).ds_tx_buf.take 8 →
        ds_convert g' = v) := by
  refine ⟨?_, rfl, rfl, ?_, ?_⟩
  · intro i hi
    rw [ds_write_buf, if_pos ⟨hi, by omega⟩]
    cases v.testBit i <;> rfl
  · intro g' i hi
    rw [ds_convert_testBit]
    simp [hi]
  · intro g' h
    rw [ds_write_take v g hbuf] at h
    exact ds_convert_symbols v hv g' h

/-- Witness of C17: the byte 0x44 written from the initial globals. -/
theorem write_convert_roundtrip_witness :
    ds_convert { Driver.initial with ds_rx_buf := [0, 0, 0xFF, 0, 0, 0, 0xFF, 0] } = 0x44 :=
  (write_convert_roundtrip 0x44 (by decide) Driver.initial (by decide)).2.2.2.2
    { Driver.initial with ds_rx_buf := [0, 0, 0xFF, 0, 0, 0, 0xFF, 0] } (by decide)

/-! ### What the transfers carry -/

theorem address_step_eq (data : List Nat) (byte : Nat) :
    (fun (b : List Nat) (bit : Nat) =>
        if data.getD byte 0 &&& (1 <<< bit) ≠ 0 then b.set (byte * 8 + bit) DS_ONE
        else b.set (byte * 8 + bit) DS_ZERO)
      = (fun b bit => b.set (byte * 8 + bit) (bit_symbol ((data.getD byte 0).testBit bit))) := by
  funext b bit
  by_cases h : (data.getD byte 0).testBit bit = true
  · rw [if_pos ((and_shift_ne_zero _ bit).mpr h), h]
    rfl
  · rw [if_neg (fun h' => h ((and_shift_ne_zero _ bit).mp h'))]
    simp only [Bool.not_eq_true] at h
    rw [h]
    rfl

theorem address_fold_length (data : List Nat) :
    ∀ (n : Nat) (a : List Nat),
      ((List.range n).foldl
        (fun b byte => (List.range 8).foldl
          (fun b bit =>
            if data.getD byte 0 &&& (1 <<< bit) ≠ 0 then b.set (byte * 8 + bit) DS_ONE
            else b.set (byte * 8 + bit) DS_ZERO) b) a).length = a.length := by
  intro n
  induction n with
  | zero => intro a; rfl
  | succ n ih =>
    intro a
    rw [show List.range (n + 1) = List.range n ++ [n] from List.range_succ n, List.foldl_append]
    simp only [List.foldl_cons, List.foldl_nil]
    rw [address_step_eq, fold_set_length (fun i => n * 8 + i), ih]

theorem address_fold_getElem? (data : List Nat) (a : List Nat) :
    ∀ (n j : Nat),
      ((List.range n).foldl
        (fun b byte => (List.range 8).foldl
          (fun b bit =>
            if data.getD byte 0 &&& (1 <<< bit) ≠ 0 then b.set (byte * 8 + bit) DS_ONE
            else b.set (byte * 8 + bit) DS_ZERO) b) a)[j]?
        = if j < n * 8 ∧ j < a.length then some (bit_symbol (rom_bit data j)) else a[j]? := by
  intro n
  induction n with
  | zero =>
    intro j
    rw [if_neg (by omega)]
    rfl
  | succ n ih =>
    intro j
    rw [show List.range (n + 1) = List.range n ++ [n] from List.range_succ n, List.foldl_append]
    simp only [List.foldl_cons, List.foldl_nil]
    rw [address_step_eq, fold_set_off, address_fold_length, ih j]
    by_cases h1 : n * 8 ≤ j ∧ j < n * 8 + 8 ∧ j < a.length
    · rw [if_pos h1, if_pos ⟨by omega, h1.2.2⟩]
      have e1 : j / 8 = n := by omega
      have e2 : j % 8 = j - n * 8 := by omega
      unfold rom_bit
      rw [e1, e2]
    · rw [if_neg h1]
      by_cases h2 : j < n * 8 ∧ j < a.length
      · rw [if_pos h2, if_pos ⟨by omega, h2.2⟩]
      · rw [if_neg h2, if_neg (by omega)]

theorem ds_write_address_buf_def (data : List Nat) (len : Nat) (g : Driver) :
    (ds_write_address data len g).ds_tx_buf = (List.range len).foldl
      (fun b byte => (List.range 8).foldl
        (fun b bit =>
          if data.getD byte 0 &&& (1 <<< bit) ≠ 0 then b.set (byte * 8 + bit) DS_ONE
          else b.set (byte * 8 + bit) DS_ZERO) b) g.ds_tx_buf := rfl

theorem ds_write_address_length (data : List Nat) (len : Nat) (g : Driver) :
    (ds_write_address data len g).ds_tx_buf.length = g.ds_tx_buf.length := by
  rw [ds_write_address_buf_def]
  exact address_fold_length data len g.ds_tx_buf

theorem ds_write_address_take (data : List Nat) (g : Driver) (hlen : 64 ≤ g.ds_tx_buf.length) :
    (ds_write_address data 8 g).ds_tx_buf.take (8 * 8) = address_symbols data := by
  apply List.ext_getElem?
  intro j
  rw [List.getElem?_take, ds_write_address_buf_def, address_fold_getElem?]
  unfold address_symbols
  by_cases hj : j < 8 * 8
  · rw [if_pos hj, if_pos ⟨by omega, by omega⟩, List.getElem?_map, List.getElem?_range (by omega)]
    rfl
  · rw [if_neg hj, List.getElem?_eq_none (by simp; omega)]

theorem ds_write_address_trace (data : List Nat) (g : Driver)
    (hlen : 64 ≤ g.ds_tx_buf.length) :
    (ds_write_address data 8 g).trace
      = g.trace ++ [HalCall.transmit_dma (address_symbols data)] := by
  have h : (ds_write_address data 8 g).trace
      = g.trace ++ [HalCall.transmit_dma ((ds_write_address data 8 g).ds_tx_buf.take (8 * 8))] :=
    rfl
  rw [h, ds_write_address_take data g hlen]

theorem wait_tx_done_frame (g : Driver) :
    (wait_tx_done g).trace = g.trace ∧ (wait_tx_done g).ds_tx_buf = g.ds_tx_buf ∧
      (wait_tx_done g).ds_bus_owner = g.ds_bus_owner ∧ (wait_tx_done g).ds_tx_done ≠ 0 ∧
      (wait_tx_done g).ds_rx_done = g.ds_rx_done := by
  unfold wait_tx_done DS18B20_TX_Callback
  by_cases h : g.ds_tx_done ≠ 0
  · rw [if_pos h]
    exact ⟨rfl, rfl, rfl, h, rfl⟩
  · rw [if_neg h]
    exact ⟨rfl, rfl, rfl, by simp, rfl⟩

theorem wait_write (v : Nat) (g : Driver) (hlen : g.ds_tx_buf.length = 64) :
    ∃ g', wait_tx_done (ds_write v g) = g' ∧
      g'.trace = g.trace ++ [HalCall.transmit_dma (byte_symbols v)] ∧
      g'.ds_tx_buf.length = 64 ∧ g'.ds_bus_owner = g.ds_bus_owner := by
  obtain ⟨h1, h2, h3, _, _⟩ := wait_tx_done_frame (ds_write v g)
  refine ⟨_, rfl, ?_, ?_, ?_⟩
  · rw [h1, ds_write_trace v g (by omega)]
  · rw [h2, ds_write_length, hlen]
  · rw [h3]; rfl

theorem wait_write_address (data : List Nat) (g : Driver) (hlen : g.ds_tx_buf.length = 64) :
    ∃ g', wait_tx_done (ds_write_address data 8 g) = g' ∧
      g'.trace = g.trace ++ [HalCall.transmit_dma (address_symbols data)] ∧
      g'.ds_tx_buf.length = 64 ∧ g'.ds_bus_owner = g.ds_bus_owner := by
  obtain ⟨h1, h2, h3, _, _⟩ := wait_tx_done_frame (ds_write_address data 8 g)
  refine ⟨_, rfl, ?_, ?_, ?_⟩
  · rw [h1, ds_write_address_trace data g (by omega)]
  · rw [h2, ds_write_address_length, hlen]
  · rw [h3]; rfl

theorem set_precision_success (self precision : Nat) (echo1 echo2 : Option Nat)
    (g : Driver) (t : DS18B20_t)
    (hprec : precision = 9 ∨ precision = 10 ∨ precision = 11 ∨ precision = 12)
    (hret : (DS18B20_SetPrecision self precision echo1 echo2 g t).1 = 1) :
    (DS18B20_SetPrecision self precision echo1 echo2 g t).2.1 =
      { wait_tx_done (ds_write CMD_COPY_SCRATCHPAD
          (wait_tx_done (ds_write_address t.address 8
            (wait_tx_done (ds_write CMD_MATCH_ROM
              (ds_reset echo2
                (wait_tx_done (ds_write (precision_config precision)
                  (wait_tx_done (ds_write DEFAULT_ALARM_TL
                    (wait_tx_done (ds_write DEFAULT_ALARM_TH
                      (wait_tx_done (ds_write CMD_WRITE_SCRATCHPAD
                        (wait_tx_done (ds_write_address t.address 8
                          (wait_tx_done (ds_write CMD_MATCH_ROM
                            (ds_reset echo1
                              { g with ds_bus_owner := some self }).1))))))))))))).1)))))
        with ds_bus_owner := none } := by
  obtain ⟨hown, he1, he2, _⟩ := (set_precision_result self precision echo1 echo2 g t).1.mp hret
  have hg : ¬ (g.ds_bus_owner ≠ none ∧ g.ds_bus_owner ≠ some self) := by
    rcases hown with h | h <;> simp [h]
  have hp1 : ¬ to_uint8 (ds_reset_result echo1) ≠ 1 := fun h => h ((to_uint8_reset echo1).mpr he1)
  have hp2 : ¬ to_uint8 (ds_reset_result echo2) ≠ 1 := fun h => h ((to_uint8_reset echo2).mpr he2)
  unfold DS18B20_SetPrecision
  simp only [ds_reset]
  rw [if_neg hg, if_neg hp1]
  rcases hprec with h | h | h | h <;> subst h <;> simp only [] <;> rw [if_neg hp2] <;> rfl

/-- C11: for every device address and every precision in {9, 10, 11, 12}, a
call of `DS18B20_SetPrecision` that returns 1 issues exactly these transfers:
the reset pulse, the byte 0x55, the 8 address bytes as 64 symbols, 0x4E,
`DEFAULT_ALARM_TH` (0x46), `DEFAULT_ALARM_TL` (0x4B) and the configuration
byte (0x1F, 0x3F, 0x5F, 0x7F for 9, 10, 11, 12 bits); then the second reset
pulse, 0x55, the address and 0x48.  So the three bytes that follow the write
scratchpad command are the default alarm thresholds and the configuration
byte, 0x7F for 12 bits. -/
theorem set_precision_transmits (self precision : Nat) (echo1 echo2 : Option Nat)
    (g : Driver) (t : DS18B20_t) (hbuf : g.ds_tx_buf.length = 64)
    (hprec : precision = 9 ∨ precision = 10 ∨ precision = 11 ∨ precision = 12)
    (hret : (DS18B20_SetPrecision self precision echo1 echo2 g t).1 = 1) :
    (DS18B20_SetPrecision self precision echo1 echo2 g t).2.1.trace =
        g.trace ++
          [HalCall.reset_pulse,
           HalCall.transmit_dma (byte_symbols 0x55),
           HalCall.transmit_dma (address_symbols t.address),
           HalCall.transmit_dma (byte_symbols 0x4E),
           HalCall.transmit_dma (byte_symbols DEFAULT_ALARM_TH),
           HalCall.transmit_dma (byte_symbols DEFAULT_ALARM_TL),
           HalCall.transmit_dma (byte_symbols (precision_config precision)),
           HalCall.reset_pulse,
           HalCall.transmit_dma (byte_symbols 0x55),
           HalCall.transmit_dma (address_symbols t.address),
           HalCall.transmit_dma (byte_symbols 0x48)] ∧
      DEFAULT_ALARM_TH = 0x46 ∧ DEFAULT_ALARM_TL = 0x4B ∧
      precision_config 9 = 0x1F ∧ precision_config 10 = 0x3F ∧
      precision_config 11 = 0x5F ∧ precision_config 12 = 0x7F := by
  refine ⟨?_, rfl, rfl, rfl, rfl, rfl, rfl⟩
  rw [set_precision_success self precision echo1 echo2 g t hprec hret]
  have l1 : (ds_reset echo1 { g with ds_bus_owner := some self }).1.ds_tx_buf.length = 64 := hbuf
  have t1 : (ds_reset echo1 { g with ds_bus_owner := some self }).1.trace
      = g.trace ++ [HalCall.reset_pulse] := rfl
  obtain ⟨g2, e2, t2, l2, _⟩ := wait_write CMD_MATCH_ROM _ l1
  rw [e2]
  obtain ⟨g3, e3, t3, l3, _⟩ := wait_write_address t.address g2 l2
  rw [e3]
  obtain ⟨g4, e4, t4, l4, _⟩ := wait_write CMD_WRITE_SCRATCHPAD g3 l3
  rw [e4]
  obtain ⟨g5, e5, t5, l5, _⟩ := wait_write DEFAULT_ALARM_TH g4 l4
  rw [e5]
  obtain ⟨g6, e6, t6, l6, _⟩ := wait_write DEFAULT_ALARM_TL g5 l5
  rw [e6]
  obtain ⟨g7, e7, t7, l7, _⟩ := wait_write (precision_config precision) g6 l6
  rw [e7]
  have l8 : (ds_reset echo2 g7).1.ds_tx_buf.length = 64 := l7
  have t8 : (ds_reset echo2 g7).1.trace = g7.trace ++ [HalCall.reset_pulse] := rfl
  obtain ⟨g9, e9, t9, l9, _⟩ := wait_write CMD_MATCH_ROM _ l8
  rw [e9]
  obtain ⟨g10, e10, t10, l10, _⟩ := wait_write_address t.address g9 l9
  rw [e10]
  obtain ⟨g11, e11, t11, _, _⟩ := wait_write CMD_COPY_SCRATCHPAD g10 l10
  rw [e11]
  show g11.trace = _
  rw [t11, t10, t9, t8, t7, t6, t5, t4, t3, t2, t1]
  simp only [List.append_assoc, List.cons_append, List.nil_append]
  rfl

/-- Witness of C11: precision 12 on a device that owns nothing, both presence
checks succeeding. -/
theorem set_precision_transmits_witness :
    (DS18B20_SetPrecision 0 12 (some 0xE0) (some 0xE0) Driver.initial
        (DS18B20_t.fresh [0x28, 1, 2, 3, 4, 5, 6, 7])).2.1.trace =
      [] ++
        [HalCall.reset_pulse,
         HalCall.transmit_dma (byte_symbols 0x55),
         HalCall.transmit_dma (address_symbols [0x28, 1, 2, 3, 4, 5, 6, 7]),
         HalCall.transmit_dma (byte_symbols 0x4E),
         HalCall.transmit_dma (byte_symbols DEFAULT_ALARM_TH),
         HalCall.transmit_dma (byte_symbols DEFAULT_ALARM_TL),
         HalCall.transmit_dma (byte_symbols (precision_config 12)),
         HalCall.reset_pulse,
         HalCall.transmit_dma (byte_symbols 0x55),
         HalCall.transmit_dma (address_symbols [0x28, 1, 2, 3, 4, 5, 6, 7]),
         HalCall.transmit_dma (byte_symbols 0x48)] :=
  (set_precision_transmits 0 12 (some 0xE0) (some 0xE0) Driver.initial
    (DS18B20_t.fresh [0x28, 1, 2, 3, 4, 5, 6, 7]) (by decide)
    (Or.inr (Or.inr (Or.inr rfl))) (by decide)).1

theorem wait_write_owner (v : Nat) (g : Driver) :
    (wait_tx_done (ds_write v g)).ds_bus_owner = g.ds_bus_owner :=
  (wait_tx_done_frame (ds_write v g)).2.2.1

theorem wait_write_address_owner (data : List Nat) (g : Driver) :
    (wait_tx_done (ds_write_address data 8 g)).ds_bus_owner = g.ds_bus_owner :=
  (wait_tx_done_frame (ds_write_address data 8 g)).2.2.1

theorem set_precision_owner_eq (self precision : Nat) (echo1 echo2 : Option Nat)
    (g : Driver) (t : DS18B20_t)
    (hown : g.ds_bus_owner = none ∨ g.ds_bus_owner = some self) :
    (DS18B20_SetPrecision self precision echo1 echo2 g t).2.1.ds_bus_owner =
        (if (DS18B20_SetPrecision self precision echo1 echo2 g t).1 = 1 then none
          else some self) ∧
      ((DS18B20_SetPrecision self precision echo1 echo2 g t).1 = 0 ∨
        (DS18B20_SetPrecision self precision echo1 echo2 g t).1 = 1) := by
  have hg : ¬ (g.ds_bus_owner ≠ none ∧ g.ds_bus_owner ≠ some self) := by
    rcases hown with h | h <;> simp [h]
  unfold DS18B20_SetPrecision
  simp only [ds_reset]
  rw [if_neg hg]
  by_cases he1 : to_uint8 (ds_reset_result echo1) ≠ 1
  · rw [if_pos he1]
    exact ⟨rfl, Or.inl rfl⟩
  · rw [if_neg he1]
    split
    · refine ⟨?_, Or.inl rfl⟩
      dsimp only
      rw [if_neg (by decide)]
      simp only [wait_write_owner, wait_write_address_owner]
    · by_cases he2 : to_uint8 (ds_reset_result echo2) ≠ 1
      · simp only [if_pos he2]
        simp [wait_write_owner, wait_write_address_owner]
      · simp only [if_neg he2]
        simp

/-- C20: when `DS18B20_SetPrecision` is called on device `self` while the bus
is unowned or owned by `self`, a call that returns 0 (a failed presence check
or a precision outside {9, 10, 11, 12}) leaves `ds_bus_owner` equal to `self`,
so that a Poll on any other device then changes nothing; a call that returns
1 leaves the bus unowned, and the bus is unowned afterwards only then. -/
theorem set_precision_keeps_bus (self precision : Nat) (echo1 echo2 : Option Nat)
    (g : Driver) (t : DS18B20_t)
    (hown : g.ds_bus_owner = none ∨ g.ds_bus_owner = some self) :
    ((DS18B20_SetPrecision self precision echo1 echo2 g t).1 = 0 →
        (DS18B20_SetPrecision self precision echo1 echo2 g t).2.1.ds_bus_owner = some self ∧
        ∀ (other tick : Nat) (echo : Option Nat) (u : DS18B20_t), other ≠ self →
          DS18B20_Handle other tick echo
              (DS18B20_SetPrecision self precision echo1 echo2 g t).2.1 u
            = ((DS18B20_SetPrecision self precision echo1 echo2 g t).2.1, u)) ∧
      ((DS18B20_SetPrecision self precision echo1 echo2 g t).1 = 1 →
        (DS18B20_SetPrecision self precision echo1 echo2 g t).2.1.ds_bus_owner = none) ∧
      ((DS18B20_SetPrecision self precision echo1 echo2 g t).2.1.ds_bus_owner = none ↔
        (DS18B20_SetPrecision self precision echo1 echo2 g t).1 = 1) ∧
      ((DS18B20_SetPrecision self precision echo1 echo2 g t).1 = 0 ↔
        ¬ (ds_reset_result echo1 = 1 ∧ ds_reset_result echo2 = 1 ∧
          (precision = 9 ∨ precision = 10 ∨ precision = 11 ∨ precision = 12))) := by
  obtain ⟨hk, h01⟩ := set_precision_owner_eq self precision echo1 echo2 g t hown
  obtain ⟨hres, _⟩ := set_precision_result self precision echo1 echo2 g t
  refine ⟨?_, ?_, ?_, ?_⟩
  · intro h0
    have hs : (DS18B20_SetPrecision self precision echo1 echo2 g t).2.1.ds_bus_owner
        = some self := by
      rw [hk, if_neg (by omega)]
    exact ⟨hs, fun other tick echo u hne =>
      handle_blocked other tick echo _ u self hs (Ne.symm hne)⟩
  · intro h1
    rw [hk, if_pos h1]
  · constructor
    · intro hn
      rcases h01 with h0 | h1
      · rw [hk, if_neg (by omega)] at hn
        cases hn
      · exact h1
    · intro h1
      rw [hk, if_pos h1]
  · constructor
    · intro h0 hc
      have := hres.mpr ⟨hown, hc⟩
      omega
    · intro hn
      rcases h01 with h0 | h1
      · exact h0
      · exact absurd (hres.mp h1).2 hn

/-- Witness of C20: an invalid precision leaves device 0 as the bus owner. -/
theorem set_precision_keeps_bus_witness :
    (DS18B20_SetPrecision 0 13 (some 0xE0) (some 0xE0) Driver.initial
        (DS18B20_t.fresh [0x28, 1, 2, 3, 4, 5, 6, 7])).2.1.ds_bus_owner = some 0 :=
  ((set_precision_keeps_bus 0 13 (some 0xE0) (some 0xE0) Driver.initial
    (DS18B20_t.fresh [0x28, 1, 2, 3, 4, 5, 6, 7]) (Or.inl rfl)).1 (by decide)).1

/-! ### The iterations of one call -/

theorem search_steps_ok (bus : Bus) :
    ∀ (k : Nat) (g gk : Driver) (l lk : SearchLocals), locals_ok l →
      l.written.length + k ≤ 64 → search_steps bus k g l = some (gk, lk) →
      locals_ok lk ∧ lk.written.length = l.written.length + k ∧
        gk.last_discrepancy = g.last_discrepancy ∧ gk.last_rom = g.last_rom ∧
        gk.last_device_flag = g.last_device_flag := by
  intro k
  induction k with
  | zero =>
    intro g gk l lk hl _ h
    have h' : (g, l) = (gk, lk) := Option.some.inj h
    cases h'
    exact ⟨hl, rfl, rfl, rfl, rfl⟩
  | succ k ih =>
    intro g gk l lk hl hlen h
    obtain ⟨habort, hnext⟩ := search_body_spec bus g l hl (by omega)
    by_cases hboth : (bus_reads bus l.written).1 = true ∧ (bus_reads bus l.written).2 = true
    · obtain ⟨g', hb, _⟩ := habort hboth
      rw [search_steps, hb] at h
      cases h
    · obtain ⟨g', l', hb, hd, hf, hr, hl', hw, _⟩ := hnext hboth
      rw [search_steps, hb] at h
      have hlen' : l'.written.length = l.written.length + 1 := by rw [hw]; simp
      obtain ⟨h1, h2, h3, h4, h5⟩ := ih g' gk l' lk hl' (by omega) h
      exact ⟨h1, by omega, h3.trans hd, h4.trans hr, h5.trans hf⟩

theorem search_loop_steps (bus : Bus) :
    ∀ (k m : Nat) (g gk : Driver) (l lk : SearchLocals), locals_ok l →
      l.written.length + k ≤ 64 → search_steps bus k g l = some (gk, lk) →
      search_loop bus (k + m) g l = search_loop bus m gk lk := by
  intro k
  induction k with
  | zero =>
    intro m g gk l lk _ _ h
    have h' : (g, l) = (gk, lk) := Option.some.inj h
    cases h'
    rw [Nat.zero_add]
  | succ k ih =>
    intro m g gk l lk hl hlen h
    obtain ⟨habort, hnext⟩ := search_body_spec bus g l hl (by omega)
    have hb8 : l.rom_byte_number < 8 := by
      rw [hl.2.2.1]; omega
    by_cases hboth : (bus_reads bus l.written).1 = true ∧ (bus_reads bus l.written).2 = true
    · obtain ⟨g', hb, _⟩ := habort hboth
      rw [search_steps, hb] at h
      cases h
    · obtain ⟨g', l', hb, _, _, _, hl', hw, _⟩ := hnext hboth
      rw [search_steps, hb] at h
      have hlen' : l'.written.length = l.written.length + 1 := by rw [hw]; simp
      have e : k + 1 + m = (k + m) + 1 := by omega
      rw [e, search_loop, if_pos hb8, hb]
      exact ih m g' gk l' lk hl' (by omega) h

theorem search_entry_frame (bus : Bus) (g : Driver) :
    (search_entry bus g).last_discrepancy = g.last_discrepancy ∧
      (search_entry bus g).last_device_flag = g.last_device_flag ∧
      (search_entry bus g).last_rom = g.last_rom :=
  wait_write_frame CMD_SEARCH_ROM (ds_reset bus.reset_echo g).1

/-- C12: in a call of `DS18B20_SearchRom` that gets to the presence check
(`last_device_flag` is 0), if the presence check fails, or if the call reaches
some bit number `k + 1` (with `k < 64`) where the bit read and the complement
read are both 1, the call returns 0, leaves the device context alone and ends
with `last_discrepancy = 0` and `last_device_flag = 0`. -/
theorem search_abort_clears (bus : Bus) (g : Driver) (t : DS18B20_t)
    (hflag : g.last_device_flag = 0) :
    (ds_reset_result bus.reset_echo ≠ 1 →
        ∃ g', DS18B20_SearchRom bus g t = some (0, g', t) ∧ g'.last_discrepancy = 0 ∧
          g'.last_device_flag = 0) ∧
      (ds_reset_result bus.reset_echo = 1 →
        (∃ k gk lk, k < 64 ∧
          search_steps bus k (search_entry bus g) SearchLocals.start = some (gk, lk) ∧
          bus.read_slot lk.written false = 0xFF ∧ bus.read_slot lk.written true = 0xFF) →
        ∃ g', DS18B20_SearchRom bus g t = some (0, g', t) ∧ g'.last_discrepancy = 0 ∧
          g'.last_device_flag = 0) := by
  constructor
  · intro hreset
    obtain ⟨g', h1, h2, h3, _⟩ := search_rom_absent bus g t hflag hreset
    exact ⟨g', h1, h2, h3⟩
  · rintro hreset ⟨k, gk, lk, hk, hsteps, hr0, hr1⟩
    have hstart : SearchLocals.start.written.length + k ≤ 64 := by
      show 0 + k ≤ 64
      omega
    obtain ⟨hlk, hlen, _, _, _⟩ :=
      search_steps_ok bus k _ gk _ lk locals_ok_start hstart hsteps
    have hlen' : lk.written.length = k := by
      rw [hlen]
      show 0 + k = k
      omega
    have hloop := search_loop_steps bus k (64 - k) _ gk _ lk locals_ok_start hstart hsteps
    have e64 : k + (64 - k) = 64 := by omega
    rw [e64] at hloop
    have hboth : (bus_reads bus lk.written).1 = true ∧ (bus_reads bus lk.written).2 = true := by
      simp [bus_reads, hr0, hr1]
    obtain ⟨g', hb, hd, hf, _⟩ := (search_body_spec bus gk lk hlk (by omega)).1 hboth
    have hb8 : lk.rom_byte_number < 8 := by
      rw [hlk.2.2.1]; omega
    have em : 64 - k = (63 - k) + 1 := by omega
    have hab : search_loop bus (64 - k) gk lk = LoopResult.aborted g' := by
      rw [em, search_loop, if_pos hb8, hb]
    rw [hab] at hloop
    refine ⟨g', ?_, hd, hf⟩
    unfold DS18B20_SearchRom
    rw [if_neg (by simpa using hflag)]
    simp only []
    rw [if_neg (show ¬ (ds_reset bus.reset_echo g).2 ≠ 1 from fun h => h hreset)]
    have hl : search_loop bus 64
        (wait_tx_done (ds_write CMD_SEARCH_ROM (ds_reset bus.reset_echo g).1))
        SearchLocals.start = LoopResult.aborted g' := hloop
    rw [hl]

/-- Witness of C12: on a bus with no device the presence check fails. -/
theorem search_abort_clears_witness :
    ∃ g', DS18B20_SearchRom (ideal_bus []) Driver.initial (DS18B20_t.fresh [0, 0, 0, 0, 0, 0, 0, 0])
        = some (0, g', DS18B20_t.fresh [0, 0, 0, 0, 0, 0, 0, 0]) ∧
      g'.last_discrepancy = 0 ∧ g'.last_device_flag = 0 :=
  (search_abort_clears (ideal_bus []) Driver.initial (DS18B20_t.fresh [0, 0, 0, 0, 0, 0, 0, 0])
    rfl).1 (by decide)

theorem search_body_trace (bus : Bus) (g : Driver) (l : SearchLocals) (hl : locals_ok l)
    (hnot : ¬ ((bus_reads bus l.written).1 = true ∧ (bus_reads bus l.written).2 = true)) :
    (search_body bus g l).1.trace =
      g.trace ++ [HalCall.receive_dma 1, HalCall.transmit_dma [DS_ONE],
        HalCall.receive_dma 1, HalCall.transmit_dma [DS_ONE],
        HalCall.transmit_blocking
          (bit_symbol (choose_bit (bus_reads bus l.written).1 (bus_reads bus l.written).2
            (l.written.length + 1) g.last_discrepancy
            (rom_bit g.last_rom l.written.length) l.last_zero).1)] := by
  have hr0 : (ds_read_bit (bus.read_slot l.written false) g).2
      = if (bus_reads bus l.written).1 then 1 else 0 := by
    simp only [ds_read_bit, bus_reads]
    by_cases h : bus.read_slot l.written false = 0xFF <;> simp [h]
  have hr1 : (ds_read_bit (bus.read_slot l.written true)
      (ds_read_bit (bus.read_slot l.written false) g).1).2
      = if (bus_reads bus l.written).2 then 1 else 0 := by
    simp only [ds_read_bit, bus_reads]
    by_cases h : bus.read_slot l.written true = 0xFF <;> simp [h]
  have hcond : ¬ ((ds_read_bit (bus.read_slot l.written false) g).2 = 1 ∧
      (ds_read_bit (bus.read_slot l.written true)
        (ds_read_bit (bus.read_slot l.written false) g).1).2 = 1) := by
    rw [hr0, hr1]
    intro h
    apply hnot
    cases h0 : (bus_reads bus l.written).1 <;> cases h1 : (bus_reads bus l.written).2 <;>
      simp [h0, h1] at h ⊢
  have hspec := search_choice_spec (bus_reads bus l.written).1 (bus_reads bus l.written).2
    (ds_read_bit (bus.read_slot l.written true)
      (ds_read_bit (bus.read_slot l.written false) g).1).1 l hl
  rw [← hr0, ← hr1] at hspec
  have hc := congrArg Prod.fst hspec
  simp only [] at hc
  have hc' : choose_bit (bus_reads bus l.written).1 (bus_reads bus l.written).2
      (l.written.length + 1) g.last_discrepancy
      (rom_bit g.last_rom l.written.length) l.last_zero
      = choose_bit (bus_reads bus l.written).1 (bus_reads bus l.written).2
      (l.written.length + 1)
      (ds_read_bit (bus.read_slot l.written true)
        (ds_read_bit (bus.read_slot l.written false) g).1).1.last_discrepancy
      (rom_bit (ds_read_bit (bus.read_slot l.written true)
        (ds_read_bit (bus.read_slot l.written false) g).1).1.last_rom l.written.length)
      l.last_zero := rfl
  rw [hc', ← hc]
  unfold search_body
  simp only []
  rw [if_neg hcond]
  simp only [ds_write_bit, ds_read_bit, bit_symbol, List.append_assoc, List.cons_append,
    List.nil_append]
  congr 2
  simp only [List.cons.injEq, true_and, and_true, HalCall.transmit_blocking.injEq]
  split <;> simp_all

theorem choose_bit_policy (r0 r1 : Bool) (n ld z : Nat) (last : Bool)
    (hnot : ¬ (r0 = true ∧ r1 = true)) :
    (choose_bit r0 r1 n ld last z).1 =
      (if r0 ≠ r1 then r0
        else if ld < n then false
        else if n = ld then true
        else last) := by
  unfold choose_bit
  cases r0 <;> cases r1
  · simp only [and_self, if_true, ne_eq, not_true_eq_false, if_false]
    rcases Nat.lt_trichotomy n ld with h | h | h
    · rw [if_pos h, if_neg (by omega), if_neg (by omega)]
    · rw [if_neg (by omega), if_pos h, if_neg (by omega), if_pos h]
    · rw [if_neg (by omega), if_neg (by omega), if_pos h]
  · simp
  · simp
  · exact absurd ⟨rfl, rfl⟩ hnot

/-- C13: when a call of `DS18B20_SearchRom` reaches bit number `k + 1` (with
`k < 64`) and the two reads are not both 1, the iteration writes one bit to the
bus, stores it as bit `k % 8` of byte `k / 8` of `rom` and changes no other bit
of `rom`; that bit is the first read bit when the two reads differ, and when
both are 0 it is 0 if `k + 1 > last_discrepancy`, 1 if `k + 1 =
last_discrepancy`, and bit `k + 1` of `last_rom` if `k + 1 < last_discrepancy`,
with `last_discrepancy` and `last_rom` as the previous call left them. -/
theorem search_choice_policy (bus : Bus) (g gk : Driver) (lk : SearchLocals) (k : Nat)
    (hk : k < 64)
    (hsteps : search_steps bus k (search_entry bus g) SearchLocals.start = some (gk, lk))
    (hnot : ¬ (bus.read_slot lk.written false = 0xFF ∧ bus.read_slot lk.written true = 0xFF)) :
    ∃ g' l' c, search_body bus gk lk = (g', some l') ∧
      lk.bit_number = k + 1 ∧ lk.written.length = k ∧
      c = (if decide (bus.read_slot lk.written false = 0xFF)
              ≠ decide (bus.read_slot lk.written true = 0xFF)
            then decide (bus.read_slot lk.written false = 0xFF)
          else if g.last_discrepancy < k + 1 then false
          else if k + 1 = g.last_discrepancy then true
          else (g.last_rom.getD (k / 8) 0).testBit (k % 8)) ∧
      l'.written = lk.written ++ [c] ∧
      g'.trace = gk.trace ++ [HalCall.receive_dma 1, HalCall.transmit_dma [DS_ONE],
        HalCall.receive_dma 1, HalCall.transmit_dma [DS_ONE],
        HalCall.transmit_blocking (if c = true then DS_ONE else DS_ZERO)] ∧
      (l'.rom.getD (k / 8) 0).testBit (k % 8) = c ∧
      (∀ j, j ≠ k → rom_bit l'.rom j = rom_bit lk.rom j) := by
  have hstart : SearchLocals.start.written.length + k ≤ 64 := by
    show 0 + k ≤ 64
    omega
  obtain ⟨hlk, hlen, hd, hr, _⟩ :=
    search_steps_ok bus k _ gk _ lk locals_ok_start hstart hsteps
  have hlen' : lk.written.length = k := by
    rw [hlen]
    show 0 + k = k
    omega
  obtain ⟨he1, _, he3⟩ := search_entry_frame bus g
  have hboth : ¬ ((bus_reads bus lk.written).1 = true ∧ (bus_reads bus lk.written).2 = true) := by
    intro h
    apply hnot
    simpa [bus_reads] using h
  obtain ⟨g', l', hb, _, _, _, hl', hw, _⟩ := (search_body_spec bus gk lk hlk (by omega)).2 hboth
  have htr := search_body_trace bus gk lk hlk hboth
  rw [hb] at htr
  have hpol := choose_bit_policy (bus_reads bus lk.written).1 (bus_reads bus lk.written).2
    (lk.written.length + 1) gk.last_discrepancy lk.last_zero
    (rom_bit gk.last_rom lk.written.length) hboth
  rw [hlen', hd, hr, he1, he3] at hpol
  rw [hlen', hd, hr, he1, he3] at hw htr
  refine ⟨g', l', _, hb, ?_, hlen', hpol, hw, htr, ?_, ?_⟩
  · rw [hlk.2.1, hlen']
  · have := hl'.2.2.2.2.2.2 k
    unfold rom_bit at this
    rw [this, hw]
    have := getD_append_len lk.written
      (choose_bit (bus_reads bus lk.written).1 (bus_reads bus lk.written).2 (k + 1)
        g.last_discrepancy (rom_bit g.last_rom k) lk.last_zero).1
    rw [hlen'] at this
    exact this
  · intro j hj
    rw [hl'.2.2.2.2.2.2 j, hlk.2.2.2.2.2.2 j, hw, getD_append_one, if_neg (by omega)]

/-- Witness of C13: the first bit of a fresh search on the bus of
`two_devices`. -/
theorem search_choice_policy_witness :
    ∃ g' l' c, search_body (ideal_bus two_devices)
        (search_entry (ideal_bus two_devices) Driver.initial) SearchLocals.start
          = (g', some l') ∧
      SearchLocals.start.bit_number = 0 + 1 ∧ SearchLocals.start.written.length = 0 ∧
      c = (if decide ((ideal_bus two_devices).read_slot SearchLocals.start.written false = 0xFF)
              ≠ decide ((ideal_bus two_devices).read_slot SearchLocals.start.written true = 0xFF)
            then decide ((ideal_bus two_devices).read_slot SearchLocals.start.written false = 0xFF)
          else if Driver.initial.last_discrepancy < 0 + 1 then false
          else if 0 + 1 = Driver.initial.last_discrepancy then true
          else (Driver.initial.last_rom.getD (0 / 8) 0).testBit (0 % 8)) ∧
      l'.written = SearchLocals.start.written ++ [c] ∧
      g'.trace = (search_entry (ideal_bus two_devices) Driver.initial).trace ++
        [HalCall.receive_dma 1, HalCall.transmit_dma [DS_ONE],
         HalCall.receive_dma 1, HalCall.transmit_dma [DS_ONE],
         HalCall.transmit_blocking (if c = true then DS_ONE else DS_ZERO)] ∧
      (l'.rom.getD (0 / 8) 0).testBit (0 % 8) = c ∧
      (∀ j, j ≠ 0 → rom_bit l'.rom j = rom_bit SearchLocals.start.rom j) :=
  search_choice_policy (ideal_bus two_devices) Driver.initial
    (search_entry (ideal_bus two_devices) Driver.initial) SearchLocals.start 0 (by decide) rfl
    (by decide)

set_option maxRecDepth 100000 in
/-- C14, evaluated on the code: on the ideal bus of `three_devices` the first
call leaves `last_discrepancy = 10` with the first device in `last_rom`; the
second call returns 1 with the second device, and at bit number 9 of that call
both reads are 0 and the bit chosen is 0; yet the call ends with
`last_discrepancy = 0` and `last_device_flag = 1`, not with
`last_discrepancy = 9`. -/
theorem search_last_discrepancy_lost :
    (DS18B20_SearchRom (ideal_bus three_devices) Driver.initial
        (DS18B20_t.fresh [0, 0, 0, 0, 0, 0, 0, 0])).map
      (fun r => (r.1, r.2.1.last_discrepancy, r.2.1.last_device_flag, r.2.1.last_rom))
      = some (1, after_first_of_three.last_discrepancy, after_first_of_three.last_device_flag,
          after_first_of_three.last_rom) ∧
    (search_steps (ideal_bus three_devices) 8
        (search_entry (ideal_bus three_devices) after_first_of_three) SearchLocals.start).map
      (fun p => (p.2.bit_number, bus_reads (ideal_bus three_devices) p.2.written,
        (search_body (ideal_bus three_devices) p.1 p.2).2.map (fun l => l.written.getLast?)))
      = some (9, (false, false), some (some false)) ∧
    (DS18B20_SearchRom (ideal_bus three_devices) after_first_of_three
        (DS18B20_t.fresh [0, 0, 0, 0, 0, 0, 0, 0])).map
      (fun r => (r.1, r.2.1.last_discrepancy, r.2.1.last_device_flag, r.2.1.last_rom,
        r.2.2.address))
      = some (1, 0, 1, [0x28, 0x02, 0, 0, 0, 0, 0, 0], [0x28, 0x02, 0, 0, 0, 0, 0, 0]) := by
  refine ⟨by decide, by decide, by decide⟩

/-! ### The transitions of the state machine -/

/-- C16: for every device state and every input, one call of `DS18B20_Handle`
leaves the state unchanged, or moves it to its successor along `WaitAccess,
Reset, MatchRom, SendAddress, StartConversion, WaitConversion, Reset2,
MatchRom2, SendAddress2, Read, ReadLsb, ReadMsb, Calculate, Idle`, or moves it
from `DS_RESET` or `DS_RESET_2` to `DS_ERROR`; when a presence check is made (in
`DS_RESET` with the bus available and both flags set, in `DS_RESET_2` with the
bus available) the new state is `DS_ERROR` exactly when the check does not
report success; and a device in `DS_IDLE` or `DS_ERROR` keeps its state. -/
theorem handle_transitions (self tick : Nat) (echo : Option Nat) (g : Driver)
    (t : DS18B20_t) :
    ((DS18B20_Handle self tick echo g t).2.state = t.state ∨
        chain_next t.state = some (DS18B20_Handle self tick echo g t).2.state ∨
        ((DS18B20_Handle self tick echo g t).2.state = DS_ERROR ∧
          (t.state = DS_RESET ∨ t.state = DS_RESET_2) ∧ ds_reset_result echo ≠ 1)) ∧
      (t.state = DS_RESET → (g.ds_bus_owner = none ∨ g.ds_bus_owner = some self) →
        g.ds_tx_done ≠ 0 → g.ds_rx_done ≠ 0 →
        ((DS18B20_Handle self tick echo g t).2.state = DS_ERROR ↔ ds_reset_result echo ≠ 1) ∧
        ((DS18B20_Handle self tick echo g t).2.state = DS_MATCH_ROM ↔
          ds_reset_result echo = 1)) ∧
      (t.state = DS_RESET_2 → (g.ds_bus_owner = none ∨ g.ds_bus_owner = some self) →
        ((DS18B20_Handle self tick echo g t).2.state = DS_ERROR ↔ ds_reset_result echo ≠ 1) ∧
        ((DS18B20_Handle self tick echo g t).2.state = DS_MATCH_ROM_2 ↔
          ds_reset_result echo = 1)) ∧
      (t.state = DS_IDLE ∨ t.state = DS_ERROR →
        (DS18B20_Handle self tick echo g t).2.state = t.state) := by
  have hp := to_uint8_reset echo
  unfold DS18B20_Handle
  simp only [ds_reset]
  by_cases hg : g.ds_bus_owner ≠ none ∧ g.ds_bus_owner ≠ some self
  · rw [if_pos hg]
    refine ⟨Or.inl rfl, ?_, ?_, fun _ => rfl⟩
    · intro _ hown
      rcases hown with h | h
      · exact absurd h hg.1
      · exact absurd h hg.2
    · intro _ hown
      rcases hown with h | h
      · exact absurd h hg.1
      · exact absurd h hg.2
  · rw [if_neg hg]
    by_cases hpres : to_uint8 (ds_reset_result echo) = 1
    · have hres := hp.mp hpres
      cases hst : t.state <;> simp only [hst] <;> (try split_ifs) <;>
        simp_all [chain_next] <;> tauto
    · have hres : ds_reset_result echo ≠ 1 := fun h => hpres (hp.mpr h)
      cases hst : t.state <;> simp only [hst] <;> (try split_ifs) <;>
        simp_all [chain_next] <;> tauto

/-! ### The completion flags and the bus owner in `DS18B20_Handle` -/

/-- In every state other than `DS_WAIT_ACCESS` and `DS_RESET_2`, a call made
while a completion flag is unset changes nothing. -/
theorem handle_waits (self tick : Nat) (echo : Option Nat) (g : Driver) (t : DS18B20_t)
    (hf : g.ds_tx_done = 0 ∨ g.ds_rx_done = 0) (h1 : t.state ≠ DS_WAIT_ACCESS)
    (h2 : t.state ≠ DS_RESET_2) : DS18B20_Handle self tick echo g t = (g, t) := by
  unfold DS18B20_Handle
  by_cases hg : g.ds_bus_owner ≠ none ∧ g.ds_bus_owner ≠ some self
  · rw [if_pos hg]
  · rw [if_neg hg]
    cases hst : t.state <;> simp only [hst] <;> first
      | rfl
      | exact absurd hst h1
      | exact absurd hst h2
      | rw [if_pos hf]

set_option maxRecDepth 100000 in
/-- C15 (defect of the code): `DS_RESET_2` is entered by device 0 and then
polled while the byte `0x44` of device 1 is still being transmitted
(`ds_tx_done = 0`, bus unowned): the call does not return without progressing,
it sends a reset pulse and moves device 0 to `DS_MATCH_ROM_2`, storing a new
`presence`. -/
theorem reset2_ignores_flags :
    (two_idle.run reset2_in_flight).g.ds_tx_done = 0 ∧
      (two_idle.run reset2_in_flight).g.ds_bus_owner = none ∧
      (two_idle.run reset2_in_flight).state_of 0 = some DS_RESET_2 ∧
      (two_idle.run reset2_in_flight).state_of 1 = some DS_WAIT_CONVERSION ∧
      (two_idle.run reset2_in_flight).issued (Event.poll 0 1000 (some 0xE0)) =
        [(0, HalCall.reset_pulse)] ∧
      ((two_idle.run reset2_in_flight).step (Event.poll 0 1000 (some 0xE0))).state_of 0 =
        some DS_MATCH_ROM_2 ∧
      ((two_idle.run reset2_in_flight).step (Event.poll 0 1000 (some 0xE0))).g.ds_tx_done = 0 := by
  decide

set_option maxRecDepth 100000 in
/-- C19 (the claim as stated fails): device 0 is in `DS_WAIT_CONVERSION` and
owns the bus, because `DS18B20_SetPrecision` was called on it meanwhile and
returned 0 at its first presence check; a Poll made 10 ticks after the
conversion started changes the bus owner from device 0 to none although the
state stays `DS_WAIT_CONVERSION`, which is none of the listed transitions. -/
theorem wait_poll_releases_bus :
    precision_while_waiting.1 = 0 ∧
      precision_while_waiting.2.1.ds_bus_owner = some 0 ∧
      precision_while_waiting.2.2.state = DS_WAIT_CONVERSION ∧
      (DS18B20_Handle 0 10 none precision_while_waiting.2.1
        precision_while_waiting.2.2).1.ds_bus_owner = none ∧
      (DS18B20_Handle 0 10 none precision_while_waiting.2.1
        precision_while_waiting.2.2).2.state = DS_WAIT_CONVERSION := by
  decide

/-- C19 (amended): a call of `DS18B20_Handle` on the device that owns the bus
leaves the bus unowned exactly in these cases: the transition `DS_CONVERT_T`
to `DS_WAIT_CONVERSION`, the transition `DS_CALC` to `DS_IDLE`, a transition
from `DS_RESET` or `DS_RESET_2` to `DS_ERROR`, and a call in
`DS_WAIT_CONVERSION` with both flags set before 750 ticks have elapsed (the
state then stays).  Whoever owned the bus before, it is unowned after each of
the three kinds of transition, and the transition `DS_CONVERT_T` to
`DS_WAIT_CONVERSION` stores the current tick in `last_conv`. -/
theorem handle_release_cases (self tick : Nat) (echo : Option Nat) (g : Driver)
    (t : DS18B20_t) (hown : g.ds_bus_owner = some self) :
    ((DS18B20_Handle self tick echo g t).1.ds_bus_owner = none ↔
        ((t.state = DS_CONVERT_T ∧
            (DS18B20_Handle self tick echo g t).2.state = DS_WAIT_CONVERSION) ∨
          (t.state = DS_CALC ∧ (DS18B20_Handle self tick echo g t).2.state = DS_IDLE) ∨
          ((t.state = DS_RESET ∨ t.state = DS_RESET_2) ∧
            (DS18B20_Handle self tick echo g t).2.state = DS_ERROR) ∨
          (t.state = DS_WAIT_CONVERSION ∧ g.ds_tx_done ≠ 0 ∧ g.ds_rx_done ≠ 0 ∧
            u32_sub (tick % 2 ^ 32) t.last_conv < 750 ∧
            (DS18B20_Handle self tick echo g t).2.state = DS_WAIT_CONVERSION))) ∧
      (∀ (g0 : Driver),
        ((t.state = DS_CONVERT_T ∧
            (DS18B20_Handle self tick echo g0 t).2.state = DS_WAIT_CONVERSION) ∨
          (t.state = DS_CALC ∧ (DS18B20_Handle self tick echo g0 t).2.state = DS_IDLE) ∨
          ((t.state = DS_RESET ∨ t.state = DS_RESET_2) ∧
            (DS18B20_Handle self tick echo g0 t).2.state = DS_ERROR)) →
        (DS18B20_Handle self tick echo g0 t).1.ds_bus_owner = none) ∧
      (t.state = DS_CONVERT_T →
        (DS18B20_Handle self tick echo g t).2.state = DS_WAIT_CONVERSION →
        (DS18B20_Handle self tick echo g t).2.last_conv = tick % 2 ^ 32) := by
  refine ⟨?_, ?_, ?_⟩
  · unfold DS18B20_Handle
    have hg : ¬ (g.ds_bus_owner ≠ none ∧ g.ds_bus_owner ≠ some self) := fun h => h.2 hown
    rw [if_neg hg]
    cases hst : t.state <;> simp only [hst] <;> (try split_ifs) <;>
      simp_all [ds_reset, ds_write, ds_write_address, ds_read] <;> tauto
  · intro g0
    unfold DS18B20_Handle
    by_cases hg : g0.ds_bus_owner ≠ none ∧ g0.ds_bus_owner ≠ some self
    · rw [if_pos hg]
      rintro (⟨h1, h2⟩ | ⟨h1, h2⟩ | ⟨h1 | h1, h2⟩) <;> rw [h1] at h2 <;> cases h2
    · rw [if_neg hg]
      cases hst : t.state <;> simp only [hst] <;> (try split_ifs) <;>
        simp_all [ds_reset, ds_write, ds_write_address, ds_read]
  · unfold DS18B20_Handle
    have hg : ¬ (g.ds_bus_owner ≠ none ∧ g.ds_bus_owner ≠ some self) := fun h => h.2 hown
    rw [if_neg hg]
    intro hst
    simp only [hst]
    split_ifs <;> simp_all

set_option maxRecDepth 100000 in
/-- C19 (amended), at a device that owns the bus in `DS_CONVERT_T` with both
flags set. -/
theorem handle_release_cases_witness :
    ({ Driver.initial with ds_bus_owner := some 0 } : Driver).ds_bus_owner = some 0 ∧
      (DS18B20_Handle 0 5 none { Driver.initial with ds_bus_owner := some 0 }
        { DS18B20_t.fresh [0x28, 1, 2, 3, 4, 5, 6, 7] with state := DS_CONVERT_T }).1.ds_bus_owner
        = none ∧
      (DS18B20_Handle 0 5 none { Driver.initial with ds_bus_owner := some 0 }
        { DS18B20_t.fresh [0x28, 1, 2, 3, 4, 5, 6, 7] with state := DS_CONVERT_T }).2.last_conv
        = 5 :=
  ⟨rfl,
    ((handle_release_cases 0 5 none { Driver.initial with ds_bus_owner := some 0 }
      { DS18B20_t.fresh [0x28, 1, 2, 3, 4, 5, 6, 7] with state := DS_CONVERT_T } rfl).1.mpr
      (Or.inl ⟨rfl, by decide⟩)),
    ((handle_release_cases 0 5 none { Driver.initial with ds_bus_owner := some 0 }
      { DS18B20_t.fresh [0x28, 1, 2, 3, 4, 5, 6, 7] with state := DS_CONVERT_T } rfl).2.2 rfl
      (by decide))⟩

/-! ### The bus operations of a measurement cycle -/

theorem ds_read_length (g : Driver) : (ds_read g).ds_tx_buf.length = g.ds_tx_buf.length :=
  fold_set_length (fun i => i) (fun _ => DS_ONE) (List.range 8) g.ds_tx_buf

theorem ds_read_take (g : Driver) (hlen : 8 ≤ g.ds_tx_buf.length) :
    (ds_read g).ds_tx_buf.take 8 = List.replicate 8 DS_ONE := by
  have hbuf : (ds_read g).ds_tx_buf
      = (List.range 8).foldl (fun a i => a.set (0 + i) ((fun _ => DS_ONE) i)) g.ds_tx_buf := by
    show (List.range 8).foldl (fun b i => b.set i DS_ONE) g.ds_tx_buf = _
    congr 1
    funext b i
    rw [Nat.zero_add]
  apply List.ext_getElem?
  intro j
  rw [List.getElem?_take, hbuf, fold_set_off]
  by_cases hj : j < 8
  · rw [if_pos hj, if_pos ⟨by omega, by omega, by omega⟩, List.getElem?_replicate, if_pos hj]
  · rw [if_neg hj, List.getElem?_replicate, if_neg hj]

theorem ds_read_trace (g : Driver) (hlen : 8 ≤ g.ds_tx_buf.length) :
    (ds_read g).trace
      = g.trace ++ [HalCall.receive_dma 8, HalCall.transmit_dma (List.replicate 8 DS_ONE)] := by
  have h : (ds_read g).trace
      = g.trace ++ [HalCall.receive_dma 8, HalCall.transmit_dma ((ds_read g).ds_tx_buf.take 8)] :=
    rfl
  rw [h, ds_read_take g hlen]

theorem ds_write_owner (v : Nat) (g : Driver) :
    (ds_write v g).ds_bus_owner = g.ds_bus_owner := rfl

theorem ds_write_address_owner (data : List Nat) (len : Nat) (g : Driver) :
    (ds_write_address data len g).ds_bus_owner = g.ds_bus_owner := rfl

theorem ds_read_owner (g : Driver) : (ds_read g).ds_bus_owner = g.ds_bus_owner := rfl

theorem to_uint8_one : to_uint8 1 = 1 := by decide

/-- A Poll of the device whose presence check succeeds keeps `cycle_inv`. -/
theorem cycle_inv_poll (tr0 : List HalCall) (a : List Nat) (tick : Nat) (echo : Option Nat)
    (g : Driver) (t : DS18B20_t) (hecho : ds_reset_result echo = 1)
    (h : cycle_inv tr0 a g t) :
    cycle_inv tr0 a (DS18B20_Handle 0 tick echo g t).1 (DS18B20_Handle 0 tick echo g t).2 := by
  obtain ⟨haddr, hne, hown, hlen, htr⟩ := h
  have h8 : 8 ≤ g.ds_tx_buf.length := by omega
  have h64 : 64 ≤ g.ds_tx_buf.length := by omega
  have hg : ¬ (g.ds_bus_owner ≠ none ∧ g.ds_bus_owner ≠ some 0) := by
    rintro ⟨h1, h2⟩
    rcases hown with h | h
    · exact h1 h
    · exact h2 h
  unfold cycle_inv DS18B20_Handle
  rw [if_neg hg]
  simp only [ds_reset, hecho, to_uint8_one]
  cases hst : t.state <;> simp only [hst] at htr hne ⊢ <;> (try split_ifs) <;>
    simp_all [ops_before, cycle_ops, ds_write_trace, ds_write_address_trace, ds_read_trace,
      ds_write_length, ds_write_address_length, ds_read_length, ds_write_owner,
      ds_write_address_owner, ds_read_owner, CMD_MATCH_ROM, CMD_CONVERT, CMD_READ]

/-- Every event of a cycle keeps `cycle_inv` in a system of one device. -/
theorem cycle_inv_step (tr0 : List HalCall) (a : List Nat) (g : Driver) (t : DS18B20_t)
    (e : Event) (he : cycle_event e = true) (h : cycle_inv tr0 a g t) :
    ∃ t1, ((System.mk g [t]).step e).devs = [t1] ∧
      cycle_inv tr0 a ((System.mk g [t]).step e).g t1 := by
  cases e with
  | measure i => simp [cycle_event] at he
  | poll i tick echo =>
    have hecho : ds_reset_result echo = 1 := by simpa [cycle_event] using he
    cases i with
    | zero => exact ⟨_, rfl, cycle_inv_poll tr0 a tick echo g t hecho h⟩
    | succ i => exact ⟨t, rfl, h⟩
  | rx_complete data => exact ⟨t, rfl, h⟩
  | tx_complete => exact ⟨t, rfl, h⟩

theorem cycle_inv_run (tr0 : List HalCall) (a : List Nat) (evs : List Event) :
    ∀ (g : Driver) (t : DS18B20_t), (∀ e ∈ evs, cycle_event e = true) → cycle_inv tr0 a g t →
      ∃ t1, ((System.mk g [t]).run evs).devs = [t1] ∧
        cycle_inv tr0 a ((System.mk g [t]).run evs).g t1 := by
  induction evs with
  | nil => intro g t _ h; exact ⟨t, rfl, h⟩
  | cons e evs ih =>
    intro g t hev h
    obtain ⟨t1, hd, h1⟩ :=
      cycle_inv_step tr0 a g t e (hev e (List.mem_cons_self _ _)) h
    have hs : (System.mk g [t]).step e = System.mk ((System.mk g [t]).step e).g [t1] := by
      rw [← hd]
    have hrun : (System.mk g [t]).run (e :: evs)
        = (System.mk ((System.mk g [t]).step e).g [t1]).run evs := by
      rw [← hs]
      rfl
    rw [hrun]
    exact ih _ t1 (fun e1 h1 => hev e1 (List.mem_cons_of_mem _ h1)) h1

/-- A Poll with the bus available, both flags set, a successful presence check
and, in `DS_WAIT_CONVERSION`, 750 ticks elapsed moves the device to the next
state of its cycle; it stores the decoded receive buffer in `lsb` when leaving
`DS_READ_MSB` and in `msb` when leaving `DS_CALC`. -/
theorem handle_progress (tick : Nat) (echo : Option Nat) (g : Driver) (t : DS18B20_t)
    (hown : g.ds_bus_owner = none ∨ g.ds_bus_owner = some 0)
    (htx : g.ds_tx_done ≠ 0) (hrx : g.ds_rx_done ≠ 0) (hecho : ds_reset_result echo = 1)
    (hwait : t.state = DS_WAIT_CONVERSION → 750 ≤ u32_sub (tick % 2 ^ 32) t.last_conv) :
    (t.state ≠ DS_IDLE → t.state ≠ DS_ERROR →
        chain_next t.state = some (DS18B20_Handle 0 tick echo g t).2.state) ∧
      (t.state = DS_READ_MSB → (DS18B20_Handle 0 tick echo g t).2.lsb = ds_convert g) ∧
      (t.state = DS_CALC → (DS18B20_Handle 0 tick echo g t).2.msb = ds_convert g ∧
        (DS18B20_Handle 0 tick echo g t).2.lsb = t.lsb) := by
  have hg : ¬ (g.ds_bus_owner ≠ none ∧ g.ds_bus_owner ≠ some 0) := by
    rintro ⟨h1, h2⟩
    rcases hown with h | h
    · exact h1 h
    · exact h2 h
  have hf : ¬ (g.ds_tx_done = 0 ∨ g.ds_rx_done = 0) := by
    rintro (h | h)
    · exact htx h
    · exact hrx h
  unfold DS18B20_Handle
  rw [if_neg hg]
  simp only [ds_reset, hecho, to_uint8_one, if_neg hf]
  cases hst : t.state <;> simp only [hst] at hwait ⊢ <;> (try split_ifs) <;>
    simp_all [chain_next] <;> omega

/-- C18: let a device in `DS_IDLE` with address `a` be the only device context,
on an unowned bus; after `DS18B20_Measure` and any sequence of Poll calls whose
presence checks succeed and of transfer completions, the HAL calls issued so
far are the first `ops_before state` calls of `cycle_ops a` (reset, `0x55`, the
64 address symbols, `0x44`, reset, `0x55`, the address symbols, `0xBE`, two
reads of eight slots), the device is not in `DS_ERROR`, and once it is back in
`DS_IDLE` exactly the calls of `cycle_ops a` have been issued.  Every Poll made
with the bus available, both flags set, a successful presence check and, in
`DS_WAIT_CONVERSION`, 750 ticks elapsed moves the device one state further
along the cycle, which ends in `DS_IDLE`; the Poll that leaves `DS_READ_MSB`
stores the decoded receive buffer in `lsb`, the one that leaves `DS_CALC` stores
it in `msb` and keeps `lsb`. -/
theorem measurement_cycle_transfers (g : Driver) (t : DS18B20_t) (evs : List Event)
    (hidle : t.state = DS_IDLE) (hbuf : g.ds_tx_buf.length = 64)
    (hown : g.ds_bus_owner = none) (hevs : ∀ e ∈ evs, cycle_event e = true) :
    (∃ t1, ((System.mk g [t]).run (Event.measure 0 :: evs)).devs = [t1] ∧
        t1.address = t.address ∧ t1.state ≠ DS_ERROR ∧
        (((System.mk g [t]).run (Event.measure 0 :: evs)).g.ds_bus_owner = none ∨
          ((System.mk g [t]).run (Event.measure 0 :: evs)).g.ds_bus_owner = some 0) ∧
        ((System.mk g [t]).run (Event.measure 0 :: evs)).g.trace
          = g.trace ++ (cycle_ops t.address).take (ops_before t1.state) ∧
        (t1.state = DS_IDLE →
          ((System.mk g [t]).run (Event.measure 0 :: evs)).g.trace
            = g.trace ++ cycle_ops t.address)) ∧
      (∀ (tick : Nat) (echo : Option Nat) (g1 : Driver) (t1 : DS18B20_t),
        (g1.ds_bus_owner = none ∨ g1.ds_bus_owner = some 0) →
        g1.ds_tx_done ≠ 0 → g1.ds_rx_done ≠ 0 → ds_reset_result echo = 1 →
        (t1.state = DS_WAIT_CONVERSION → 750 ≤ u32_sub (tick % 2 ^ 32) t1.last_conv) →
        (t1.state ≠ DS_IDLE → t1.state ≠ DS_ERROR →
          chain_next t1.state = some (DS18B20_Handle 0 tick echo g1 t1).2.state) ∧
        (t1.state = DS_READ_MSB → (DS18B20_Handle 0 tick echo g1 t1).2.lsb = ds_convert g1) ∧
        (t1.state = DS_CALC → (DS18B20_Handle 0 tick echo g1 t1).2.msb = ds_convert g1 ∧
          (DS18B20_Handle 0 tick echo g1 t1).2.lsb = t1.lsb)) := by
  refine ⟨?_, fun tick echo g1 t1 h1 h2 h3 h4 h5 => handle_progress tick echo g1 t1 h1 h2 h3 h4 h5⟩
  have hstart : (System.mk g [t]).run (Event.measure 0 :: evs)
      = (System.mk g [{ t with state := DS_WAIT_ACCESS }]).run evs := by
    show ((System.mk g [t]).step (Event.measure 0)).run evs = _
    simp [System.step, DS18B20_Measure, hidle]
  have h0 : cycle_inv g.trace t.address g { t with state := DS_WAIT_ACCESS } :=
    ⟨rfl, by simp, Or.inl hown, hbuf, by simp [ops_before]⟩
  obtain ⟨t1, hd, haddr, hne, ho, _, htr⟩ := cycle_inv_run g.trace t.address evs g _ hevs h0
  rw [hstart]
  refine ⟨t1, hd, haddr, hne, ho, htr, ?_⟩
  intro hi
  rw [htr, hi]
  rfl

set_option maxRecDepth 100000 in
/-- C18 at one complete cycle of a single device: the run ends in `DS_IDLE`
with exactly the twelve calls of `cycle_ops` issued and the two decoded bytes
stored. -/
theorem measurement_cycle_transfers_witness :
    ((System.mk Driver.initial [DS18B20_t.fresh [0x28, 1, 2, 3, 4, 5, 6, 7]]).run
        (Event.measure 0 :: full_cycle)).devs.map (fun t => (t.state, t.lsb, t.msb))
      = [(DS_IDLE, 0x91, 0x01)] ∧
    ((System.mk Driver.initial [DS18B20_t.fresh [0x28, 1, 2, 3, 4, 5, 6, 7]]).run
        (Event.measure 0 :: full_cycle)).g.trace
      = cycle_ops [0x28, 1, 2, 3, 4, 5, 6, 7] ∧
    ∃ t1, ((System.mk Driver.initial [DS18B20_t.fresh [0x28, 1, 2, 3, 4, 5, 6, 7]]).run
        (Event.measure 0 :: full_cycle)).devs = [t1] ∧
      t1.address = [0x28, 1, 2, 3, 4, 5, 6, 7] ∧ t1.state ≠ DS_ERROR ∧
      (((System.mk Driver.initial [DS18B20_t.fresh [0x28, 1, 2, 3, 4, 5, 6, 7]]).run
          (Event.measure 0 :: full_cycle)).g.ds_bus_owner = none ∨
        ((System.mk Driver.initial [DS18B20_t.fresh [0x28, 1, 2, 3, 4, 5, 6, 7]]).run
          (Event.measure 0 :: full_cycle)).g.ds_bus_owner = some 0) ∧
      ((System.mk Driver.initial [DS18B20_t.fresh [0x28, 1, 2, 3, 4, 5, 6, 7]]).run
          (Event.measure 0 :: full_cycle)).g.trace
        = Driver.initial.trace ++
          (cycle_ops [0x28, 1, 2, 3, 4, 5, 6, 7]).take (ops_before t1.state) ∧
      (t1.state = DS_IDLE →
        ((System.mk Driver.initial [DS18B20_t.fresh [0x28, 1, 2, 3, 4, 5, 6, 7]]).run
            (Event.measure 0 :: full_cycle)).g.trace
          = Driver.initial.trace ++ cycle_ops [0x28, 1, 2, 3, 4, 5, 6, 7]) :=
  ⟨by decide, by decide,
    (measurement_cycle_transfers Driver.initial (DS18B20_t.fresh [0x28, 1, 2, 3, 4, 5, 6, 7])
      full_cycle rfl (by decide) rfl (by decide)).1⟩

/-! ### Consecutive identities of the search -/

theorem pass_inv_any_same (devs : List (List Nat)) (d : Nat) (w : List Bool) (z : Nat)
    (c : Bool) (hinv : pass_inv_any devs d w z)
    (h1 : ∃ id ∈ devs, responds id w = true ∧ rom_bit id w.length = c) :
    pass_inv_any devs d (w ++ [c]) z := by
  obtain ⟨_, I4⟩ := hinv
  obtain ⟨id, hid, hr, hb⟩ := h1
  have hlen : (w ++ [c]).length = w.length + 1 := by simp
  refine ⟨⟨id, hid, (responds_append id w c).mpr ⟨hr, hb⟩⟩, ?_⟩
  rcases I4 with hz | ⟨hz1, hz2, hz3, other, ho, ho1, ho2⟩
  · exact Or.inl hz
  · refine Or.inr ⟨hz1, by rw [hlen]; omega, ?_, other, ho, ?_, ho2⟩
    · rw [getD_append_lt w c (z - 1) (by omega)]
      exact hz3
    · intro j hj
      rw [getD_append_lt w c j (by omega)]
      exact ho1 j hj

theorem pass_inv_any_new (devs : List (List Nat)) (d : Nat) (w : List Bool)
    (hd : d < w.length + 1)
    (h1 : ∃ id ∈ devs, responds id w = true ∧ rom_bit id w.length = false)
    (h4 : ∃ id ∈ devs, responds id w = true ∧ rom_bit id w.length = true) :
    pass_inv_any devs d (w ++ [false]) (w.length + 1) := by
  obtain ⟨id, hid, hr, hb⟩ := h1
  obtain ⟨other, ho, hor, hob⟩ := h4
  have hlen : (w ++ [false]).length = w.length + 1 := by simp
  refine ⟨⟨id, hid, (responds_append id w false).mpr ⟨hr, hb⟩⟩, ?_⟩
  refine Or.inr ⟨hd, by rw [hlen], ?_, other, ho, ?_, ?_⟩
  · have : w.length + 1 - 1 = w.length := by omega
    rw [this, getD_append_len]
  · intro j hj
    rw [getD_append_lt w false j (by omega)]
    exact (responds_iff other w).mp hor j (by omega)
  · have : w.length + 1 - 1 = w.length := by omega
    rw [this]
    exact hob

/-- On the ideal bus one iteration never reads two ones and keeps
`pass_inv_any`, whatever `last_discrepancy = d` and `last_rom = last` are. -/
theorem pass_inv_any_step (devs : List (List Nat)) (d : Nat) (last : List Nat) (w : List Bool)
    (z : Nat) (hinv : pass_inv_any devs d w z) :
    ¬ ((bus_reads (ideal_bus devs) w).1 = true ∧ (bus_reads (ideal_bus devs) w).2 = true) ∧
      pass_inv_any devs d
        (w ++ [(choose_bit (bus_reads (ideal_bus devs) w).1 (bus_reads (ideal_bus devs) w).2
          (w.length + 1) d (rom_bit last w.length) z).1])
        (choose_bit (bus_reads (ideal_bus devs) w).1 (bus_reads (ideal_bus devs) w).2
          (w.length + 1) d (rom_bit last w.length) z).2 := by
  have hinv' := hinv
  obtain ⟨⟨id0, hid0, hresp0⟩, _⟩ := hinv'
  cases h0 : (bus_reads (ideal_bus devs) w).1 with
  | true =>
    have F0 := (ideal_reads_fst devs w).mp h0
    constructor
    · rintro ⟨_, h1⟩
      have F1 := (ideal_reads_snd devs w).mp h1
      have a := F0 id0 hid0 hresp0
      rw [F1 id0 hid0 hresp0] at a
      exact Bool.false_ne_true a
    · rw [choose_t]
      exact pass_inv_any_same devs d w z true hinv ⟨id0, hid0, hresp0, F0 id0 hid0 hresp0⟩
  | false =>
    have ⟨idA, hA, hAr, hAb⟩ := ideal_reads_fst_false devs w h0
    constructor
    · rintro ⟨h, _⟩
      exact Bool.false_ne_true h
    · cases h1 : (bus_reads (ideal_bus devs) w).2 with
      | true =>
        rw [choose_ft]
        exact pass_inv_any_same devs d w z false hinv ⟨idA, hA, hAr, hAb⟩
      | false =>
        have ⟨idB, hB, hBr, hBb⟩ := ideal_reads_snd_false devs w h1
        rcases Nat.lt_trichotomy (w.length + 1) d with hk | hk | hk
        · rw [choose_ff_lt _ _ _ _ hk]
          cases hc : rom_bit last w.length with
          | true => exact pass_inv_any_same devs d w z true hinv ⟨idB, hB, hBr, hBb⟩
          | false => exact pass_inv_any_same devs d w z false hinv ⟨idA, hA, hAr, hAb⟩
        · rw [choose_ff_eq _ _ _ _ hk]
          exact pass_inv_any_same devs d w z true hinv ⟨idB, hB, hBr, hBb⟩
        · rw [choose_ff_gt _ _ _ _ hk]
          exact pass_inv_any_new devs d w hk ⟨idA, hA, hAr, hAb⟩ ⟨idB, hB, hBr, hBb⟩

theorem bit_loop_any (devs : List (List Nat)) (d : Nat) (last : List Nat) :
    ∀ (n : Nat) (w : List Bool) (z : Nat), pass_inv_any devs d w z →
      ∃ w' z', bit_loop (ideal_bus devs) d last n w z = some (w', z') ∧
        pass_inv_any devs d w' z' ∧ w'.length = w.length + n := by
  intro n
  induction n with
  | zero =>
    intro w z hinv
    exact ⟨w, z, rfl, hinv, rfl⟩
  | succ n ih =>
    intro w z hinv
    obtain ⟨hnot, hnext⟩ := pass_inv_any_step devs d last w z hinv
    obtain ⟨w', z', hloop, hinv', hlen⟩ := ih _ _ hnext
    refine ⟨w', z', ?_, hinv', ?_⟩
    · rw [bit_loop, if_neg hnot]
      exact hloop
    · rw [hlen]
      simp
      omega

/-- On the ideal bus with at least one device, a call made with
`last_device_flag = 0` returns 1 with the identity of a device, whatever
`last_discrepancy` and `last_rom` hold; afterwards the search state is as
`search_inv` says. -/
theorem search_call_any (devs : List (List Nat)) (hne : devs ≠ [])
    (hvalid : ∀ id ∈ devs, valid_rom id) (g : Driver) (t : DS18B20_t)
    (hlr : g.last_rom.length = 8) (hta : t.address.length = 8)
    (hflag : g.last_device_flag = 0) :
    ∃ g' t', DS18B20_SearchRom (ideal_bus devs) g t = some (1, g', t') ∧
      t'.address ∈ devs ∧ g'.last_rom = t'.address ∧ t'.address.length = 8 ∧
      search_inv devs g' ∧
      (g'.last_device_flag ≠ 0 ↔ g'.last_discrepancy = 0) := by
  have hspec := search_rom_spec (ideal_bus devs) g t hlr hta hflag (ideal_reset_ok devs hne)
  obtain ⟨id0, hid0⟩ := List.exists_mem_of_ne_nil devs hne
  have hstart : pass_inv_any devs g.last_discrepancy [] 0 :=
    ⟨⟨id0, hid0, responds_nil id0⟩, Or.inl rfl⟩
  obtain ⟨w, z, hloop, hpass, hlen⟩ :=
    bit_loop_any devs g.last_discrepancy g.last_rom 64 [] 0 hstart
  rw [hloop] at hspec
  obtain ⟨g', t', hres, hd', hf', hrom', hval', hbits', hlen', _⟩ := hspec
  simp only [] at hd' hf' hbits' hlen'
  obtain ⟨⟨id, hid, hresp⟩, I4⟩ := hpass
  have hsame : ∀ x ∈ devs, responds x w = true → x = t'.address := by
    intro x hx hr
    apply rom_ext x t'.address (hvalid x hx) hval'
    intro j hj
    rw [hbits' j]
    exact (responds_iff x w).mp hr j (by omega)
  have hmem : t'.address ∈ devs := by
    rw [← hsame id hid hresp]; exact hid
  refine ⟨g', t', hres, hmem, hrom', hval'.1, ⟨?_, ?_⟩, ?_⟩
  · rw [hrom']; exact hval'.1
  · intro _
    by_cases hz : g'.last_discrepancy = 0
    · exact Or.inl hz
    · right
      rw [hrom']
      refine ⟨hmem, ?_⟩
      rw [hd'] at hz ⊢
      rcases I4 with h | ⟨_, _, hz3, other, ho, ho1, ho2⟩
      · exact absurd h hz
      · refine ⟨other, ho, ?_, ?_, ho2⟩
        · intro j hj
          rw [hbits' j, ho1 j hj]
        · rw [hbits' (z - 1)]
          exact hz3
  · rw [hf', hd']
    by_cases hz : z = 0
    · simp [hz]
    · simp [hz]

/-- On the ideal bus, a call made from a search state with `last_discrepancy =
d ≥ 1` returns an identity that agrees with `last_rom` below bit `d - 1` and
has 1 there, where `last_rom` has 0. -/
theorem search_call_lex_at (devs : List (List Nat)) (hne : devs ≠ [])
    (hvalid : ∀ id ∈ devs, valid_rom id) (g : Driver) (t : DS18B20_t)
    (hinv : search_inv devs g) (hta : t.address.length = 8)
    (hflag : g.last_device_flag = 0) (hd : 1 ≤ g.last_discrepancy) :
    ∃ g' t', DS18B20_SearchRom (ideal_bus devs) g t = some (1, g', t') ∧
      lex_at (g.last_discrepancy - 1) g.last_rom t'.address := by
  have hpre : search_pre devs g.last_discrepancy g.last_rom := hinv.2 hflag
  have hspec := search_rom_spec (ideal_bus devs) g t hinv.1 hta hflag (ideal_reset_ok devs hne)
  obtain ⟨w, z, hloop, hpass, hlen⟩ := bit_loop_ideal devs g.last_discrepancy g.last_rom hpre
    64 [] 0 (pass_inv_start devs _ _ hne)
  rw [hloop] at hspec
  obtain ⟨g', t', hres, _, _, _, _, hbits', hlen', _⟩ := hspec
  simp only [] at hbits' hlen'
  obtain ⟨_, I2, I3, _, _⟩ := hpass
  refine ⟨g', t', hres, ?_⟩
  rcases hpre with h | ⟨_, other, ho, _, ho2, ho3⟩
  · omega
  · have hlt : g.last_discrepancy - 1 < 64 := rom_bit_true_lt other _ (hvalid other ho) ho3
    refine ⟨?_, ho2, ?_⟩
    · intro j hj
      rw [hbits' j]
      exact (I2 j (by omega) (by omega)).symm
    · rw [hbits' _]
      exact I3 hd (by omega)

theorem filter_successes (ids : List (List Nat)) (fails : List (Nat × List Nat))
    (hfails : ∀ r ∈ fails, r.1 = 0) :
    ((ids.map (fun x => ((1 : Nat), x)) ++ fails).filter (fun r => decide (r.1 = 1))).map
      (fun r => r.2) = ids := by
  rw [List.filter_append]
  have h1 : (ids.map (fun x => ((1 : Nat), x))).filter (fun r => decide (r.1 = 1))
      = ids.map (fun x => ((1 : Nat), x)) := by
    apply List.filter_eq_self.mpr
    intro r hr
    obtain ⟨x, _, hx⟩ := List.mem_map.mp hr
    rw [← hx]
    simp
  have h2 : fails.filter (fun r => decide (r.1 = 1)) = [] := by
    apply List.filter_eq_nil_iff.mpr
    intro r hr
    rw [hfails r hr]
    simp
  rw [h1, h2, List.append_nil, List.map_map]
  simp

theorem lex_pairwise_nodup (ids : List (List Nat)) (h : ids.Pairwise lex_lt) : ids.Nodup := by
  unfold List.Nodup
  refine List.Pairwise.imp ?_ h
  intro a b hab heq
  rw [heq] at hab
  exact lex_lt_irrefl b hab

/-- Successive calls on the ideal bus from any search state: the calls that
return 1 come first and their identities are strictly increasing. -/
theorem calls_any (devs : List (List Nat)) (hvalid : ∀ id ∈ devs, valid_rom id)
    (n : Nat) (g : Driver) (t : DS18B20_t) (hlr : g.last_rom.length = 8)
    (hta : t.address.length = 8) :
    ∃ (rs : List (Nat × List Nat)) (g' : Driver) (t' : DS18B20_t) (ids : List (List Nat))
      (fails : List (Nat × List Nat)),
      search_calls (ideal_bus devs) n g t = some (rs, g', t') ∧
      rs = ids.map (fun x => (1, x)) ++ fails ∧ (∀ r ∈ fails, r.1 = 0) ∧
      (∀ x ∈ ids, x ∈ devs) ∧ ids.Pairwise lex_lt := by
  by_cases hne : devs = []
  · subst hne
    obtain ⟨rs, g', t', hcalls, _, hall⟩ := calls_empty n g t
    exact ⟨rs, g', t', [], rs, hcalls, rfl, hall, by simp, List.Pairwise.nil⟩
  · cases n with
    | zero => exact ⟨[], g, t, [], [], rfl, rfl, by simp, by simp, List.Pairwise.nil⟩
    | succ n =>
      by_cases hflag : g.last_device_flag = 0
      · obtain ⟨g1, t1, hcall, hmem, hrom, hlen, hinv1, hfl1⟩ :=
          search_call_any devs hne hvalid g t hlr hta hflag
        obtain ⟨rs, g', t', ids, fails, hcalls, hrs, _, hfails, hids, hpw, hnil, hgt⟩ :=
          calls_ideal devs hne hvalid n g1 t1 hinv1 hlen
        have hafter : ∀ y ∈ ids, lex_lt t1.address y := by
          intro y hy
          by_cases hf1 : g1.last_device_flag = 0
          · have hd1 : 1 ≤ g1.last_discrepancy := by
              have : g1.last_discrepancy ≠ 0 := fun h => (hfl1.mpr h) hf1
              omega
            rw [← hrom]
            exact hgt hf1 hd1 y hy
          · rw [hnil hf1] at hy
            simp at hy
        refine ⟨(1, t1.address) :: rs, g', t', t1.address :: ids, fails,
          search_calls_cons _ n g g1 g' t t1 t' 1 rs hcall hcalls, ?_, hfails, ?_, ?_⟩
        · rw [hrs]; rfl
        · intro x hx
          rcases List.mem_cons.mp hx with h | h
          · rw [h]; exact hmem
          · exact hids x h
        · exact List.Pairwise.cons hafter hpw
      · refine ⟨List.replicate (n + 1) (0, t.address), g, t, [],
          List.replicate (n + 1) (0, t.address),
          calls_exhausted _ g t hflag (n + 1), by simp, ?_, by simp, List.Pairwise.nil⟩
        intro r hr
        rw [(List.mem_replicate.mp hr).2]

/-- C21: on the ideal bus holding the devices `devs`, whenever a call of
`DS18B20_SearchRom` and the next call both return 1, the value `k` of
`last_discrepancy` left by the first call is at least 1, the second identity
equals the first at every bit number below `k` (bit number `j + 1` is
`rom_bit _ j`), and at bit number `k` the first identity has 0 and the second
has 1, so the first comes before the second in the order `lex_lt`; and in any
number `n` of successive calls the identities of the calls that return 1 are
strictly increasing in that order and no identity occurs twice. -/
theorem search_consecutive_order (devs : List (List Nat))
    (hvalid : ∀ id ∈ devs, valid_rom id) (g : Driver) (t : DS18B20_t)
    (hlr : g.last_rom.length = 8) (hta : t.address.length = 8) :
    (∀ (g1 g2 : Driver) (t1 t2 : DS18B20_t),
        DS18B20_SearchRom (ideal_bus devs) g t = some (1, g1, t1) →
        DS18B20_SearchRom (ideal_bus devs) g1 t1 = some (1, g2, t2) →
        1 ≤ g1.last_discrepancy ∧
          (∀ j, j + 1 < g1.last_discrepancy → rom_bit t2.address j = rom_bit t1.address j) ∧
          rom_bit t1.address (g1.last_discrepancy - 1) = false ∧
          rom_bit t2.address (g1.last_discrepancy - 1) = true ∧
          lex_lt t1.address t2.address) ∧
      (∀ n, ∃ rs g' t', search_calls (ideal_bus devs) n g t = some (rs, g', t') ∧
        ((rs.filter (fun r => decide (r.1 = 1))).map (fun r => r.2)).Pairwise lex_lt ∧
        ((rs.filter (fun r => decide (r.1 = 1))).map (fun r => r.2)).Nodup) := by
  constructor
  · intro g1 g2 t1 t2 h1 h2
    have hflag : g.last_device_flag = 0 := by
      by_contra hf
      rw [search_rom_flag _ g t hf] at h1
      simp at h1
    have hne : devs ≠ [] := by
      intro he
      subst he
      obtain ⟨g0, hc, _⟩ := search_rom_absent (ideal_bus []) g t hflag (by decide)
      rw [hc] at h1
      simp at h1
    obtain ⟨g1', t1', hc, _, hrom, hlen, hinv1, hfl1⟩ :=
      search_call_any devs hne hvalid g t hlr hta hflag
    rw [hc] at h1
    simp only [Option.some.injEq, Prod.mk.injEq, true_and] at h1
    obtain ⟨hg, ht⟩ := h1
    subst hg
    subst ht
    have hflag1 : g1'.last_device_flag = 0 := by
      by_contra hf
      rw [search_rom_flag _ g1' t1' hf] at h2
      simp at h2
    have hd1 : 1 ≤ g1'.last_discrepancy := by
      have : g1'.last_discrepancy ≠ 0 := fun h => (hfl1.mpr h) hflag1
      omega
    obtain ⟨g2', t2', hc2, hlex⟩ :=
      search_call_lex_at devs hne hvalid g1' t1' hinv1 hlen hflag1 hd1
    rw [hc2] at h2
    simp only [Option.some.injEq, Prod.mk.injEq, true_and] at h2
    obtain ⟨hg2, ht2⟩ := h2
    subst hg2
    subst ht2
    rw [hrom] at hlex
    exact ⟨hd1, fun j hj => (hlex.1 j (by omega)).symm, hlex.2.1, hlex.2.2, _, hlex⟩
  · intro n
    obtain ⟨rs, g', t', ids, fails, hcalls, hrs, hfails, _, hpw⟩ :=
      calls_any devs hvalid n g t hlr hta
    have hids : (rs.filter (fun r => decide (r.1 = 1))).map (fun r => r.2) = ids := by
      rw [hrs]
      exact filter_successes ids fails hfails
    refine ⟨rs, g', t', hcalls, ?_, ?_⟩
    · rw [hids]; exact hpw
    · rw [hids]; exact lex_pairwise_nodup ids hpw

set_option maxRecDepth 100000 in
/-- C21 on the bus of `three_devices`, from the initialised search state: the
first two calls return 1 with `28 00 ..` and `28 02 ..`, the first leaves
`last_discrepancy = 10`, and the identities agree on bit numbers 1 to 9 and
have 0 and 1 at bit number 10; the identities of four successive calls that
return 1 are strictly increasing. -/
theorem search_consecutive_order_witness :
    (∀ id ∈ three_devices, valid_rom id) ∧ Driver.initial.last_rom.length = 8 ∧
      (DS18B20_t.fresh [0, 0, 0, 0, 0, 0, 0, 0]).address.length = 8 ∧
      (∃ (g1 g2 : Driver) (t1 t2 : DS18B20_t),
        DS18B20_SearchRom (ideal_bus three_devices) Driver.initial
            (DS18B20_t.fresh [0, 0, 0, 0, 0, 0, 0, 0]) = some (1, g1, t1) ∧
        DS18B20_SearchRom (ideal_bus three_devices) g1 t1 = some (1, g2, t2) ∧
        g1.last_discrepancy = 10 ∧ t1.address = [0x28, 0x00, 0, 0, 0, 0, 0, 0] ∧
        t2.address = [0x28, 0x02, 0, 0, 0, 0, 0, 0] ∧
        1 ≤ g1.last_discrepancy ∧
        (∀ j, j + 1 < g1.last_discrepancy → rom_bit t2.address j = rom_bit t1.address j) ∧
        rom_bit t1.address (g1.last_discrepancy - 1) = false ∧
        rom_bit t2.address (g1.last_discrepancy - 1) = true ∧
        lex_lt t1.address t2.address) ∧
      (∃ rs g' t', search_calls (ideal_bus three_devices) 4 Driver.initial
            (DS18B20_t.fresh [0, 0, 0, 0, 0, 0, 0, 0]) = some (rs, g', t') ∧
        ((rs.filter (fun r => decide (r.1 = 1))).map (fun r => r.2)).Pairwise lex_lt ∧
        ((rs.filter (fun r => decide (r.1 = 1))).map (fun r => r.2)).Nodup) := by
  have hv : ∀ id ∈ three_devices, valid_rom id := by decide
  refine ⟨hv, rfl, rfl, ?_,
    (search_consecutive_order three_devices hv Driver.initial
      (DS18B20_t.fresh [0, 0, 0, 0, 0, 0, 0, 0]) rfl rfl).2 4⟩
  obtain ⟨g1, t1, h1, _, _, hlen, hinv, _⟩ :=
    search_call_any three_devices (by decide) hv Driver.initial
      (DS18B20_t.fresh [0, 0, 0, 0, 0, 0, 0, 0]) rfl rfl rfl
  have e1 : (DS18B20_SearchRom (ideal_bus three_devices) Driver.initial
      (DS18B20_t.fresh [0, 0, 0, 0, 0, 0, 0, 0])).map
        (fun r => (r.2.1.last_device_flag, r.2.1.last_discrepancy, r.2.2.address))
      = some (0, 10, [0x28, 0x00, 0, 0, 0, 0, 0, 0]) := by decide
  have e2 : ((DS18B20_SearchRom (ideal_bus three_devices) Driver.initial
      (DS18B20_t.fresh [0, 0, 0, 0, 0, 0, 0, 0])).bind
        (fun r => DS18B20_SearchRom (ideal_bus three_devices) r.2.1 r.2.2)).map
        (fun r => r.2.2.address)
      = some [0x28, 0x02, 0, 0, 0, 0, 0, 0] := by decide
  rw [h1] at e1 e2
  simp only [Option.map_some', Option.some.injEq, Prod.mk.injEq] at e1
  obtain ⟨hf1, hd1, ha1⟩ := e1
  obtain ⟨g2, t2, h2, _⟩ := search_call_any three_devices (by decide) hv g1 t1 hinv.1 hlen hf1
  rw [Option.some_bind, h2] at e2
  simp only [Option.map_some', Option.some.injEq] at e2
  exact ⟨g1, g2, t1, t2, h1, h2, hd1, ha1, e2,
    (search_consecutive_order three_devices hv Driver.initial
      (DS18B20_t.fresh [0, 0, 0, 0, 0, 0, 0, 0]) rfl rfl).1 g1 g2 t1 t2 h1 h2⟩

end DS18B20
